import Mathlib

/-!
lbpkr `yum` backends: a shallow embedding.

The development embeds the two repository backends of `src/yum`
(`xmlbackend.go`, `sqlitebackend.go`) and states the properties of the
natural-language specification about them.

Conventions of the embedding:

* a Go `*Package` held by the XML backend is an address (`PkgPtr`) into `heap`,
  the list of `Package` objects allocated so far; the relational backend builds
  fresh objects on every query and hands them out by value, each carrying the
  address it was allocated at in the back-references of its provides;
* a Go `map[string]V` is a partial function `String → Option V`;
* `fmt.Errorf(format, args...)` is kept as the pair of its format and arguments;
  `GoError.Error` renders the message, with `%q` as `strconv.Quote`;
* the relational lookups are given twice: on the tables of a database whose queries
  all run through (`RepositorySQLiteBackend`), and on a handle whose queries may end
  with an error of `database/sql`, which the lookups forward (`sqlDB`);
* where the effect of a query on memory matters (`XMLStore`), a Go slice is a
  header (`Slice`: backing array and length) into a list of backing arrays, and
  `make`, `copy`, `append` and `sort.Sort` act on these arrays; `toBackend` reads
  such a memory back as the lists used everywhere else;
* a relational table is the list of its rows in the order a `select` without
  `order by` yields them; a text column is `Option String` (`none` is SQL NULL).
-/

namespace Yum

/-! ## Data model -/

/-- The versioned identity `rpmBase` embedded in packages, provides and requires. -/
structure rpmBase where
  name : String
  version : String
  release : String
  epoch : String
  flags : String
deriving DecidableEq, Repr, Inhabited

/-- Address of a heap-allocated `Package` (a non-nil `*Package`). -/
abbrev PkgPtr := Nat

/-- Go `Requires`: an `rpmBase` and the `pre` marker. -/
structure Requires extends rpmBase where
  pre : String
deriving DecidableEq, Repr, Inhabited

/-- Go `Provides`: an `rpmBase` and the back-reference `Package *Package`
(`none` is the nil pointer). -/
structure Provides extends rpmBase where
  Package : Option PkgPtr
deriving DecidableEq, Repr, Inhabited

/-- Go `Package`: an `rpmBase`, the descriptive fields and the two sequences.
The `repository` back-reference is the same for every package of a backend and is
left out. -/
structure Package extends rpmBase where
  group : String
  arch : String
  location : String
  requires : List Requires
  provides : List Provides
deriving DecidableEq, Repr, Inhabited

/-- The value returned by `fmt.Errorf(format, args...)`: the format and its
arguments (each `%q` verb renders the corresponding argument Go-quoted). -/
structure GoError where
  format : String
  args : List String
deriving DecidableEq, Repr, Inhabited

/-- Go `fmt.Errorf` applied to string arguments. -/
def fmtErrorf (format : String) (args : List String) : GoError :=
  { format := format, args := args }

/-- A Go `map[string]V`. -/
abbrev GoMap (V : Type) := String → Option V

/-- The assignment `m[k] = v`. -/
def GoMap.set {V : Type} (m : GoMap V) (k : String) (v : V) : GoMap V :=
  fun j => if j = k then some v else m j

/-- The expression `append(m[k], x)` for a map of slices: a missing key yields the
nil slice. -/
def GoMap.appendAt {V : Type} (m : GoMap (List V)) (k : String) (x : V) : List V :=
  (m k).getD [] ++ [x]

/-- The map after a run of `m[k] = append(m[k], x)` assignments that adds, in order,
the elements `new k` under each key `k`: a key that receives nothing keeps its
state, also when it is absent. -/
def GoMap.extend {V : Type} (m : GoMap (List V)) (new : String → List V) : GoMap (List V) :=
  fun k =>
    match new k with
    | [] => m k
    | x :: xs => some ((m k).getD [] ++ x :: xs)

/-! ## Version comparator and matcher (`rpm.go`, not part of `src/`) -/

/-- One run of a version string. -/
inductive Seg where
  | tilde
  | stop
  | alpha (s : List Char)
  | num (digits : List Char)
deriving DecidableEq, Repr

/-- Modelled from the spec: the splitting of a version string "into maximal
alphabetic and numeric runs" of §4.2 (the splitting code is missing from `src/`).
Letters form alphabetic runs, digits numeric runs, a tilde stands for itself and
every other character only separates runs. -/
def segments : List Char → List Seg
  | [] => []
  | c :: cs =>
    if c = '~' then Seg.tilde :: segments cs
    else if c.isDigit then
      match cs.head?, segments cs with
      | some d, Seg.num ds :: rest =>
        if d.isDigit then Seg.num (c :: ds) :: rest else Seg.num [c] :: Seg.num ds :: rest
      | _, rest => Seg.num [c] :: rest
    else if c.isAlpha then
      match cs.head?, segments cs with
      | some d, Seg.alpha ds :: rest =>
        if d.isAlpha then Seg.alpha (c :: ds) :: rest else Seg.alpha [c] :: Seg.alpha ds :: rest
      | _, rest => Seg.alpha [c] :: rest
    else segments cs

/-- Value of a run of decimal digits. -/
def natOfDigits (ds : List Char) : Nat :=
  ds.foldl (fun n c => 10 * n + (c.toNat - 48)) 0

/-- Lexicographic comparison of two lists (a proper prefix is smaller). -/
def lexCmp {α : Type} (cmp : α → α → Ordering) : List α → List α → Ordering
  | [], [] => Ordering.eq
  | [], _ :: _ => Ordering.lt
  | _ :: _, [] => Ordering.gt
  | a :: as, b :: bs => (cmp a b).then (lexCmp cmp as bs)

/-- Rank of the kind of a run: tilde below the end of the string, below an
alphabetic run, below a numeric run. -/
def Seg.rank : Seg → Nat
  | Seg.tilde => 0
  | Seg.stop => 1
  | Seg.alpha _ => 2
  | Seg.num _ => 3

/-- Modelled from the spec: comparison of two runs (§4.2, the code is missing from
`src/`): "numeric runs compare numerically", "alphabetic runs compare lexically",
"a tilde character sorts lower than any other character ... including lower than
the empty continuation", and a run wins over the absence of a run of its kind. -/
def cmpSeg : Seg → Seg → Ordering
  | Seg.alpha a, Seg.alpha b => lexCmp (fun x y => compare x.toNat y.toNat) a b
  | Seg.num a, Seg.num b => compare (natOfDigits a) (natOfDigits b)
  | a, b => compare a.rank b.rank

/-- The runs of a version string, closed by the end-of-string marker. -/
def verKey (s : String) : List Seg :=
  segments s.toList ++ [Seg.stop]

/-- Modelled from the spec: the component comparator of §4.2 (`compare` in §8; the
code is missing from `src/`): run-by-run comparison of the two strings. -/
def rpmvercmp (a b : String) : Ordering :=
  lexCmp cmpSeg (verKey a) (verKey b)

/-- Modelled from the spec: "epoch (string/integer, empty treated as 0)". -/
def normEpoch (e : String) : String :=
  if e = "" then "0" else e

/-- Modelled from the spec: the version comparator of §4.2 (missing from `src/`):
"Epoch, version, and release are compared independently in that priority order". -/
def RpmCompare (a b : rpmBase) : Ordering :=
  (rpmvercmp (normEpoch a.epoch) (normEpoch b.epoch)).then
    ((rpmvercmp a.version b.version).then (rpmvercmp a.release b.release))

/-- Modelled from the spec: "Two versioned identities are equal only if epoch,
version, and release compare equal under this algorithm" (§4.2). -/
def RpmEqual (a b : rpmBase) : Bool :=
  RpmCompare a b == Ordering.eq

/-- Modelled from the spec: the order "by versioned identity ascending" used by
the `Less` methods of the `Packages` and `RPMSlice` sort adaptors (§4.3; the
adaptors are missing from `src/`). -/
def RpmLessThan (a b : rpmBase) : Bool :=
  RpmCompare a b == Ordering.lt

/-- Modelled from the spec: `ProvideMatches(requirement, candidate)` of §4.3
(missing from `src/`): the names are equal, and either side's version is empty or
the comparison of the candidate with the requirement satisfies the requirement's
flag ("flag GE requires candidate ≥ requirement"). -/
def ProvideMatches (req p : rpmBase) : Bool :=
  if req.name ≠ p.name then false
  else if req.version = "" ∨ p.version = "" then true
  else if req.flags = "EQ" then RpmEqual p req
  else if req.flags = "LT" then RpmCompare p req == Ordering.lt
  else if req.flags = "LE" then RpmCompare p req != Ordering.gt
  else if req.flags = "GT" then RpmCompare p req == Ordering.gt
  else if req.flags = "GE" then RpmCompare p req != Ordering.lt
  else false

/-- Go `sort.Sort` (standard library) on a slice whose `Less(i, j)` is `less` of
the two elements: modelled by a stable insertion sort, the algorithm `sort.Sort`
itself runs on short slices. On longer slices `sort.Sort` is not stable, so among
elements tied in the order it may put another one last; the last element is a
greatest element of the slice either way. -/
def sortSort {α : Type} (less : α → α → Bool) (l : List α) : List α :=
  List.insertionSort (fun a b => less b a = false) l

/-- Modelled from the spec: the constructor `NewRequires(name, version, release,
epoch, flags, pre)` (missing from `src/`) stores its arguments. -/
def NewRequires (name version release epoch flags pre : String) : Requires :=
  { name := name, version := version, release := release, epoch := epoch,
    flags := flags, pre := pre }

/-- Modelled from the spec: the constructor `NewProvides(name, version, release,
epoch, flags, pkg)` (missing from `src/`) stores its arguments; `pkg` is the
back-reference to the owning package. -/
def NewProvides (name version release epoch flags : String) (pkg : Option PkgPtr) :
    Provides :=
  { name := name, version := version, release := release, epoch := epoch,
    flags := flags, Package := pkg }

/-- Modelled from the spec: the constructor `NewPackage(name, version, release,
epoch)` (missing from `src/`) stores its arguments and leaves every other field at
its zero value. -/
def NewPackage (name version release epoch : String) : Package :=
  { name := name, version := version, release := release, epoch := epoch,
    flags := "", group := "", arch := "", location := "", requires := [],
    provides := [] }

/-- Modelled from the spec: `str_in_slice(s, slice)` (missing from `src/`) tells
whether `s` "belong[s] to" the list. -/
def str_in_slice (s : String) (slice : List String) : Bool :=
  slice.contains s

/-- The `Less` of the `RPMSlice` sort adaptor on a slice of `*Provides`. -/
def lessProv (p q : Provides) : Bool :=
  RpmLessThan p.torpmBase q.torpmBase

/-- The `Less` of the `RPMSlice` sort adaptor on a slice of packages. -/
def lessPackage (p q : Package) : Bool :=
  RpmLessThan p.torpmBase q.torpmBase

/-! ## The XML backend (`xmlbackend.go`) -/

/-- An `entry` of `provides` in the decoded document. -/
structure xmlProvidesEntry where
  Name : String
  Flags : String
  Epoch : String
  Version : String
  Release : String
deriving DecidableEq, Repr, Inhabited

/-- An `entry` of `requires` in the decoded document. -/
structure xmlRequiresEntry where
  Name : String
  Flags : String
  Epoch : String
  Version : String
  Release : String
  Pre : String
deriving DecidableEq, Repr, Inhabited

/-- The `version` element of a package. -/
structure xmlVersion where
  Epoch : String
  Version : String
  Release : String
deriving DecidableEq, Repr, Inhabited

/-- The `location` element of a package. -/
structure xmlLocation where
  Href : String
deriving DecidableEq, Repr, Inhabited

/-- The `format` element of a package (the fields `LoadDB` reads). -/
structure xmlFormat where
  Group : String
  Provides : List xmlProvidesEntry
  Requires : List xmlRequiresEntry
deriving DecidableEq, Repr, Inhabited

/-- A `package` element of the decoded document (the fields `LoadDB` reads). -/
structure xmlPackage where
  Name : String
  Arch : String
  Version : xmlVersion
  Location : xmlLocation
  Format : xmlFormat
deriving DecidableEq, Repr, Inhabited

/-- The decoded `metadata` document. -/
structure xmlTree where
  Packages : List xmlPackage
deriving DecidableEq, Repr, Inhabited

/-- Go `RepositoryXMLBackend` together with `heap`, the `Package` objects its
pointers refer to (`heap[a]` is the object at address `a`). The `Repository` and
`msg` collaborators are left out. -/
structure RepositoryXMLBackend where
  Name : String
  Packages : GoMap (List PkgPtr)
  Provides : GoMap (List Provides)
  DBName : String
  Primary : String
  heap : List Package

/-- Go `NewRepositoryXMLBackend`; `primary` is the path
`filepath.Join(repo.CacheDir, dbname)`. -/
def NewRepositoryXMLBackend (primary : String) : RepositoryXMLBackend :=
  { Name := "RepositoryXMLBackend",
    Packages := fun _ => none,
    Provides := fun _ => none,
    DBName := "primary.xml.gz",
    Primary := primary,
    heap := [] }

namespace RepositoryXMLBackend

/-- The object a `*Package` of the backend points to. Every address the backend
stores lies inside `heap`; the default is never reached from such an address. -/
def deref (repo : RepositoryXMLBackend) (p : PkgPtr) : Package :=
  repo.heap.getD p default

/-- Go `YumDataType`. -/
def YumDataType (_repo : RepositoryXMLBackend) : String :=
  "primary"

/-- Go `Close`. -/
def Close (_repo : RepositoryXMLBackend) : Option GoError :=
  none

/-- The body of the loop over `xml.Format.Provides` in `LoadDB`: `st.1` is the
package under construction, allocated at `self`, and `st.2` is `repo.Provides`. -/
def loadProvidesEntry (IGNORED_PACKAGES : List String) (self : PkgPtr)
    (st : Package × GoMap (List Yum.Provides)) (v : xmlProvidesEntry) :
    Package × GoMap (List Yum.Provides) :=
  let prov := NewProvides v.Name v.Version v.Release v.Epoch v.Flags (some self)
  let pkg := { st.1 with provides := st.1.provides ++ [prov] }
  if !str_in_slice prov.name IGNORED_PACKAGES then
    (pkg, st.2.set prov.name (st.2.appendAt prov.name prov))
  else
    (pkg, st.2)

/-- The body of the loop over `xml.Format.Requires` in `LoadDB`. -/
def loadRequiresEntry (pkg : Package) (v : xmlRequiresEntry) : Package :=
  let req := NewRequires v.Name v.Version v.Release v.Epoch v.Flags v.Pre
  { pkg with requires := pkg.requires ++ [req] }

/-- The body of the loop over `tree.Packages` in `LoadDB`: builds one package at a
fresh address and enters it into both indexes. -/
def loadPackage (IGNORED_PACKAGES : List String) (repo : RepositoryXMLBackend)
    (xml : xmlPackage) : RepositoryXMLBackend :=
  let self : PkgPtr := repo.heap.length
  let pkg := NewPackage xml.Name xml.Version.Version xml.Version.Release xml.Version.Epoch
  let pkg := { pkg with arch := xml.Arch }
  let pkg := { pkg with group := xml.Format.Group }
  let pkg := { pkg with location := xml.Location.Href }
  let st := xml.Format.Provides.foldl (loadProvidesEntry IGNORED_PACKAGES self)
    (pkg, repo.Provides)
  let pkg := xml.Format.Requires.foldl loadRequiresEntry st.1
  { repo with
    Provides := st.2,
    Packages := repo.Packages.set pkg.name (repo.Packages.appendAt pkg.name self),
    heap := repo.heap ++ [pkg] }

/-- Go `LoadDB`. `decoded` is the outcome of opening, decompressing and decoding
the cached file: an error is returned as it is, a decoded document is entered
package by package. `IGNORED_PACKAGES` is the package-level list of that name,
whose declaration is missing from `src/`. -/
def LoadDB (IGNORED_PACKAGES : List String) (repo : RepositoryXMLBackend)
    (decoded : Except GoError xmlTree) : RepositoryXMLBackend × Option GoError :=
  match decoded with
  | Except.error err => (repo, some err)
  | Except.ok tree => (tree.Packages.foldl (loadPackage IGNORED_PACKAGES) repo, none)

/-- The `Less` of the `Packages` sort adaptor on a slice of `*Package`. -/
def lessPkg (repo : RepositoryXMLBackend) (p q : PkgPtr) : Bool :=
  RpmLessThan (repo.deref p).torpmBase (repo.deref q).torpmBase

/-- Go `FindLatestMatchingName` of the XML backend. -/
def FindLatestMatchingName (repo : RepositoryXMLBackend) (name version release : String) :
    Option PkgPtr × Option GoError :=
  match repo.Packages name with
  | none => (none, some (fmtErrorf "no such package %q" [name]))
  | some pkgs =>
    if version = "" ∧ pkgs.length > 0 then
      let sorted := sortSort repo.lessPkg pkgs
      (sorted.getLast?, none)
    else
      let req := NewRequires name version release "" "EQ" ""
      let sorted := pkgs.filter (fun p => ProvideMatches req.torpmBase (repo.deref p).torpmBase)
      if sorted.length > 0 then
        ((sortSort repo.lessPkg sorted).getLast?, none)
      else
        (none, none)

/-- Go `FindLatestMatchingRequire` of the XML backend. -/
def FindLatestMatchingRequire (repo : RepositoryXMLBackend) (requirement : Requires) :
    Option PkgPtr × Option GoError :=
  match repo.Provides requirement.name with
  | none =>
    (none, some (fmtErrorf "no package providing name=%q version=%q release=%q"
      [requirement.name, requirement.version, requirement.release]))
  | some pkgs =>
    if requirement.version = "" ∧ pkgs.length > 0 then
      let sorted := sortSort lessProv pkgs
      (sorted.getLast?.bind (fun p => p.Package), none)
    else
      let sorted := pkgs.filter (fun p => ProvideMatches requirement.torpmBase p.torpmBase)
      if sorted.length > 0 then
        ((sortSort lessProv sorted).getLast?.bind (fun p => p.Package), none)
      else
        (none, none)

/-- Go `GetPackages` of the XML backend; `iter` is the order in which `range`
visits the keys of `repo.Packages` (Go leaves it unspecified). -/
def GetPackages (repo : RepositoryXMLBackend) (iter : List String) : List PkgPtr :=
  iter.foldl (fun pkgs k => pkgs ++ (repo.Packages k).getD []) []

/-- An order in which `range repo.Packages` may visit the keys: every key once. -/
def IsKeyOrder (repo : RepositoryXMLBackend) (iter : List String) : Prop :=
  iter.Nodup ∧ ∀ k, k ∈ iter ↔ (repo.Packages k).isSome

end RepositoryXMLBackend

/-! ### What `LoadDB` computes, in closed form -/

/-- The versioned identity `LoadDB` gives the package of an element. -/
def xmlPackage.rpm (x : xmlPackage) : rpmBase :=
  (NewPackage x.Name x.Version.Version x.Version.Release x.Version.Epoch).torpmBase

/-- The `Provides` value `LoadDB` builds for an entry of a package allocated at
`self`. -/
def providesOf (self : PkgPtr) (v : xmlProvidesEntry) : Provides :=
  NewProvides v.Name v.Version v.Release v.Epoch v.Flags (some self)

/-- The `Requires` value `LoadDB` builds for an entry. -/
def requiresOf (v : xmlRequiresEntry) : Requires :=
  NewRequires v.Name v.Version v.Release v.Epoch v.Flags v.Pre

/-- The `Package` object `LoadDB` builds for an element allocated at `self`. -/
def packageOf (self : PkgPtr) (x : xmlPackage) : Package :=
  { x.rpm with
    group := x.Format.Group,
    arch := x.Arch,
    location := x.Location.Href,
    requires := x.Format.Requires.map requiresOf,
    provides := x.Format.Provides.map (providesOf self) }

/-- The entries an element allocated at `self` adds to `repo.Provides[k]`. -/
def providesAt (IGNORED_PACKAGES : List String) (k : String) (self : PkgPtr)
    (x : xmlPackage) : List Provides :=
  (x.Format.Provides.map (providesOf self)).filter
    (fun p => decide (p.name = k) && !str_in_slice p.name IGNORED_PACKAGES)

/-- The entries the elements `xs`, allocated from `base` on, add to
`repo.Provides[k]`. -/
def indexProvides (IGNORED_PACKAGES : List String) (k : String) :
    Nat → List xmlPackage → List Provides
  | _, [] => []
  | base, x :: xs =>
    providesAt IGNORED_PACKAGES k base x ++ indexProvides IGNORED_PACKAGES k (base + 1) xs

/-- The addresses the elements `xs`, allocated from `base` on, add to
`repo.Packages[k]`. -/
def indexPackages (k : String) : Nat → List xmlPackage → List PkgPtr
  | _, [] => []
  | base, x :: xs => (if x.Name = k then [base] else []) ++ indexPackages k (base + 1) xs

/-- The objects allocated for the elements `xs` from address `base` on. -/
def allocPackages : Nat → List xmlPackage → List Package
  | _, [] => []
  | base, x :: xs => packageOf base x :: allocPackages (base + 1) xs

/-! ## The relational backend (`sqlitebackend.go`) -/

/-- A row of `packages`. -/
structure PackagesRow where
  pkgkey : Int
  name : Option String
  version : Option String
  release : Option String
  epoch : Option String
  rpm_group : Option String
  arch : Option String
  location_href : Option String
deriving DecidableEq, Repr, Inhabited

/-- A row of `provides`. -/
structure ProvidesRow where
  pkgkey : Int
  name : Option String
  version : Option String
  release : Option String
  epoch : Option String
  flags : Option String
deriving DecidableEq, Repr, Inhabited

/-- A row of `requires`. -/
structure RequiresRow where
  pkgkey : Int
  name : Option String
  version : Option String
  release : Option String
  epoch : Option String
  flags : Option String
  pre : Option String
deriving DecidableEq, Repr, Inhabited

/-- The contents of the opened `primary.sqlite`. -/
structure DB where
  packages : List PackagesRow
  provides : List ProvidesRow
  requires : List RequiresRow
deriving DecidableEq, Repr, Inhabited

/-- Go `string(b)` of a `[]byte` a text column was scanned into: NULL scans to the
nil slice, whose string is empty. -/
def goString (b : Option String) : String :=
  b.getD ""

/-- The SQL condition `column = ?` with a Go string bound to the placeholder: a
NULL column satisfies no comparison. -/
def sqlEq (column : Option String) (arg : String) : Bool :=
  column == some arg

/-- Go `RepositorySQLiteBackend`; `db` is the database the handle is connected to
(`none` before `LoadDB`). The `Repository` and `msg` collaborators are left out. -/
structure RepositorySQLiteBackend where
  Name : String
  DBNameCompr : String
  DBName : String
  PrimaryCompr : String
  Primary : String
  db : Option DB

namespace RepositorySQLiteBackend

/-- Go `YumDataType`. -/
def YumDataType (_repo : RepositorySQLiteBackend) : String :=
  "primary_db"

/-- The body of the row loop of Go `loadProvides`; `self` is the address of the
package being filled in. -/
def scanProvides (self : PkgPtr) (pkg : Package) (row : ProvidesRow) : Package :=
  let p : Provides :=
    { name := goString row.name, version := goString row.version,
      release := goString row.release, epoch := goString row.epoch,
      flags := goString row.flags, Package := some self }
  { pkg with provides := pkg.provides ++ [p] }

/-- Go `loadProvides`: `select ... from provides where pkgkey=?`. -/
def loadProvides (db : DB) (pkgkey : Int) (self : PkgPtr) (pkg : Package) : Package :=
  (db.provides.filter (fun r => r.pkgkey = pkgkey)).foldl (scanProvides self) pkg

/-- The body of the row loop of Go `loadRequires`. -/
def scanRequires (pkg : Package) (row : RequiresRow) : Package :=
  let req : Requires :=
    { name := goString row.name, version := goString row.version,
      release := goString row.release, epoch := goString row.epoch,
      flags := goString row.flags, pre := goString row.pre }
  let req := if req.flags = "" then { req with flags := "EQ" } else req
  { pkg with requires := pkg.requires ++ [req] }

/-- Go `loadRequires`: `select ... from requires where pkgkey=?`. -/
def loadRequires (db : DB) (pkgkey : Int) (pkg : Package) : Package :=
  (db.requires.filter (fun r => r.pkgkey = pkgkey)).foldl scanRequires pkg

/-- Go `newPackageFromScan`; `self` is the address of the new `Package`. -/
def newPackageFromScan (db : DB) (self : PkgPtr) (row : PackagesRow) : Package :=
  let pkg : Package :=
    { name := goString row.name, version := goString row.version,
      release := goString row.release, epoch := goString row.epoch, flags := "",
      group := goString row.rpm_group, arch := goString row.arch,
      location := goString row.location_href, requires := [], provides := [] }
  let pkg := loadRequires db row.pkgkey pkg
  loadProvides db row.pkgkey self pkg

/-- The row loop shared by the package queries: every row is scanned into a
package allocated at the next address from `fresh` on. -/
def scanPackages (db : DB) (fresh : PkgPtr) (rows : List PackagesRow) : List Package :=
  rows.foldl (fun pkgs row => pkgs ++ [newPackageFromScan db (fresh + pkgs.length) row]) []

/-- Go `loadPackagesByName`: `select ... from packages where name = ?`, with
`and version = ?` when `version` is not empty. -/
def loadPackagesByName (db : DB) (fresh : PkgPtr) (name version : String) : List Package :=
  let rows :=
    if version ≠ "" then
      db.packages.filter (fun r => sqlEq r.name name && sqlEq r.version version)
    else
      db.packages.filter (fun r => sqlEq r.name name)
  scanPackages db fresh rows

/-- Go `findProvidesByName`: `select ... from provides where name=?`. -/
def findProvidesByName (db : DB) (name : String) : List Provides :=
  (db.provides.filter (fun r => sqlEq r.name name)).foldl
    (fun provides row =>
      let p : Provides :=
        { name := goString row.name, version := goString row.version,
          release := goString row.release, epoch := goString row.epoch,
          flags := goString row.flags, Package := none }
      provides ++ [p])
    []

/-- The rows of the join `from packages p, provides r where p.pkgkey = r.pkgkey
and r.name = ? and r.version = ?` (with `and r.release = ?` when the release is not
empty) of Go `loadPackagesProviding`: one `packages` row per matching pair, the
pairs enumerated with `packages` as the outer table. SQL fixes no order for a join
without `order by`, and the database may yield the same rows in another order. -/
def joinProviding (db : DB) (prov : Provides) : List PackagesRow :=
  db.packages.foldl
    (fun rows p =>
      rows ++ (db.provides.filter (fun r =>
        decide (p.pkgkey = r.pkgkey) && sqlEq r.name prov.name && sqlEq r.version prov.version
          && (if prov.release ≠ "" then sqlEq r.release prov.release else true))).map
        (fun _ => p))
    []

/-- Go `loadPackagesProviding`. -/
def loadPackagesProviding (db : DB) (fresh : PkgPtr) (prov : Provides) : List Package :=
  scanPackages db fresh (joinProviding db prov)

/-- Go `FindLatestMatchingName` of the relational backend on the open database
`db`; the packages it builds are allocated from address `fresh` on. This is the
lookup on a handle all of whose queries run through; `sqlDB.FindLatestMatchingName`
has the return that forwards an error of the database as well. -/
def FindLatestMatchingName (db : DB) (fresh : PkgPtr) (name version release : String) :
    Option Package × Option GoError :=
  let pkgs := loadPackagesByName db fresh name version
  let req := NewRequires name version release "" "EQ" ""
  let matching := pkgs.filter (fun pkg => ProvideMatches req.torpmBase pkg.torpmBase)
  if matching.length ≤ 0 then
    (none, some (fmtErrorf "no such package %q" [name]))
  else
    ((sortSort lessPackage matching).getLast?, none)

/-- Go `FindLatestMatchingRequire` of the relational backend on the open database
`db`; the packages it builds are allocated from address `fresh` on. This is the
lookup on a handle all of whose queries run through; `sqlDB.FindLatestMatchingRequire`
has the two returns that forward an error of the database as well. -/
def FindLatestMatchingRequire (db : DB) (fresh : PkgPtr) (requirement : Requires) :
    Option Package × Option GoError :=
  let provides := findProvidesByName db requirement.name
  let matching := provides.filter (fun pr => ProvideMatches requirement.torpmBase pr.torpmBase)
  match matching with
  | [] =>
    (none, some (fmtErrorf "no package providing name=%q version=%q release=%q"
      [requirement.name, requirement.version, requirement.release]))
  | m :: ms =>
    let sorted := sortSort lessProv (m :: ms)
    let prov := sorted.getLastD m
    let pkgs := loadPackagesProviding db fresh prov
    if pkgs.length ≤ 0 then
      (none, some (fmtErrorf "no such package %q" [requirement.name]))
    else
      ((sortSort lessPackage pkgs).getLast?, none)

end RepositorySQLiteBackend

/-- The seven scalar fields of a package: its versioned identity, group, arch and
location. -/
def Package.header (p : Package) : rpmBase × String × String × String :=
  (p.torpmBase, p.group, p.arch, p.location)

/-- The seven scalar fields of the package of a catalog element. -/
def xmlPackage.header (x : xmlPackage) : rpmBase × String × String × String :=
  (x.rpm, x.Format.Group, x.Arch, x.Location.Href)

/-! ### What the row scans compute, in closed form -/

/-- The seven scalar fields of the package of a `packages` row. -/
def PackagesRow.header (row : PackagesRow) : rpmBase × String × String × String :=
  ({ name := goString row.name, version := goString row.version,
     release := goString row.release, epoch := goString row.epoch, flags := "" },
    goString row.rpm_group, goString row.arch, goString row.location_href)

/-- The versioned identity `newPackageFromScan` gives the package of a row. -/
def PackagesRow.rpm (row : PackagesRow) : rpmBase :=
  { name := goString row.name, version := goString row.version,
    release := goString row.release, epoch := goString row.epoch, flags := "" }

/-- The `Provides` value the scans build from a row, with back-reference `owner`
(`loadProvides` stores the package, `findProvidesByName` stores nil). -/
def ProvidesRow.toProvides (owner : Option PkgPtr) (row : ProvidesRow) : Provides :=
  { name := goString row.name, version := goString row.version,
    release := goString row.release, epoch := goString row.epoch,
    flags := goString row.flags, Package := owner }

/-- The `Requires` value `loadRequires` builds from a row. -/
def RequiresRow.toRequires (row : RequiresRow) : Requires :=
  { name := goString row.name, version := goString row.version,
    release := goString row.release, epoch := goString row.epoch,
    flags := if goString row.flags = "" then "EQ" else goString row.flags,
    pre := goString row.pre }

/-- The rows `loadPackagesByName` selects: the name column equals `name` and, when
`version` is not empty, the version column equals `version`. -/
def selectedByName (name version : String) (r : PackagesRow) : Bool :=
  sqlEq r.name name && (decide (version = "") || sqlEq r.version version)

/-! ## Example catalogs -/

/-- The catalog element of package `name-version-release` with the given provides. -/
def exElement (name version release : String) (provides : List xmlProvidesEntry) : xmlPackage :=
  { Name := name, Arch := "noarch",
    Version := { Epoch := "0", Version := version, Release := release },
    Location := { Href := name ++ "-" ++ version ++ "-" ++ release ++ ".noarch.rpm" },
    Format := { Group := "tools", Provides := provides, Requires := [] } }

/-- The `packages` row of package `name-version-release` with key `pkgkey`. -/
def exRow (pkgkey : Int) (name version release : String) : PackagesRow :=
  { pkgkey := pkgkey, name := some name, version := some version, release := some release,
    epoch := some "0", rpm_group := some "tools", arch := some "noarch",
    location_href := some (name ++ "-" ++ version ++ "-" ++ release ++ ".noarch.rpm") }

/-- The XML catalog of `foo-1.0-1`, `foo-1.2-1` and `foo-1.1-3`. -/
def exTree : xmlTree :=
  { Packages := [exElement "foo" "1.0" "1" [], exElement "foo" "1.2" "1" [],
      exElement "foo" "1.1" "3" []] }

/-- The relational catalog of `foo-1.0-1`, `foo-1.2-1` and `foo-1.1-3`. -/
def exDB : DB :=
  { packages := [exRow 1 "foo" "1.0" "1", exRow 2 "foo" "1.2" "1", exRow 3 "foo" "1.1" "3"],
    provides := [], requires := [] }

/-- A relational catalog whose only package is `foo-1.00-1`. -/
def exDBSpelling : DB :=
  { packages := [exRow 1 "foo" "1.00" "1"], provides := [], requires := [] }

/-- An XML catalog with provides: `foo-1.0-1` provides `foo = 1.0-1` and
`/bin/sh`, `bar-2.0-1` provides `libbar = 2.0-1`. -/
def exProvTree : xmlTree :=
  { Packages :=
      [exElement "foo" "1.0" "1"
        [{ Name := "foo", Flags := "EQ", Epoch := "0", Version := "1.0", Release := "1" },
         { Name := "/bin/sh", Flags := "", Epoch := "", Version := "", Release := "" }],
       exElement "bar" "2.0" "1"
        [{ Name := "libbar", Flags := "EQ", Epoch := "0", Version := "2.0", Release := "1" }]] }

/-- The relational catalog of the same content. The unversioned provide `/bin/sh`
has NULL in its version, release, epoch and flags columns. -/
def exProvDB : DB :=
  { packages := [exRow 1 "foo" "1.0" "1", exRow 2 "bar" "2.0" "1"],
    provides :=
      [{ pkgkey := 1, name := some "foo", version := some "1.0", release := some "1",
         epoch := some "0", flags := some "EQ" },
       { pkgkey := 1, name := some "/bin/sh", version := none, release := none,
         epoch := none, flags := none },
       { pkgkey := 2, name := some "libbar", version := some "2.0", release := some "1",
         epoch := some "0", flags := some "EQ" }],
    requires :=
      [{ pkgkey := 1, name := some "/bin/sh", version := none, release := none,
         epoch := none, flags := none, pre := some "FALSE" }] }

/-- The entry `prov` that `FindLatestMatchingRequire` of the relational backend
looks up in its second pass: the last of the sorted matching provides rows. -/
def winningProvides (db : DB) (requirement : Requires) : Option Provides :=
  (sortSort lessProv ((RepositorySQLiteBackend.findProvidesByName db requirement.name).filter
    (fun pr => ProvideMatches requirement.torpmBase pr.torpmBase))).getLast?

/-- The SQL condition of the second pass on a pair of a `packages` row and a
`provides` row, for the entry `prov`. -/
def joinedTo (prov : Provides) (p : PackagesRow) (r : ProvidesRow) : Prop :=
  p.pkgkey = r.pkgkey ∧ r.name = some prov.name ∧ r.version = some prov.version ∧
    (prov.release ≠ "" → r.release = some prov.release)

/-! ## Equivalent catalogs -/

/-- The fields compared across backends: name, version, release, epoch, arch and
location. -/
abbrev Coordinates := String × String × String × String × String × String

/-- The coordinates of a package. -/
def Package.coordinates (p : Package) : Coordinates :=
  (p.name, p.version, p.release, p.epoch, p.arch, p.location)

/-- The coordinates of a catalog element. -/
def xmlPackage.coordinates (x : xmlPackage) : Coordinates :=
  (x.Name, x.Version.Version, x.Version.Release, x.Version.Epoch, x.Arch, x.Location.Href)

/-- The coordinates of a `packages` row. -/
def PackagesRow.coordinates (r : PackagesRow) : Coordinates :=
  (goString r.name, goString r.version, goString r.release, goString r.epoch,
    goString r.arch, goString r.location_href)

/-- The versioned-identity order read off coordinates. -/
def coordLess (t u : Coordinates) : Bool :=
  RpmLessThan { name := t.1, version := t.2.1, release := t.2.2.1, epoch := t.2.2.2.1, flags := "" }
    { name := u.1, version := u.2.1, release := u.2.2.1, epoch := u.2.2.2.1, flags := "" }

/-- Equivalent catalog content in the two storage formats: the `packages` table
holds one row per `package` element, in document order, with a non-NULL name and
the coordinates of the element. -/
def SameCatalog (db : DB) (tree : xmlTree) : Prop :=
  List.Forall₂ (fun (r : PackagesRow) (x : xmlPackage) =>
    r.name = some x.Name ∧ r.coordinates = x.coordinates) db.packages tree.Packages

/-! ## Loading twice -/

/-- The XML backend after `NewRepositoryXMLBackend` and one successful `LoadDB()` of
the catalog `tree`. -/
def loadOnce (IGNORED_PACKAGES : List String) (primary : String) (tree : xmlTree) :
    RepositoryXMLBackend :=
  (RepositoryXMLBackend.LoadDB IGNORED_PACKAGES (NewRepositoryXMLBackend primary)
    (Except.ok tree)).1

/-- The same backend after a second successful `LoadDB()` of the same catalog, with
no `Close()` in between. -/
def loadTwice (IGNORED_PACKAGES : List String) (primary : String) (tree : xmlTree) :
    RepositoryXMLBackend :=
  (RepositoryXMLBackend.LoadDB IGNORED_PACKAGES (loadOnce IGNORED_PACKAGES primary tree)
    (Except.ok tree)).1

/-- A provides entry whose owning package lies `n` addresses further. -/
def Provides.shift (n : Nat) (p : Provides) : Provides :=
  { p with Package := p.Package.map (fun a => a + n) }

/-! ## Error messages -/

/-- The states of the XML backend reached from a freshly constructed backend by
calls of `LoadDB()`, each on whatever the cached file decodes to at that time. -/
inductive Reachable (IGNORED_PACKAGES : List String) : RepositoryXMLBackend → Prop
  | fresh (primary : String) : Reachable IGNORED_PACKAGES (NewRepositoryXMLBackend primary)
  | load (repo : RepositoryXMLBackend) (decoded : Except GoError xmlTree) :
      Reachable IGNORED_PACKAGES repo →
      Reachable IGNORED_PACKAGES (RepositoryXMLBackend.LoadDB IGNORED_PACKAGES repo decoded).1

/-- Consistency of the two indexes: every entry stored in the provides index under
key `k` has name `k` and a non-nil owning package, which is allocated, lists the
entry among its provides and is stored in the package index under its own name. -/
def IndexConsistent (repo : RepositoryXMLBackend) : Prop :=
  ∀ k entries, repo.Provides k = some entries → ∀ e ∈ entries,
    e.name = k ∧
    ∃ a pkg ptrs, e.Package = some a ∧ repo.heap[a]? = some pkg ∧ e ∈ pkg.provides ∧
      repo.Packages pkg.name = some ptrs ∧ a ∈ ptrs

/-- A relational catalog in which `foo-1.0-1` provides `cap = 1:1.0-1` (epoch 1) and
`bar-2.0-1` provides `cap = 0:1.0-1` (epoch 0). -/
def exEpochDB : DB :=
  { packages := [exRow 1 "foo" "1.0" "1", exRow 2 "bar" "2.0" "1"],
    provides :=
      [{ pkgkey := 1, name := some "cap", version := some "1.0", release := some "1",
         epoch := some "1", flags := some "EQ" },
       { pkgkey := 2, name := some "cap", version := some "1.0", release := some "1",
         epoch := some "0", flags := some "EQ" }],
    requires := [] }

/-! ## Slices in memory: the queries of the XML backend as state transformers -/

/-- A Go slice header: the backing array it points into and its length (every slice
of the query functions starts at the first cell of its array, and its capacity is
the size of the array). -/
structure Slice where
  arr : Nat
  len : Nat
deriving DecidableEq, Repr, Inhabited

/-- The backing arrays allocated so far for slices of element type `α`; a cell
holds `none` for nil. -/
abbrev Arrays (α : Type) := List (List (Option α))

/-- The backing array at address `a`. -/
def Arrays.array {α : Type} (m : Arrays α) (a : Nat) : List (Option α) :=
  m.getD a []

/-- The elements of a slice. -/
def Arrays.cells {α : Type} (m : Arrays α) (s : Slice) : List (Option α) :=
  (m.array s.arr).take s.len

/-- The element `s[i]`. -/
def Arrays.index {α : Type} (m : Arrays α) (s : Slice) (i : Nat) : Option α :=
  (m.array s.arr).getD i none

/-- Go `make([]T, len, cap)`: a new backing array of `cap` nil cells. -/
def Arrays.make {α : Type} (m : Arrays α) (len cap : Nat) : Arrays α × Slice :=
  (m ++ [List.replicate cap none], { arr := m.length, len := len })

/-- Go `copy(dst, src)`: the first `min(len(dst), len(src))` cells of `dst` are
overwritten with those of `src`. -/
def Arrays.copy {α : Type} (m : Arrays α) (dst src : Slice) : Arrays α :=
  m.set dst.arr ((m.array src.arr).take (min dst.len src.len) ++
    (m.array dst.arr).drop (min dst.len src.len))

/-- Go `append(s, vs...)`: written behind the elements of `s` in its backing array
when the capacity suffices, into a new backing array otherwise (allocated here
without spare capacity). -/
def Arrays.append {α : Type} (m : Arrays α) (s : Slice) (vs : List (Option α)) :
    Arrays α × Slice :=
  if s.len + vs.length ≤ (m.array s.arr).length then
    (m.set s.arr ((m.array s.arr).take s.len ++ vs ++
        (m.array s.arr).drop (s.len + vs.length)),
      { arr := s.arr, len := s.len + vs.length })
  else
    (m ++ [m.cells s ++ vs], { arr := m.length, len := s.len + vs.length })

/-- Go `sort.Sort` on a slice: its elements are permuted in place. -/
def Arrays.sort {α : Type} (less : Option α → Option α → Bool) (m : Arrays α) (s : Slice) :
    Arrays α :=
  m.set s.arr (sortSort less (m.cells s) ++ (m.array s.arr).drop s.len)

/-- Go `RepositoryXMLBackend` with its slices in memory: the maps hold slice headers
into the backing arrays `pkgArrays` (of `[]*Package`) and `provArrays` (of
`[]*Provides` and `[]RPM`); `heap` holds the `Package` objects. -/
structure XMLStore where
  Name : String
  Packages : GoMap Slice
  Provides : GoMap Slice
  DBName : String
  Primary : String
  heap : List Package
  pkgArrays : Arrays PkgPtr
  provArrays : Arrays Yum.Provides

namespace XMLStore

/-- The versioned identity read through a cell of `[]*Package`; a nil cell, which
the index never holds, reads as the zero package. -/
def rpmOfPkg (st : XMLStore) (c : Option PkgPtr) : rpmBase :=
  match c with
  | some p => (st.heap.getD p default).torpmBase
  | none => (default : Package).torpmBase

/-- The versioned identity read through a cell of `[]*Provides`; a nil cell, which
the index never holds, reads as the zero entry. -/
def rpmOfProv (c : Option Yum.Provides) : rpmBase :=
  match c with
  | some p => p.torpmBase
  | none => (default : Yum.Provides).torpmBase

/-- The body of the loop `for _, p := range pkgs` that appends the matching elements
to `sorted`: `acc` is the memory and the header of `sorted`, `i` the position read. -/
def keepMatching {α : Type} (rpmOf : Option α → rpmBase) (req : rpmBase) (pkgs : Slice)
    (acc : Arrays α × Slice) (i : Nat) : Arrays α × Slice :=
  let p := acc.1.index pkgs i
  if ProvideMatches req (rpmOf p) then acc.1.append acc.2 [p] else acc

/-- Go `FindLatestMatchingName` of the XML backend, on slices in memory: the state
after the call and the values returned. -/
def FindLatestMatchingName (st : XMLStore) (name version release : String) :
    XMLStore × (Option PkgPtr × Option GoError) :=
  match st.Packages name with
  | none => (st, (none, some (fmtErrorf "no such package %q" [name])))
  | some pkgs =>
    if version = "" ∧ pkgs.len > 0 then
      let made := st.pkgArrays.make pkgs.len pkgs.len
      let sorted := made.2
      let mem := made.1.copy sorted pkgs
      let mem := mem.sort (fun p q => RpmLessThan (st.rpmOfPkg p) (st.rpmOfPkg q)) sorted
      ({ st with pkgArrays := mem }, (mem.index sorted (sorted.len - 1), none))
    else
      let req := NewRequires name version release "" "EQ" ""
      let made := st.pkgArrays.make 0 pkgs.len
      let kept := (List.range pkgs.len).foldl
        (keepMatching st.rpmOfPkg req.torpmBase pkgs) made
      let sorted := kept.2
      if sorted.len > 0 then
        let mem := kept.1.sort (fun p q => RpmLessThan (st.rpmOfPkg p) (st.rpmOfPkg q)) sorted
        ({ st with pkgArrays := mem }, (mem.index sorted (sorted.len - 1), none))
      else
        ({ st with pkgArrays := kept.1 }, (none, none))

/-- Go `FindLatestMatchingRequire` of the XML backend, on slices in memory. -/
def FindLatestMatchingRequire (st : XMLStore) (requirement : Requires) :
    XMLStore × (Option PkgPtr × Option GoError) :=
  match st.Provides requirement.name with
  | none =>
    (st, (none, some (fmtErrorf "no package providing name=%q version=%q release=%q"
      [requirement.name, requirement.version, requirement.release])))
  | some pkgs =>
    if requirement.version = "" ∧ pkgs.len > 0 then
      let made := st.provArrays.make 0 pkgs.len
      let kept := (List.range pkgs.len).foldl
        (fun acc i => acc.1.append acc.2 [acc.1.index pkgs i]) made
      let sorted := kept.2
      let mem := kept.1.sort (fun p q => RpmLessThan (rpmOfProv p) (rpmOfProv q)) sorted
      ({ st with provArrays := mem },
        ((mem.index sorted (sorted.len - 1)).bind (fun p => p.Package), none))
    else
      let made := st.provArrays.make 0 pkgs.len
      let kept := (List.range pkgs.len).foldl
        (keepMatching rpmOfProv requirement.torpmBase pkgs) made
      let sorted := kept.2
      if sorted.len > 0 then
        let mem := kept.1.sort (fun p q => RpmLessThan (rpmOfProv p) (rpmOfProv q)) sorted
        ({ st with provArrays := mem },
          ((mem.index sorted (sorted.len - 1)).bind (fun p => p.Package), none))
      else
        ({ st with provArrays := kept.1 }, (none, none))

/-- Go `GetPackages` of the XML backend, on slices in memory; `iter` is the order in
which `range` visits the keys. The slice returned is given by its header. -/
def GetPackages (st : XMLStore) (iter : List String) : XMLStore × Slice :=
  let made := st.pkgArrays.make 0 iter.length
  let out := iter.foldl
    (fun acc k =>
      match st.Packages k with
      | some pkg => acc.1.append acc.2 (acc.1.cells pkg)
      | none => acc)
    made
  ({ st with pkgArrays := out.1 }, out.2)

/-- The backend a state in memory stands for: every slice read as the list of its
elements. -/
def toBackend (st : XMLStore) : RepositoryXMLBackend :=
  { Name := st.Name,
    Packages := fun k => (st.Packages k).map (fun s => (st.pkgArrays.cells s).reduceOption),
    Provides := fun k => (st.Provides k).map (fun s => (st.provArrays.cells s).reduceOption),
    DBName := st.DBName,
    Primary := st.Primary,
    heap := st.heap }

/-- Well-formed memory: every slice of the two indexes points into an allocated
backing array, lies within it and holds no nil element. -/
def WellFormed (st : XMLStore) : Prop :=
  (∀ k s, st.Packages k = some s →
    s.arr < st.pkgArrays.length ∧ (st.pkgArrays.cells s).length = s.len ∧
      ∀ c ∈ st.pkgArrays.cells s, c ≠ none) ∧
  (∀ k s, st.Provides k = some s →
    s.arr < st.provArrays.length ∧ (st.provArrays.cells s).length = s.len ∧
      ∀ c ∈ st.provArrays.cells s, c ≠ none)

end XMLStore

/-- The catalog of `foo-1.0-1`, `foo-1.2-1`, `foo-1.1-3` and `bar-2.0-1` (which
provides `libbar = 2.0-1`) loaded, with the slices of its indexes in memory. -/
def exStore : XMLStore :=
  { Name := "RepositoryXMLBackend",
    Packages := fun k =>
      if k = "foo" then some { arr := 0, len := 3 }
      else if k = "bar" then some { arr := 1, len := 1 }
      else none,
    Provides := fun k => if k = "libbar" then some { arr := 0, len := 1 } else none,
    DBName := "primary.xml.gz",
    Primary := "primary.xml.gz",
    heap := [packageOf 0 (exElement "foo" "1.0" "1" []), packageOf 1 (exElement "foo" "1.2" "1" []),
      packageOf 2 (exElement "foo" "1.1" "3" []),
      packageOf 3 (exElement "bar" "2.0" "1"
        [{ Name := "libbar", Flags := "EQ", Epoch := "0", Version := "2.0", Release := "1" }])],
    pkgArrays := [[some 0, some 1, some 2, none], [some 3]],
    provArrays := [[some (NewProvides "libbar" "2.0" "1" "0" "EQ" (some 3))]] }

/-- The condition a slice under construction keeps during a query that started from
the memory `m0`: the memory still begins with `m0`, the slice lives in a backing
array allocated since and lies within it. -/
def Arrays.Building {α : Type} (m0 : Arrays α) (acc : Arrays α × Slice) : Prop :=
  m0 <+: acc.1 ∧ m0.length ≤ acc.2.arr ∧ acc.2.arr < acc.1.length ∧
    (acc.1.cells acc.2).length = acc.2.len

/-- The state `st'` differs from `st` at most by backing arrays allocated since: the
fields, the two maps of slice headers and the heap are the same, and every backing
array of `st` is still there, at the same address and with the same cells. -/
def XMLStore.Frames (st st' : XMLStore) : Prop :=
  st'.Name = st.Name ∧ st'.Packages = st.Packages ∧ st'.Provides = st.Provides ∧
    st'.DBName = st.DBName ∧ st'.Primary = st.Primary ∧ st'.heap = st.heap ∧
    st.pkgArrays <+: st'.pkgArrays ∧ st.provArrays <+: st'.provArrays

/-! ## The relational lookups with the errors of the database -/

/-- The three queries that the lookups of the relational backend send to the
database, each with the arguments of the Go function that runs it. -/
inductive sqlQuery where
  | loadPackagesByName (name version : String)
  | findProvidesByName (name : String)
  | loadPackagesProviding (prov : Provides)

/-- Go `*sql.DB` as the lookups observe it. `tables` is what the queries read when
every call to `database/sql` succeeds. `fault q` is the error with which the query
`q` ends when one of its calls fails: `Prepare`, `Query`, a `Scan`, one of the nested
loads of `newPackageFromScan`, `rows.Err`, `rows.Close` or `stmt.Close` (every query
of a handle closed by `Close()` ends so). Which call failed is not told apart: the Go
functions return `nil, err` at each of them. -/
structure sqlDB where
  tables : DB
  fault : sqlQuery → Option GoError

namespace sqlDB

/-- Go `loadPackagesByName` with its error result: it returns `nil, err` when a call
to `database/sql` fails, and otherwise the packages built from the selected rows. -/
def loadPackagesByName (h : sqlDB) (fresh : PkgPtr) (name version : String) :
    Except GoError (List Package) :=
  match h.fault (sqlQuery.loadPackagesByName name version) with
  | some err => Except.error err
  | none => Except.ok (RepositorySQLiteBackend.loadPackagesByName h.tables fresh name version)

/-- Go `findProvidesByName` with its error result. -/
def findProvidesByName (h : sqlDB) (name : String) : Except GoError (List Provides) :=
  match h.fault (sqlQuery.findProvidesByName name) with
  | some err => Except.error err
  | none => Except.ok (RepositorySQLiteBackend.findProvidesByName h.tables name)

/-- Go `loadPackagesProviding` with its error result. -/
def loadPackagesProviding (h : sqlDB) (fresh : PkgPtr) (prov : Provides) :
    Except GoError (List Package) :=
  match h.fault (sqlQuery.loadPackagesProviding prov) with
  | some err => Except.error err
  | none => Except.ok (RepositorySQLiteBackend.loadPackagesProviding h.tables fresh prov)

/-- Go `FindLatestMatchingName` of the relational backend, with the return that
forwards the error of `loadPackagesByName`. -/
def FindLatestMatchingName (h : sqlDB) (fresh : PkgPtr) (name version release : String) :
    Option Package × Option GoError :=
  match h.loadPackagesByName fresh name version with
  | Except.error err => (none, some err)
  | Except.ok pkgs =>
    let req := NewRequires name version release "" "EQ" ""
    let matching := pkgs.filter (fun pkg => ProvideMatches req.torpmBase pkg.torpmBase)
    if matching.length ≤ 0 then
      (none, some (fmtErrorf "no such package %q" [name]))
    else
      ((sortSort lessPackage matching).getLast?, none)

/-- Go `FindLatestMatchingRequire` of the relational backend, with the two returns
that forward the errors of `findProvidesByName` and `loadPackagesProviding`. -/
def FindLatestMatchingRequire (h : sqlDB) (fresh : PkgPtr) (requirement : Requires) :
    Option Package × Option GoError :=
  match h.findProvidesByName requirement.name with
  | Except.error err => (none, some err)
  | Except.ok provides =>
    let matching := provides.filter (fun pr => ProvideMatches requirement.torpmBase pr.torpmBase)
    match matching with
    | [] =>
      (none, some (fmtErrorf "no package providing name=%q version=%q release=%q"
        [requirement.name, requirement.version, requirement.release]))
    | m :: ms =>
      let sorted := sortSort lessProv (m :: ms)
      let prov := sorted.getLastD m
      match h.loadPackagesProviding fresh prov with
      | Except.error err => (none, some err)
      | Except.ok pkgs =>
        if pkgs.length ≤ 0 then
          (none, some (fmtErrorf "no such package %q" [requirement.name]))
        else
          ((sortSort lessPackage pkgs).getLast?, none)

end sqlDB

open Batteries

/-! ## The comparator is a total preorder -/

theorem lexCmp_symm {α : Type} {cmp : α → α → Ordering} (h : OrientedCmp cmp) :
    ∀ l₁ l₂ : List α, (lexCmp cmp l₁ l₂).swap = lexCmp cmp l₂ l₁
  | [], [] => rfl
  | [], _ :: _ => rfl
  | _ :: _, [] => rfl
  | a :: as, b :: bs => by
    simp only [lexCmp, Ordering.swap_then]
    rw [h.symm, lexCmp_symm h as bs]

theorem lexCmp_oriented {α : Type} {cmp : α → α → Ordering} (h : OrientedCmp cmp) :
    OrientedCmp (lexCmp cmp) :=
  ⟨lexCmp_symm h⟩

theorem lexCmp_le_trans {α : Type} {cmp : α → α → Ordering} (h : TransCmp cmp) :
    ∀ l₁ l₂ l₃ : List α, lexCmp cmp l₁ l₂ ≠ Ordering.gt → lexCmp cmp l₂ l₃ ≠ Ordering.gt →
      lexCmp cmp l₁ l₃ ≠ Ordering.gt
  | [], _, [] => fun _ _ => by simp [lexCmp]
  | [], _, _ :: _ => fun _ _ => by simp [lexCmp]
  | _ :: _, [], _ => fun h1 _ => by simp [lexCmp] at h1
  | _ :: _, _ :: _, [] => fun _ h2 => by simp [lexCmp] at h2
  | a :: as, b :: bs, c :: cs => fun h1 h2 => by
    simp only [lexCmp, ne_eq, Ordering.then_eq_gt, not_or, not_and] at h1 h2 ⊢
    refine ⟨h.le_trans h1.1 h2.1, fun e1 e2 => ?_⟩
    have ih := lexCmp_le_trans h as bs cs
    cases ab : cmp a b with
    | gt => exact h1.1 ab
    | eq =>
      have hbc : cmp b c = Ordering.eq := by rw [← h.cmp_congr_left ab]; exact e1
      exact ih (h1.2 ab) (h2.2 hbc) e2
    | lt =>
      have hbc : cmp b c = Ordering.gt := by
        rw [h.cmp_eq_gt]
        have hca : cmp c a = Ordering.eq := by
          rw [← h.symm a c, e1]; rfl
        rw [h.cmp_congr_left hca]; exact ab
      exact h2.1 hbc

theorem lexCmp_trans {α : Type} {cmp : α → α → Ordering} (h : TransCmp cmp) :
    TransCmp (lexCmp cmp) :=
  { lexCmp_oriented h.toOrientedCmp with le_trans := fun {x y z} => lexCmp_le_trans h x y z }

theorem charCmp_trans : TransCmp (fun x y : Char => compare x.toNat y.toNat) :=
  inferInstanceAs (TransCmp (compareOn Char.toNat))

theorem natCmp_trans : TransCmp (fun x y : Nat => compare x y) :=
  inferInstanceAs (TransCmp (compare : Nat → Nat → Ordering))

theorem cmpSeg_trans : TransCmp cmpSeg := by
  have hc := lexCmp_trans charCmp_trans
  have hn := natCmp_trans
  refine { symm := ?_, le_trans := ?_ }
  · intro x y
    cases x <;> cases y <;> first
      | rfl
      | exact hc.symm _ _
      | exact hn.symm _ _
  · intro x y z
    cases x <;> cases y <;> cases z <;> intro h1 h2 <;> first
      | exact hc.le_trans h1 h2
      | exact hn.le_trans h1 h2
      | exact absurd rfl h1
      | exact absurd rfl h2
      | exact (show Ordering.lt ≠ Ordering.gt by decide)

theorem onKey_trans {α β : Type} {cmp : β → β → Ordering} (h : TransCmp cmp) (f : α → β) :
    TransCmp (fun a b : α => cmp (f a) (f b)) :=
  { symm := fun a b => h.symm (f a) (f b),
    le_trans := fun {a b c} => h.le_trans (x := f a) (y := f b) (z := f c) }

theorem rpmvercmp_trans : TransCmp rpmvercmp :=
  onKey_trans (lexCmp_trans cmpSeg_trans) verKey

theorem RpmCompare_trans : TransCmp RpmCompare := by
  haveI h1 : TransCmp (fun a b : rpmBase => rpmvercmp (normEpoch a.epoch) (normEpoch b.epoch)) :=
    onKey_trans rpmvercmp_trans (fun a : rpmBase => normEpoch a.epoch)
  haveI h2 : TransCmp (fun a b : rpmBase => rpmvercmp a.version b.version) :=
    onKey_trans rpmvercmp_trans (fun a : rpmBase => a.version)
  haveI h3 : TransCmp (fun a b : rpmBase => rpmvercmp a.release b.release) :=
    onKey_trans rpmvercmp_trans (fun a : rpmBase => a.release)
  exact inferInstanceAs (TransCmp (compareLex
    (fun a b : rpmBase => rpmvercmp (normEpoch a.epoch) (normEpoch b.epoch))
    (compareLex (fun a b : rpmBase => rpmvercmp a.version b.version)
      (fun a b : rpmBase => rpmvercmp a.release b.release))))

theorem RpmLessThan_eq_false_iff (a b : rpmBase) :
    RpmLessThan a b = false ↔ RpmCompare a b ≠ Ordering.lt := by
  unfold RpmLessThan
  cases RpmCompare a b <;> decide

theorem RpmLessThan_irrefl (a : rpmBase) : RpmLessThan a a = false := by
  haveI := RpmCompare_trans
  have h : RpmCompare a a = Ordering.eq := OrientedCmp.cmp_refl
  rw [RpmLessThan_eq_false_iff, h]
  decide

theorem RpmLessThan_total (a b : rpmBase) :
    RpmLessThan b a = false ∨ RpmLessThan a b = false := by
  haveI := RpmCompare_trans
  rw [RpmLessThan_eq_false_iff, RpmLessThan_eq_false_iff]
  cases h : RpmCompare a b with
  | lt =>
    left
    have h2 : RpmCompare b a = Ordering.gt := OrientedCmp.cmp_eq_gt.2 h
    rw [h2]; decide
  | eq => right; decide
  | gt => right; decide

theorem RpmLessThan_trans_ge (a b c : rpmBase) (h1 : RpmLessThan b a = false)
    (h2 : RpmLessThan c b = false) : RpmLessThan c a = false := by
  haveI := RpmCompare_trans
  rw [RpmLessThan_eq_false_iff] at h1 h2 ⊢
  exact TransCmp.ge_trans h2 h1

/-! ## `sortSort` puts a greatest element last -/

theorem sortSort_perm {α : Type} (less : α → α → Bool) (l : List α) :
    (sortSort less l).Perm l :=
  List.perm_insertionSort _ l

theorem mem_sortSort {α : Type} (less : α → α → Bool) (l : List α) (x : α) :
    x ∈ sortSort less l ↔ x ∈ l :=
  (sortSort_perm less l).mem_iff

theorem sortSort_eq_nil {α : Type} (less : α → α → Bool) (l : List α) :
    sortSort less l = [] ↔ l = [] := by
  constructor
  · intro h
    have := (sortSort_perm less l).length_eq
    rw [h] at this
    exact List.length_eq_zero.1 this.symm
  · intro h; subst h; rfl

theorem pairwise_getLast {α : Type} (r : α → α → Prop) (hr : ∀ a, r a a) (l : List α)
    (hl : l ≠ []) (hp : l.Pairwise r) : ∀ y ∈ l, r y (l.getLast hl) := by
  intro y hy
  rw [← List.dropLast_append_getLast hl] at hp hy
  rcases List.mem_append.1 hy with h | h
  · exact (List.pairwise_append.1 hp).2.2 y h _ (List.mem_singleton.2 rfl)
  · rw [List.mem_singleton.1 h]; exact hr _

theorem sortSort_sorted {α : Type} (key : α → rpmBase) (l : List α) :
    (sortSort (fun a b => RpmLessThan (key a) (key b)) l).Pairwise
      (fun a b => RpmLessThan (key b) (key a) = false) := by
  haveI : IsTotal α (fun a b => RpmLessThan (key b) (key a) = false) :=
    ⟨fun a b => RpmLessThan_total (key a) (key b)⟩
  haveI : IsTrans α (fun a b => RpmLessThan (key b) (key a) = false) :=
    ⟨fun a b c h1 h2 => RpmLessThan_trans_ge (key a) (key b) (key c) h1 h2⟩
  exact List.sorted_insertionSort (fun a b => RpmLessThan (key b) (key a) = false) l

/-- The last element of a sorted non-empty slice is one of its elements and no
element is strictly greater. -/
theorem sortSort_getLast {α : Type} (key : α → rpmBase) (l : List α) (hl : l ≠ []) :
    ∃ x, (sortSort (fun a b => RpmLessThan (key a) (key b)) l).getLast? = some x ∧ x ∈ l ∧
      ∀ y ∈ l, RpmLessThan (key x) (key y) = false := by
  have hne : sortSort (fun a b => RpmLessThan (key a) (key b)) l ≠ [] :=
    fun h => hl ((sortSort_eq_nil _ l).1 h)
  refine ⟨(sortSort (fun a b => RpmLessThan (key a) (key b)) l).getLast hne,
    List.getLast?_eq_getLast _ hne, ?_, ?_⟩
  · exact (mem_sortSort _ l _).1 (List.getLast_mem hne)
  · intro y hy
    exact pairwise_getLast (fun a b => RpmLessThan (key b) (key a) = false)
      (fun a => RpmLessThan_irrefl (key a)) _ hne (sortSort_sorted key l) y
      ((mem_sortSort _ l y).2 hy)

/-! ## Go maps -/

theorem GoMap.extend_nil {V : Type} (m : GoMap (List V)) :
    m.extend (fun _ => []) = m := by
  funext k; simp [GoMap.extend]

theorem GoMap.extend_extend {V : Type} (m : GoMap (List V)) (a b : String → List V) :
    (m.extend a).extend b = m.extend (fun k => a k ++ b k) := by
  funext k
  simp only [GoMap.extend]
  cases ha : a k with
  | nil => simp
  | cons x xs =>
    cases hb : b k with
    | nil => simp
    | cons y ys => simp

theorem GoMap.set_appendAt {V : Type} (m : GoMap (List V)) (k : String) (x : V) :
    m.set k (m.appendAt k x) = m.extend (fun j => if j = k then [x] else []) := by
  funext j
  simp only [GoMap.set, GoMap.appendAt, GoMap.extend]
  by_cases h : j = k
  · subst h; simp
  · simp [h]

theorem GoMap.extend_of_nil {V : Type} (m : GoMap (List V)) (new : String → List V)
    (k : String) (h : new k = []) : m.extend new k = m k := by
  simp [GoMap.extend, h]

theorem GoMap.extend_of_ne {V : Type} (m : GoMap (List V)) (new : String → List V)
    (k : String) (h : new k ≠ []) : m.extend new k = some ((m k).getD [] ++ new k) := by
  simp only [GoMap.extend]
  cases hn : new k with
  | nil => exact absurd hn h
  | cons x xs => rfl

/-! ## `LoadDB` in closed form -/

namespace RepositoryXMLBackend

theorem foldl_loadProvidesEntry (IGN : List String) (self : PkgPtr) :
    ∀ (vs : List xmlProvidesEntry) (pkg : Package) (m : GoMap (List Yum.Provides)),
      vs.foldl (loadProvidesEntry IGN self) (pkg, m) =
        ({ pkg with provides := pkg.provides ++ vs.map (providesOf self) },
          m.extend (fun k => (vs.map (providesOf self)).filter
            (fun p => decide (p.name = k) && !str_in_slice p.name IGN)))
  | [], pkg, m => by simp [GoMap.extend_nil]
  | v :: vs, pkg, m => by
    rw [List.foldl_cons]
    by_cases hi : str_in_slice (providesOf self v).name IGN = true
    · have h1 : loadProvidesEntry IGN self (pkg, m) v =
          ({ pkg with provides := pkg.provides ++ [providesOf self v] }, m) := by
        simp only [loadProvidesEntry, providesOf] at hi ⊢
        simp [hi]
      rw [h1, foldl_loadProvidesEntry IGN self vs]
      refine Prod.ext (by simp) ?_
      refine congrArg (GoMap.extend m) (funext fun k => ?_)
      simp [List.filter_cons, hi]
    · have hi2 : str_in_slice (providesOf self v).name IGN = false := by
        simpa using hi
      have h1 : loadProvidesEntry IGN self (pkg, m) v =
          ({ pkg with provides := pkg.provides ++ [providesOf self v] },
            m.set (providesOf self v).name (m.appendAt (providesOf self v).name (providesOf self v))) := by
        simp only [loadProvidesEntry, providesOf] at hi2 ⊢
        simp [hi2]
      rw [h1, foldl_loadProvidesEntry IGN self vs, GoMap.set_appendAt, GoMap.extend_extend]
      refine Prod.ext (by simp) ?_
      refine congrArg (GoMap.extend m) (funext fun k => ?_)
      by_cases hk : (providesOf self v).name = k
      · subst hk
        simp [List.filter_cons, hi2]
      · have hk2 : ¬ k = (providesOf self v).name := fun h => hk h.symm
        simp [List.filter_cons, hk, hk2]

theorem foldl_loadRequiresEntry :
    ∀ (vs : List xmlRequiresEntry) (pkg : Package),
      vs.foldl loadRequiresEntry pkg =
        { pkg with requires := pkg.requires ++ vs.map requiresOf }
  | [], pkg => by simp
  | v :: vs, pkg => by
    rw [List.foldl_cons, foldl_loadRequiresEntry vs]
    simp [loadRequiresEntry, requiresOf]

theorem loadPackage_eq (IGN : List String) (repo : RepositoryXMLBackend) (x : xmlPackage) :
    loadPackage IGN repo x =
      { repo with
        Provides := repo.Provides.extend (fun k => providesAt IGN k repo.heap.length x),
        Packages := repo.Packages.extend (fun k => if x.Name = k then [repo.heap.length] else []),
        heap := repo.heap ++ [packageOf repo.heap.length x] } := by
  simp only [loadPackage, foldl_loadProvidesEntry, foldl_loadRequiresEntry, GoMap.set_appendAt]
  simp only [NewPackage, packageOf, xmlPackage.rpm, providesAt, List.nil_append]
  have hf : (fun j => if j = x.Name then [repo.heap.length] else []) =
      (fun k => if x.Name = k then [repo.heap.length] else []) := by
    funext k
    by_cases h : x.Name = k
    · simp [h]
    · have h2 : ¬ k = x.Name := fun e => h e.symm
      simp [h, h2]
  rw [hf]

theorem foldl_loadPackage (IGN : List String) :
    ∀ (xs : List xmlPackage) (repo : RepositoryXMLBackend),
      xs.foldl (loadPackage IGN) repo =
        { repo with
          Provides := repo.Provides.extend (fun k => indexProvides IGN k repo.heap.length xs),
          Packages := repo.Packages.extend (fun k => indexPackages k repo.heap.length xs),
          heap := repo.heap ++ allocPackages repo.heap.length xs }
  | [], repo => by
    simp [indexProvides, indexPackages, allocPackages, GoMap.extend_nil]
  | x :: xs, repo => by
    rw [List.foldl_cons, foldl_loadPackage IGN xs, loadPackage_eq]
    simp [indexProvides, indexPackages, allocPackages, GoMap.extend_extend]

end RepositoryXMLBackend

theorem length_allocPackages : ∀ (xs : List xmlPackage) (base : Nat),
    (allocPackages base xs).length = xs.length
  | [], _ => rfl
  | _ :: xs, base => by simp [allocPackages, length_allocPackages xs]

theorem getElem?_allocPackages : ∀ (xs : List xmlPackage) (base i : Nat),
    (allocPackages base xs)[i]? = (xs[i]?).map (packageOf (base + i))
  | [], _, _ => by simp [allocPackages]
  | x :: xs, base, 0 => by simp [allocPackages]
  | x :: xs, base, i + 1 => by
    have h : base + 1 + i = base + (i + 1) := by omega
    simp only [allocPackages, List.getElem?_cons_succ, getElem?_allocPackages xs, h]

theorem mem_indexPackages (k : String) : ∀ (xs : List xmlPackage) (base a : Nat),
    a ∈ indexPackages k base xs ↔ base ≤ a ∧ ∃ x, xs[a - base]? = some x ∧ x.Name = k
  | [], _, _ => by simp [indexPackages]
  | x :: xs, base, a => by
    simp only [indexPackages, List.mem_append, mem_indexPackages k xs]
    constructor
    · rintro (h | ⟨h1, y, h2, h3⟩)
      · by_cases hx : x.Name = k
        · simp only [hx, if_true, List.mem_singleton] at h
          subst h
          exact ⟨le_refl _, x, by simp, hx⟩
        · simp [hx] at h
      · refine ⟨by omega, y, ?_, h3⟩
        have : a - base = (a - (base + 1)) + 1 := by omega
        rw [this, List.getElem?_cons_succ]
        exact h2
    · rintro ⟨h1, y, h2, h3⟩
      by_cases ha : a = base
      · left
        subst ha
        simp only [Nat.sub_self, List.getElem?_cons_zero, Option.some.injEq] at h2
        subst h2
        simp [h3]
      · right
        refine ⟨by omega, y, ?_, h3⟩
        have : a - base = (a - (base + 1)) + 1 := by omega
        rw [this, List.getElem?_cons_succ] at h2
        exact h2

theorem indexPackages_shift (k : String) : ∀ (xs : List xmlPackage) (base n : Nat),
    indexPackages k (base + n) xs = (indexPackages k base xs).map (fun a => a + n)
  | [], _, _ => rfl
  | x :: xs, base, n => by
    have h : base + n + 1 = (base + 1) + n := by omega
    simp only [indexPackages, h, indexPackages_shift k xs, List.map_append]
    by_cases hx : x.Name = k <;> simp [hx]

theorem nodup_indexPackages (k : String) : ∀ (xs : List xmlPackage) (base : Nat),
    (indexPackages k base xs).Nodup
  | [], _ => by simp [indexPackages]
  | x :: xs, base => by
    simp only [indexPackages]
    by_cases hx : x.Name = k
    · simp only [hx, if_true, List.singleton_append, List.nodup_cons]
      refine ⟨?_, nodup_indexPackages k xs _⟩
      intro h
      have := ((mem_indexPackages k xs (base + 1) base).1 h).1
      omega
    · simp [hx, nodup_indexPackages k xs]

theorem indexPackages_ne_nil (k : String) (xs : List xmlPackage) (base : Nat)
    (x : xmlPackage) (hx : x ∈ xs) (hk : x.Name = k) : indexPackages k base xs ≠ [] := by
  obtain ⟨i, hi, rfl⟩ := List.getElem_of_mem hx
  have : base + i ∈ indexPackages k base xs := by
    rw [mem_indexPackages]
    refine ⟨by omega, xs[i], ?_, hk⟩
    simp [List.getElem?_eq_getElem hi]
  exact List.ne_nil_of_mem this

theorem indexPackages_eq_nil (k : String) (xs : List xmlPackage) (base : Nat)
    (h : ∀ x ∈ xs, x.Name ≠ k) : indexPackages k base xs = [] := by
  apply List.eq_nil_iff_forall_not_mem.2
  intro a ha
  obtain ⟨_, x, hx, hk⟩ := (mem_indexPackages k xs base a).1 ha
  exact h x (List.getElem?_mem hx) hk

theorem mem_indexProvides (IGN : List String) (k : String) :
    ∀ (xs : List xmlPackage) (base : Nat) (p : Provides),
      p ∈ indexProvides IGN k base xs →
        p.name = k ∧ str_in_slice k IGN = false ∧
          ∃ a x v, base ≤ a ∧ xs[a - base]? = some x ∧ v ∈ x.Format.Provides ∧ p = providesOf a v
  | [], _, _ => by simp [indexProvides]
  | x :: xs, base, p => by
    simp only [indexProvides, List.mem_append]
    rintro (h | h)
    · simp only [providesAt, List.mem_filter, List.mem_map, Bool.and_eq_true,
        decide_eq_true_eq, Bool.not_eq_true'] at h
      obtain ⟨⟨v, hv, rfl⟩, hn, hi⟩ := h
      refine ⟨hn, by rw [← hn]; exact hi, base, x, v, le_refl _, by simp, hv, rfl⟩
    · obtain ⟨h1, h2, a, y, v, ha, hy, hv, hp⟩ := mem_indexProvides IGN k xs (base + 1) p h
      refine ⟨h1, h2, a, y, v, by omega, ?_, hv, hp⟩
      have : a - base = (a - (base + 1)) + 1 := by omega
      rw [this, List.getElem?_cons_succ]
      exact hy

theorem indexProvides_of_ignored (IGN : List String) (k : String) (xs : List xmlPackage)
    (base : Nat) (hk : str_in_slice k IGN = true) : indexProvides IGN k base xs = [] := by
  apply List.eq_nil_iff_forall_not_mem.2
  intro p hp
  have := (mem_indexProvides IGN k xs base p hp).2.1
  rw [hk] at this
  exact Bool.noConfusion this

theorem indexProvides_of_unprovided (IGN : List String) (k : String) (xs : List xmlPackage)
    (base : Nat) (hk : ∀ x ∈ xs, ∀ v ∈ x.Format.Provides, v.Name ≠ k) :
    indexProvides IGN k base xs = [] := by
  apply List.eq_nil_iff_forall_not_mem.2
  intro p hp
  obtain ⟨hn, _, a, x, v, _, hx, hv, rfl⟩ := mem_indexProvides IGN k xs base p hp
  exact hk x (List.getElem?_mem hx) v hv hn

/-! ## The state after loading a catalog into a fresh XML backend -/

/-- The XML backend after `NewRepositoryXMLBackend` and one successful `LoadDB`. -/
theorem loaded_eq (IGN : List String) (primary : String) (tree : xmlTree) :
    (RepositoryXMLBackend.LoadDB IGN (NewRepositoryXMLBackend primary) (Except.ok tree)).1 =
      { NewRepositoryXMLBackend primary with
        Provides := GoMap.extend (fun _ => none) (fun k => indexProvides IGN k 0 tree.Packages),
        Packages := GoMap.extend (fun _ => none) (fun k => indexPackages k 0 tree.Packages),
        heap := allocPackages 0 tree.Packages } := by
  simp [RepositoryXMLBackend.LoadDB, RepositoryXMLBackend.foldl_loadPackage,
    NewRepositoryXMLBackend]

/-! ## The matcher -/

theorem ProvideMatches_name (req p : rpmBase) (h : ProvideMatches req p = true) :
    req.name = p.name := by
  unfold ProvideMatches at h
  by_cases hn : req.name = p.name
  · exact hn
  · simp [hn] at h

theorem ProvideMatches_unversioned (req p : rpmBase) (hn : req.name = p.name)
    (hv : req.version = "") : ProvideMatches req p = true := by
  unfold ProvideMatches
  simp [hn, hv]

/-! ## The loaded XML state -/

theorem loaded_Packages (IGN : List String) (primary : String) (tree : xmlTree) (k : String)
    (h : indexPackages k 0 tree.Packages ≠ []) :
    (RepositoryXMLBackend.LoadDB IGN (NewRepositoryXMLBackend primary) (Except.ok tree)).1.Packages k
      = some (indexPackages k 0 tree.Packages) := by
  rw [loaded_eq]
  show GoMap.extend (fun _ => none) (fun k => indexPackages k 0 tree.Packages) k = _
  rw [GoMap.extend_of_ne _ _ _ h]
  simp

theorem loaded_Packages_none (IGN : List String) (primary : String) (tree : xmlTree) (k : String)
    (h : indexPackages k 0 tree.Packages = []) :
    (RepositoryXMLBackend.LoadDB IGN (NewRepositoryXMLBackend primary) (Except.ok tree)).1.Packages k
      = none := by
  rw [loaded_eq]
  show GoMap.extend (fun _ => none) (fun k => indexPackages k 0 tree.Packages) k = _
  rw [GoMap.extend_of_nil _ _ _ h]

theorem loaded_Provides (IGN : List String) (primary : String) (tree : xmlTree) (k : String)
    (h : indexProvides IGN k 0 tree.Packages ≠ []) :
    (RepositoryXMLBackend.LoadDB IGN (NewRepositoryXMLBackend primary) (Except.ok tree)).1.Provides k
      = some (indexProvides IGN k 0 tree.Packages) := by
  rw [loaded_eq]
  show GoMap.extend (fun _ => none) (fun k => indexProvides IGN k 0 tree.Packages) k = _
  rw [GoMap.extend_of_ne _ _ _ h]
  simp

theorem loaded_Provides_none (IGN : List String) (primary : String) (tree : xmlTree) (k : String)
    (h : indexProvides IGN k 0 tree.Packages = []) :
    (RepositoryXMLBackend.LoadDB IGN (NewRepositoryXMLBackend primary) (Except.ok tree)).1.Provides k
      = none := by
  rw [loaded_eq]
  show GoMap.extend (fun _ => none) (fun k => indexProvides IGN k 0 tree.Packages) k = _
  rw [GoMap.extend_of_nil _ _ _ h]

theorem loaded_deref (IGN : List String) (primary : String) (tree : xmlTree) (a : PkgPtr)
    (x : xmlPackage) (h : tree.Packages[a]? = some x) :
    (RepositoryXMLBackend.LoadDB IGN (NewRepositoryXMLBackend primary) (Except.ok tree)).1.deref a
      = packageOf a x := by
  rw [loaded_eq]
  simp [RepositoryXMLBackend.deref, List.getD, getElem?_allocPackages, h]

theorem mem_indexPackages_zero (k : String) (xs : List xmlPackage) (a : Nat) :
    a ∈ indexPackages k 0 xs ↔ ∃ x, xs[a]? = some x ∧ x.Name = k := by
  rw [mem_indexPackages]
  simp

theorem packageOf_rpm (a : PkgPtr) (x : xmlPackage) : (packageOf a x).torpmBase = x.rpm := rfl

/-- On a loaded XML backend, a name carried by a catalog element matching the request
resolves to a greatest matching element. -/
theorem xml_FindLatestMatchingName_latest (IGN : List String) (primary : String)
    (tree : xmlTree) (name version release : String)
    (h : ∃ x ∈ tree.Packages, x.Name = name ∧
      ProvideMatches (NewRequires name version release "" "EQ" "").torpmBase x.rpm = true) :
    ∃ p x,
      (RepositoryXMLBackend.LoadDB IGN (NewRepositoryXMLBackend primary)
        (Except.ok tree)).1.FindLatestMatchingName name version release = (some p, none) ∧
      tree.Packages[p]? = some x ∧
      (RepositoryXMLBackend.LoadDB IGN (NewRepositoryXMLBackend primary)
        (Except.ok tree)).1.deref p = packageOf p x ∧
      x.Name = name ∧
      ProvideMatches (NewRequires name version release "" "EQ" "").torpmBase x.rpm = true ∧
      ∀ y ∈ tree.Packages, y.Name = name →
        ProvideMatches (NewRequires name version release "" "EQ" "").torpmBase y.rpm = true →
        RpmLessThan x.rpm y.rpm = false := by
  obtain ⟨x0, hx0, hn0, hm0⟩ := h
  have hne : indexPackages name 0 tree.Packages ≠ [] :=
    indexPackages_ne_nil name tree.Packages 0 x0 hx0 hn0
  have hder := loaded_deref IGN primary tree
  have hP := loaded_Packages IGN primary tree name hne
  generalize (RepositoryXMLBackend.LoadDB IGN (NewRepositoryXMLBackend primary)
    (Except.ok tree)).1 = st at hder hP ⊢
  have hlen : (indexPackages name 0 tree.Packages).length > 0 := List.length_pos.2 hne
  -- every candidate address points to the package of an element of that name
  have hkey : ∀ q ∈ indexPackages name 0 tree.Packages, ∃ y, tree.Packages[q]? = some y ∧
      y.Name = name ∧ (st.deref q).torpmBase = y.rpm := by
    intro q hq
    obtain ⟨y, hy, hyn⟩ := (mem_indexPackages_zero name tree.Packages q).1 hq
    exact ⟨y, hy, hyn, by rw [hder q y hy]; rfl⟩
  have hall : ∀ y ∈ tree.Packages, y.Name = name → ∃ q ∈ indexPackages name 0 tree.Packages,
      (st.deref q).torpmBase = y.rpm := by
    intro y hy hyn
    obtain ⟨i, hi⟩ := List.mem_iff_getElem?.1 hy
    exact ⟨i, (mem_indexPackages_zero name tree.Packages i).2 ⟨y, hi, hyn⟩,
      by rw [hder i y hi]; rfl⟩
  unfold RepositoryXMLBackend.FindLatestMatchingName
  rw [hP]
  by_cases hv : version = ""
  · simp only [hv, hlen, and_self, if_true]
    obtain ⟨p, hp1, hp2, hp3⟩ := sortSort_getLast (fun q => (st.deref q).torpmBase)
      (indexPackages name 0 tree.Packages) hne
    obtain ⟨x, hx, hxn, hxd⟩ := hkey p hp2
    refine ⟨p, x, ?_, hx, hder p x hx, hxn, ?_, ?_⟩
    · show (_, _) = _
      rw [show st.lessPkg = (fun a b => RpmLessThan ((fun q => (st.deref q).torpmBase) a)
        ((fun q => (st.deref q).torpmBase) b)) from rfl, hp1]
    · exact ProvideMatches_unversioned _ _ hxn.symm rfl
    · intro y hy hyn _
      obtain ⟨q, hq, hqd⟩ := hall y hy hyn
      have := hp3 q hq
      simp only [hxd, hqd] at this
      exact this
  · simp only [hv, false_and, if_false]
    have hfne : (indexPackages name 0 tree.Packages).filter (fun p =>
        ProvideMatches (NewRequires name version release "" "EQ" "").torpmBase
          (st.deref p).torpmBase) ≠ [] := by
      obtain ⟨q, hq, hqd⟩ := hall x0 hx0 hn0
      apply List.ne_nil_of_mem (a := q)
      rw [List.mem_filter]
      exact ⟨hq, by rw [hqd]; exact hm0⟩
    obtain ⟨p, hp1, hp2, hp3⟩ := sortSort_getLast (fun q => (st.deref q).torpmBase) _ hfne
    rw [List.mem_filter] at hp2
    obtain ⟨x, hx, hxn, hxd⟩ := hkey p hp2.1
    refine ⟨p, x, ?_, hx, hder p x hx, hxn, ?_, ?_⟩
    · rw [if_pos (List.length_pos.2 hfne)]
      rw [show st.lessPkg = (fun a b => RpmLessThan ((fun q => (st.deref q).torpmBase) a)
        ((fun q => (st.deref q).torpmBase) b)) from rfl, hp1]
    · rw [← hxd]; exact hp2.2
    · intro y hy hyn hym
      obtain ⟨q, hq, hqd⟩ := hall y hy hyn
      have := hp3 q (List.mem_filter.2 ⟨hq, by rw [hqd]; exact hym⟩)
      simp only [hxd, hqd] at this
      exact this

namespace RepositorySQLiteBackend

/-! ## The row scans of the relational backend in closed form -/

theorem foldl_scanProvides (self : PkgPtr) : ∀ (rows : List ProvidesRow) (pkg : Package),
    rows.foldl (scanProvides self) pkg =
      { pkg with provides := pkg.provides ++ rows.map (ProvidesRow.toProvides (some self)) }
  | [], pkg => by simp
  | r :: rows, pkg => by
    rw [List.foldl_cons, foldl_scanProvides self rows]
    simp [scanProvides, ProvidesRow.toProvides]

theorem foldl_scanRequires : ∀ (rows : List RequiresRow) (pkg : Package),
    rows.foldl scanRequires pkg =
      { pkg with requires := pkg.requires ++ rows.map RequiresRow.toRequires }
  | [], pkg => by simp
  | r :: rows, pkg => by
    rw [List.foldl_cons, foldl_scanRequires rows]
    have h : scanRequires pkg r =
        { pkg with requires := pkg.requires ++ [RequiresRow.toRequires r] } := by
      simp only [scanRequires, RequiresRow.toRequires]
      by_cases hf : goString r.flags = "" <;> simp [hf]
    rw [h]
    simp

theorem newPackageFromScan_eq (db : DB) (self : PkgPtr) (row : PackagesRow) :
    newPackageFromScan db self row =
      { row.rpm with
        group := goString row.rpm_group,
        arch := goString row.arch,
        location := goString row.location_href,
        requires := (db.requires.filter (fun r => r.pkgkey = row.pkgkey)).map
          RequiresRow.toRequires,
        provides := (db.provides.filter (fun r => r.pkgkey = row.pkgkey)).map
          (ProvidesRow.toProvides (some self)) } := by
  simp [newPackageFromScan, loadRequires, loadProvides, foldl_scanProvides,
    foldl_scanRequires, PackagesRow.rpm]

theorem newPackageFromScan_header (db : DB) (self : PkgPtr) (row : PackagesRow) :
    (newPackageFromScan db self row).header = row.header := by
  rw [newPackageFromScan_eq]; rfl

theorem newPackageFromScan_rpm (db : DB) (self : PkgPtr) (row : PackagesRow) :
    (newPackageFromScan db self row).torpmBase = row.rpm := by
  rw [newPackageFromScan_eq]

theorem foldl_scanPackages (db : DB) (fresh : PkgPtr) :
    ∀ (rows : List PackagesRow) (acc : List Package),
      rows.foldl (fun pkgs row => pkgs ++ [newPackageFromScan db (fresh + pkgs.length) row]) acc =
        acc ++ (List.enumFrom (fresh + acc.length) rows).map
          (fun ar => newPackageFromScan db ar.1 ar.2)
  | [], acc => by simp
  | r :: rows, acc => by
    rw [List.foldl_cons, foldl_scanPackages db fresh rows]
    simp [Nat.add_assoc]

theorem scanPackages_eq (db : DB) (fresh : PkgPtr) (rows : List PackagesRow) :
    scanPackages db fresh rows =
      (List.enumFrom fresh rows).map (fun ar => newPackageFromScan db ar.1 ar.2) := by
  simp [scanPackages, foldl_scanPackages]

theorem scanPackages_map_header (db : DB) (fresh : PkgPtr) (rows : List PackagesRow) :
    (scanPackages db fresh rows).map Package.header = rows.map PackagesRow.header := by
  rw [scanPackages_eq, List.map_map]
  have h : (Package.header ∘ fun ar : Nat × PackagesRow => newPackageFromScan db ar.1 ar.2) =
      PackagesRow.header ∘ Prod.snd := by
    funext ar
    simp [newPackageFromScan_header]
  rw [h, ← List.map_map, List.enumFrom_map_snd]

theorem mem_scanPackages (db : DB) (fresh : PkgPtr) (rows : List PackagesRow) (pkg : Package) :
    pkg ∈ scanPackages db fresh rows ↔
      ∃ a r, (a, r) ∈ List.enumFrom fresh rows ∧ pkg = newPackageFromScan db a r := by
  rw [scanPackages_eq, List.mem_map]
  constructor
  · rintro ⟨⟨a, r⟩, h, rfl⟩; exact ⟨a, r, h, rfl⟩
  · rintro ⟨a, r, h, rfl⟩; exact ⟨(a, r), h, rfl⟩

theorem scanPackages_eq_nil (db : DB) (fresh : PkgPtr) (rows : List PackagesRow) :
    scanPackages db fresh rows = [] ↔ rows = [] := by
  rw [scanPackages_eq, List.map_eq_nil_iff, List.enumFrom_eq_nil]

theorem loadPackagesByName_eq (db : DB) (fresh : PkgPtr) (name version : String) :
    loadPackagesByName db fresh name version =
      scanPackages db fresh (db.packages.filter (selectedByName name version)) := by
  unfold loadPackagesByName selectedByName
  by_cases hv : version = ""
  · simp [hv]
  · simp [hv]

theorem foldl_snoc_map {α β : Type} (f : α → β) : ∀ (rows : List α) (acc : List β),
    rows.foldl (fun out row => out ++ [f row]) acc = acc ++ rows.map f
  | [], acc => by simp
  | r :: rows, acc => by rw [List.foldl_cons, foldl_snoc_map f rows]; simp

theorem findProvidesByName_eq (db : DB) (name : String) :
    findProvidesByName db name =
      (db.provides.filter (fun r => sqlEq r.name name)).map (ProvidesRow.toProvides none) := by
  have h := foldl_snoc_map (ProvidesRow.toProvides none)
    (db.provides.filter (fun r => sqlEq r.name name)) []
  rw [List.nil_append] at h
  exact h

end RepositorySQLiteBackend

/-- On the relational backend, a request with a selected row that matches resolves to
a greatest matching selected row. -/
theorem sql_FindLatestMatchingName_latest (db : DB) (fresh : PkgPtr)
    (name version release : String)
    (h : ∃ r ∈ db.packages, selectedByName name version r = true ∧
      ProvideMatches (NewRequires name version release "" "EQ" "").torpmBase r.rpm = true) :
    ∃ pkg r a,
      RepositorySQLiteBackend.FindLatestMatchingName db fresh name version release
        = (some pkg, none) ∧
      r ∈ db.packages ∧ selectedByName name version r = true ∧
      pkg = RepositorySQLiteBackend.newPackageFromScan db a r ∧
      ProvideMatches (NewRequires name version release "" "EQ" "").torpmBase r.rpm = true ∧
      ∀ r' ∈ db.packages, selectedByName name version r' = true →
        ProvideMatches (NewRequires name version release "" "EQ" "").torpmBase r'.rpm = true →
        RpmLessThan r.rpm r'.rpm = false := by
  obtain ⟨r0, hr0, hs0, hm0⟩ := h
  have hmem := RepositorySQLiteBackend.mem_scanPackages db fresh
    (db.packages.filter (selectedByName name version))
  have hall : ∀ r ∈ db.packages, selectedByName name version r = true →
      ∃ pkg ∈ RepositorySQLiteBackend.scanPackages db fresh
        (db.packages.filter (selectedByName name version)), pkg.torpmBase = r.rpm := by
    intro r hr hs
    have hr' : r ∈ db.packages.filter (selectedByName name version) :=
      List.mem_filter.2 ⟨hr, hs⟩
    obtain ⟨i, hi⟩ := List.mem_iff_getElem?.1 hr'
    refine ⟨RepositorySQLiteBackend.newPackageFromScan db (fresh + i) r, ?_,
      RepositorySQLiteBackend.newPackageFromScan_rpm db _ r⟩
    rw [hmem]
    exact ⟨fresh + i, r, List.mk_add_mem_enumFrom_iff_getElem?.2 hi, rfl⟩
  unfold RepositorySQLiteBackend.FindLatestMatchingName
  rw [RepositorySQLiteBackend.loadPackagesByName_eq]
  have hfne : (RepositorySQLiteBackend.scanPackages db fresh
      (db.packages.filter (selectedByName name version))).filter (fun pkg =>
        ProvideMatches (NewRequires name version release "" "EQ" "").torpmBase pkg.torpmBase)
      ≠ [] := by
    obtain ⟨pkg, hp, hpr⟩ := hall r0 hr0 hs0
    apply List.ne_nil_of_mem (a := pkg)
    rw [List.mem_filter]
    exact ⟨hp, by rw [hpr]; exact hm0⟩
  obtain ⟨p, hp1, hp2, hp3⟩ := sortSort_getLast (fun q : Package => q.torpmBase) _ hfne
  rw [List.mem_filter] at hp2
  obtain ⟨a, r, har, rfl⟩ := (hmem p).1 hp2.1
  have hr := List.mem_filter.1 (List.snd_mem_of_mem_enumFrom har)
  simp only at hr
  have hrpm := RepositorySQLiteBackend.newPackageFromScan_rpm db a r
  refine ⟨_, r, a, ?_, hr.1, hr.2, rfl, ?_, ?_⟩
  · have hlen : ¬ ((RepositorySQLiteBackend.scanPackages db fresh
        (db.packages.filter (selectedByName name version))).filter (fun pkg =>
          ProvideMatches (NewRequires name version release "" "EQ" "").torpmBase
            pkg.torpmBase)).length ≤ 0 := by
      have := List.length_pos.2 hfne
      omega
    simp only [hlen, if_false]
    rw [show lessPackage = (fun a b : Package => RpmLessThan ((fun q : Package => q.torpmBase) a)
      ((fun q : Package => q.torpmBase) b)) from rfl, hp1]
  · rw [← hrpm]; exact hp2.2
  · intro r' hr' hs' hm'
    obtain ⟨q, hq, hqr⟩ := hall r' hr' hs'
    have := hp3 q (List.mem_filter.2 ⟨hq, by rw [hqr]; exact hm'⟩)
    simp only [hrpm, hqr] at this
    exact this

/-! ## Properties of the backends -/

/-! ### Data-type identifiers -/

/-- C1: for every state of either backend, `YumDataType()` of the relational backend
is exactly `"primary_db"` and `YumDataType()` of the XML backend is exactly
`"primary"`; the result depends on no field, in particular not on whether `LoadDB`
has run. -/
theorem C1_yumDataType (s : RepositorySQLiteBackend) (x : RepositoryXMLBackend) :
    s.YumDataType = "primary_db" ∧ x.YumDataType = "primary" :=
  ⟨rfl, rfl⟩

/-! ### Latest wins -/

/-- C2 (as amended): latest wins. On the XML backend, when some catalog element of the
requested name satisfies `ProvideMatches` against the implicit requirement (name,
version, release, EQ), `FindLatestMatchingName` returns without error the package of
such an element and no such element is strictly greater in (epoch, version, release)
order. On the relational backend the same holds with the candidates taken among the
rows the query selects: the name column equals the requested name and, when the
requested version is not empty, the version column equals the requested version
string. -/
theorem C2_latest_wins (IGN : List String) (primary : String) (tree : xmlTree) (db : DB)
    (fresh : PkgPtr) (name version release : String) :
    ((∃ x ∈ tree.Packages, x.Name = name ∧
        ProvideMatches (NewRequires name version release "" "EQ" "").torpmBase x.rpm = true) →
      ∃ p x,
        (RepositoryXMLBackend.LoadDB IGN (NewRepositoryXMLBackend primary)
          (Except.ok tree)).1.FindLatestMatchingName name version release = (some p, none) ∧
        tree.Packages[p]? = some x ∧
        (RepositoryXMLBackend.LoadDB IGN (NewRepositoryXMLBackend primary)
          (Except.ok tree)).1.deref p = packageOf p x ∧
        x.Name = name ∧
        ProvideMatches (NewRequires name version release "" "EQ" "").torpmBase x.rpm = true ∧
        ∀ y ∈ tree.Packages, y.Name = name →
          ProvideMatches (NewRequires name version release "" "EQ" "").torpmBase y.rpm = true →
          RpmLessThan x.rpm y.rpm = false) ∧
    ((∃ r ∈ db.packages, selectedByName name version r = true ∧
        ProvideMatches (NewRequires name version release "" "EQ" "").torpmBase r.rpm = true) →
      ∃ pkg r a,
        RepositorySQLiteBackend.FindLatestMatchingName db fresh name version release
          = (some pkg, none) ∧
        r ∈ db.packages ∧ selectedByName name version r = true ∧
        pkg = RepositorySQLiteBackend.newPackageFromScan db a r ∧
        ProvideMatches (NewRequires name version release "" "EQ" "").torpmBase r.rpm = true ∧
        ∀ r' ∈ db.packages, selectedByName name version r' = true →
          ProvideMatches (NewRequires name version release "" "EQ" "").torpmBase r'.rpm = true →
          RpmLessThan r.rpm r'.rpm = false) :=
  ⟨xml_FindLatestMatchingName_latest IGN primary tree name version release,
    sql_FindLatestMatchingName_latest db fresh name version release⟩

/-- Witness of C2 on the catalog `foo-1.0-1`, `foo-1.2-1`, `foo-1.1-3` with the
name-only query: both backends return `foo-1.2-1` (address 1 on the XML backend). -/
theorem C2_latest_wins_witness :
    (∃ x ∈ exTree.Packages, x.Name = "foo" ∧
      ProvideMatches (NewRequires "foo" "" "" "" "EQ" "").torpmBase x.rpm = true) ∧
    (∃ p, (RepositoryXMLBackend.LoadDB [] (NewRepositoryXMLBackend "primary.xml.gz")
        (Except.ok exTree)).1.FindLatestMatchingName "foo" "" "" = (some p, none)) ∧
    (RepositoryXMLBackend.LoadDB [] (NewRepositoryXMLBackend "primary.xml.gz")
        (Except.ok exTree)).1.FindLatestMatchingName "foo" "" "" = (some 1, none) ∧
    (∃ r ∈ exDB.packages, selectedByName "foo" "" r = true ∧
      ProvideMatches (NewRequires "foo" "" "" "" "EQ" "").torpmBase r.rpm = true) ∧
    (∃ pkg, RepositorySQLiteBackend.FindLatestMatchingName exDB 0 "foo" "" ""
        = (some pkg, none)) ∧
    (RepositorySQLiteBackend.FindLatestMatchingName exDB 0 "foo" "" "").1.map Package.header
      = some (exRow 2 "foo" "1.2" "1").header :=
  have hx : ∃ x ∈ exTree.Packages, x.Name = "foo" ∧
      ProvideMatches (NewRequires "foo" "" "" "" "EQ" "").torpmBase x.rpm = true :=
    ⟨exElement "foo" "1.0" "1" [], by decide, by decide, by decide⟩
  have hr : ∃ r ∈ exDB.packages, selectedByName "foo" "" r = true ∧
      ProvideMatches (NewRequires "foo" "" "" "" "EQ" "").torpmBase r.rpm = true :=
    ⟨exRow 1 "foo" "1.0" "1", by decide, by decide, by decide⟩
  have hc := C2_latest_wins [] "primary.xml.gz" exTree exDB 0 "foo" "" ""
  ⟨hx, (hc.1 hx).elim (fun p h => h.elim (fun _ h2 => ⟨p, h2.1⟩)),
    by decide, hr,
    (hc.2 hr).elim (fun pkg h => h.elim (fun _ h2 => h2.elim (fun _ h3 => ⟨pkg, h3.1⟩))),
    by decide⟩

/-- Counterexample to C2 as stated: the relational catalog holds `foo-1.00-1`, which
satisfies `ProvideMatches` against (foo, 1.0, 1, EQ), yet
`FindLatestMatchingName("foo", "1.0", "1")` fails with `no such package`. -/
theorem C2_counterexample :
    (∃ r ∈ exDBSpelling.packages, goString r.name = "foo" ∧
      ProvideMatches (NewRequires "foo" "1.0" "1" "" "EQ" "").torpmBase r.rpm = true) ∧
    RepositorySQLiteBackend.FindLatestMatchingName exDBSpelling 0 "foo" "1.0" "1"
      = (none, some (fmtErrorf "no such package %q" ["foo"])) :=
  ⟨⟨exRow 1 "foo" "1.00" "1", by decide, by decide, by decide⟩, by decide⟩

/-! ### Unknown names -/

theorem xml_FindLatestMatchingName_unknown (IGN : List String) (primary : String)
    (tree : xmlTree) (name version release : String)
    (h : ∀ x ∈ tree.Packages, x.Name ≠ name) :
    (RepositoryXMLBackend.LoadDB IGN (NewRepositoryXMLBackend primary)
      (Except.ok tree)).1.FindLatestMatchingName name version release
      = (none, some (fmtErrorf "no such package %q" [name])) := by
  unfold RepositoryXMLBackend.FindLatestMatchingName
  rw [loaded_Packages_none IGN primary tree name (indexPackages_eq_nil name _ 0 h)]

theorem xml_FindLatestMatchingRequire_unknown (IGN : List String) (primary : String)
    (tree : xmlTree) (requirement : Requires)
    (h : indexProvides IGN requirement.name 0 tree.Packages = []) :
    (RepositoryXMLBackend.LoadDB IGN (NewRepositoryXMLBackend primary)
      (Except.ok tree)).1.FindLatestMatchingRequire requirement
      = (none, some (fmtErrorf "no package providing name=%q version=%q release=%q"
          [requirement.name, requirement.version, requirement.release])) := by
  unfold RepositoryXMLBackend.FindLatestMatchingRequire
  rw [loaded_Provides_none IGN primary tree requirement.name h]

theorem sql_FindLatestMatchingName_unknown (db : DB) (fresh : PkgPtr)
    (name version release : String) (h : ∀ r ∈ db.packages, r.name ≠ some name) :
    RepositorySQLiteBackend.FindLatestMatchingName db fresh name version release
      = (none, some (fmtErrorf "no such package %q" [name])) := by
  have hsel : db.packages.filter (selectedByName name version) = [] := by
    apply List.filter_eq_nil_iff.2
    intro r hr
    have := h r hr
    simp [selectedByName, sqlEq, this]
  unfold RepositorySQLiteBackend.FindLatestMatchingName
  rw [RepositorySQLiteBackend.loadPackagesByName_eq, hsel]
  rfl

theorem sql_FindLatestMatchingRequire_unknown (db : DB) (fresh : PkgPtr)
    (requirement : Requires) (h : ∀ r ∈ db.provides, r.name ≠ some requirement.name) :
    RepositorySQLiteBackend.FindLatestMatchingRequire db fresh requirement
      = (none, some (fmtErrorf "no package providing name=%q version=%q release=%q"
          [requirement.name, requirement.version, requirement.release])) := by
  have hsel : db.provides.filter (fun r => sqlEq r.name requirement.name) = [] := by
    apply List.filter_eq_nil_iff.2
    intro r hr
    have := h r hr
    simp [sqlEq, this]
  unfold RepositorySQLiteBackend.FindLatestMatchingRequire
  rw [RepositorySQLiteBackend.findProvidesByName_eq, hsel]
  rfl

/-- C3: not-found on an unknown name. When no catalog package has the requested name,
`FindLatestMatchingName(name, version, release)` returns no package and the error
`fmt.Errorf("no such package %q", name)` on both backends; when no package provides
the capability a requirement names, `FindLatestMatchingRequire` returns no package
and the error `fmt.Errorf("no package providing name=%q version=%q release=%q", ...)`
on both backends. -/
theorem C3_not_found (IGN : List String) (primary : String) (tree : xmlTree) (db : DB)
    (fresh : PkgPtr) (name version release : String) (requirement : Requires) :
    ((∀ x ∈ tree.Packages, x.Name ≠ name) →
      (RepositoryXMLBackend.LoadDB IGN (NewRepositoryXMLBackend primary)
        (Except.ok tree)).1.FindLatestMatchingName name version release
        = (none, some (fmtErrorf "no such package %q" [name]))) ∧
    ((∀ r ∈ db.packages, r.name ≠ some name) →
      RepositorySQLiteBackend.FindLatestMatchingName db fresh name version release
        = (none, some (fmtErrorf "no such package %q" [name]))) ∧
    ((∀ x ∈ tree.Packages, ∀ v ∈ x.Format.Provides, v.Name ≠ requirement.name) →
      (RepositoryXMLBackend.LoadDB IGN (NewRepositoryXMLBackend primary)
        (Except.ok tree)).1.FindLatestMatchingRequire requirement
        = (none, some (fmtErrorf "no package providing name=%q version=%q release=%q"
            [requirement.name, requirement.version, requirement.release]))) ∧
    ((∀ r ∈ db.provides, r.name ≠ some requirement.name) →
      RepositorySQLiteBackend.FindLatestMatchingRequire db fresh requirement
        = (none, some (fmtErrorf "no package providing name=%q version=%q release=%q"
            [requirement.name, requirement.version, requirement.release]))) :=
  ⟨xml_FindLatestMatchingName_unknown IGN primary tree name version release,
    sql_FindLatestMatchingName_unknown db fresh name version release,
    fun h => xml_FindLatestMatchingRequire_unknown IGN primary tree requirement
      (indexProvides_of_unprovided IGN requirement.name tree.Packages 0 h),
    sql_FindLatestMatchingRequire_unknown db fresh requirement⟩

/-- Witness of C3: the catalog of `foo-1.0-1` and `bar-2.0-1` has no package
`doesnotexist` and no provider of `libnothing`. -/
theorem C3_not_found_witness :
    (∀ x ∈ exProvTree.Packages, x.Name ≠ "doesnotexist") ∧
    (RepositoryXMLBackend.LoadDB ["/bin/sh"] (NewRepositoryXMLBackend "primary.xml.gz")
      (Except.ok exProvTree)).1.FindLatestMatchingName "doesnotexist" "" ""
      = (none, some (fmtErrorf "no such package %q" ["doesnotexist"])) ∧
    (∀ r ∈ exProvDB.packages, r.name ≠ some "doesnotexist") ∧
    RepositorySQLiteBackend.FindLatestMatchingName exProvDB 0 "doesnotexist" "" ""
      = (none, some (fmtErrorf "no such package %q" ["doesnotexist"])) ∧
    (∀ x ∈ exProvTree.Packages, ∀ v ∈ x.Format.Provides,
      v.Name ≠ (NewRequires "libnothing" "1.0" "1" "" "GE" "").name) ∧
    (RepositoryXMLBackend.LoadDB ["/bin/sh"] (NewRepositoryXMLBackend "primary.xml.gz")
      (Except.ok exProvTree)).1.FindLatestMatchingRequire (NewRequires "libnothing" "1.0" "1" "" "GE" "")
      = (none, some (fmtErrorf "no package providing name=%q version=%q release=%q"
          ["libnothing", "1.0", "1"])) ∧
    (∀ r ∈ exProvDB.provides, r.name ≠ some (NewRequires "libnothing" "1.0" "1" "" "GE" "").name) ∧
    RepositorySQLiteBackend.FindLatestMatchingRequire exProvDB 0
      (NewRequires "libnothing" "1.0" "1" "" "GE" "")
      = (none, some (fmtErrorf "no package providing name=%q version=%q release=%q"
          ["libnothing", "1.0", "1"])) :=
  have hc := C3_not_found ["/bin/sh"] "primary.xml.gz" exProvTree exProvDB 0 "doesnotexist" "" ""
    (NewRequires "libnothing" "1.0" "1" "" "GE" "")
  have h1 : ∀ x ∈ exProvTree.Packages, x.Name ≠ "doesnotexist" := by decide
  have h2 : ∀ r ∈ exProvDB.packages, r.name ≠ some "doesnotexist" := by decide
  have h3 : ∀ x ∈ exProvTree.Packages, ∀ v ∈ x.Format.Provides,
      v.Name ≠ (NewRequires "libnothing" "1.0" "1" "" "GE" "").name := by decide
  have h4 : ∀ r ∈ exProvDB.provides,
      r.name ≠ some (NewRequires "libnothing" "1.0" "1" "" "GE" "").name := by decide
  ⟨h1, hc.1 h1, h2, hc.2.1 h2, h3, hc.2.2.1 h3, h4, hc.2.2.2 h4⟩

/-! ### No survivor -/

/-- C4 at its failing input: on the XML backend a name (or capability) that exists,
but with no candidate satisfying `ProvideMatches`, makes `FindLatestMatchingName`
and `FindLatestMatchingRequire` return the nil package together with the nil error;
the relational backend fails with an error on the same content. -/
theorem C4_xml_returns_nil_nil :
    (RepositoryXMLBackend.LoadDB ["/bin/sh"] (NewRepositoryXMLBackend "primary.xml.gz")
      (Except.ok exProvTree)).1.FindLatestMatchingName "foo" "2.0" "1" = (none, none) ∧
    (RepositoryXMLBackend.LoadDB ["/bin/sh"] (NewRepositoryXMLBackend "primary.xml.gz")
      (Except.ok exProvTree)).1.FindLatestMatchingRequire
        (NewRequires "libbar" "3.0" "" "" "GE" "") = (none, none) ∧
    RepositorySQLiteBackend.FindLatestMatchingName exProvDB 0 "foo" "2.0" "1"
      = (none, some (fmtErrorf "no such package %q" ["foo"])) ∧
    RepositorySQLiteBackend.FindLatestMatchingRequire exProvDB 0
      (NewRequires "libbar" "3.0" "" "" "GE" "")
      = (none, some (fmtErrorf "no package providing name=%q version=%q release=%q"
          ["libbar", "3.0", ""])) := by
  refine ⟨by decide, by decide, by decide, by decide⟩

/-! ### The two-stage capability lookup -/

namespace RepositorySQLiteBackend

theorem foldl_append_eq_flatMap {α β : Type} (g : α → List β) : ∀ (l : List α) (acc : List β),
    l.foldl (fun rows p => rows ++ g p) acc = acc ++ l.flatMap g
  | [], acc => by simp
  | a :: l, acc => by rw [List.foldl_cons, foldl_append_eq_flatMap g l]; simp

theorem mem_joinProviding (db : DB) (prov : Provides) (p : PackagesRow) :
    p ∈ joinProviding db prov ↔ p ∈ db.packages ∧ ∃ r ∈ db.provides, joinedTo prov p r := by
  unfold joinProviding
  rw [foldl_append_eq_flatMap, List.nil_append, List.mem_flatMap]
  constructor
  · rintro ⟨q, hq, hp⟩
    obtain ⟨r, hr, rfl⟩ := List.mem_map.1 hp
    rw [List.mem_filter] at hr
    refine ⟨hq, r, hr.1, ?_⟩
    have h2 := hr.2
    simp only [Bool.and_eq_true, decide_eq_true_eq, sqlEq, beq_iff_eq] at h2
    refine ⟨h2.1.1.1, h2.1.1.2, h2.1.2, ?_⟩
    intro hrel
    have h3 := h2.2
    simp only [hrel, ne_eq, not_false_eq_true, if_true, beq_iff_eq] at h3
    exact h3
  · rintro ⟨hp, r, hr, h1, h2, h3, h4⟩
    refine ⟨p, hp, List.mem_map.2 ⟨r, List.mem_filter.2 ⟨hr, ?_⟩, rfl⟩⟩
    simp only [Bool.and_eq_true, decide_eq_true_eq, sqlEq, beq_iff_eq]
    refine ⟨⟨⟨h1, h2⟩, h3⟩, ?_⟩
    by_cases hrel : prov.release = ""
    · simp [hrel]
    · simp only [ne_eq, hrel, not_false_eq_true, if_true, beq_iff_eq]
      exact h4 hrel

end RepositorySQLiteBackend

/-- C5: the two-stage capability lookup of the relational backend. When at least one
`provides` row named as the requirement satisfies `ProvideMatches`, and no
`packages` row is joined to a `provides` row carrying the name and version of the
winning entry (and its release, when that is not empty), `FindLatestMatchingRequire`
returns no package and the error `fmt.Errorf("no such package %q", name)` for the
requirement's name. -/
theorem C5_second_pass_empty (db : DB) (fresh : PkgPtr) (requirement : Requires)
    (hmatch : ∃ r ∈ db.provides, r.name = some requirement.name ∧
      ProvideMatches requirement.torpmBase (r.toProvides none).torpmBase = true)
    (hempty : ∀ w, winningProvides db requirement = some w →
      ∀ p ∈ db.packages, ∀ r ∈ db.provides, ¬ joinedTo w p r) :
    (∃ w, winningProvides db requirement = some w) ∧
    RepositorySQLiteBackend.FindLatestMatchingRequire db fresh requirement
      = (none, some (fmtErrorf "no such package %q" [requirement.name])) := by
  obtain ⟨r0, hr0, hn0, hm0⟩ := hmatch
  have hmem : (r0.toProvides none) ∈
      (RepositorySQLiteBackend.findProvidesByName db requirement.name).filter
        (fun pr => ProvideMatches requirement.torpmBase pr.torpmBase) := by
    rw [List.mem_filter, RepositorySQLiteBackend.findProvidesByName_eq]
    refine ⟨List.mem_map.2 ⟨r0, List.mem_filter.2 ⟨hr0, ?_⟩, rfl⟩, hm0⟩
    simp [sqlEq, hn0]
  unfold winningProvides at hempty
  unfold winningProvides RepositorySQLiteBackend.FindLatestMatchingRequire
  cases hl : (RepositorySQLiteBackend.findProvidesByName db requirement.name).filter
      (fun pr => ProvideMatches requirement.torpmBase pr.torpmBase) with
  | nil => rw [hl] at hmem; exact absurd hmem (List.not_mem_nil _)
  | cons m ms =>
    rw [hl] at hempty
    have hne : sortSort lessProv (m :: ms) ≠ [] :=
      fun h => List.cons_ne_nil m ms ((sortSort_eq_nil _ _).1 h)
    have hlast : (sortSort lessProv (m :: ms)).getLast? =
        some ((sortSort lessProv (m :: ms)).getLastD m) := by
      rw [List.getLast?_eq_getLast _ hne, List.getLastD_eq_getLast?,
        List.getLast?_eq_getLast _ hne]
      rfl
    refine ⟨⟨_, hlast⟩, ?_⟩
    have hnil : RepositorySQLiteBackend.joinProviding db
        ((sortSort lessProv (m :: ms)).getLastD m) = [] := by
      apply List.eq_nil_iff_forall_not_mem.2
      intro p hp
      obtain ⟨hp1, r, hr, hj⟩ := (RepositorySQLiteBackend.mem_joinProviding db _ p).1 hp
      exact hempty _ hlast p hp1 r hr hj
    simp only [hl, RepositorySQLiteBackend.loadPackagesProviding, hnil]
    rfl

/-- Witness of C5: the unversioned provide `/bin/sh` of `foo-1.0-1` is stored with a
NULL version; the requirement on `/bin/sh` matches it, the second pass compares the
version column with the empty string and finds no row. -/
theorem C5_second_pass_empty_witness :
    (∃ r ∈ exProvDB.provides, r.name = some (NewRequires "/bin/sh" "" "" "" "" "").name ∧
      ProvideMatches (NewRequires "/bin/sh" "" "" "" "" "").torpmBase
        (r.toProvides none).torpmBase = true) ∧
    (∃ w, winningProvides exProvDB (NewRequires "/bin/sh" "" "" "" "" "") = some w) ∧
    RepositorySQLiteBackend.FindLatestMatchingRequire exProvDB 0
      (NewRequires "/bin/sh" "" "" "" "" "")
      = (none, some (fmtErrorf "no such package %q" ["/bin/sh"])) :=
  have h1 : ∃ r ∈ exProvDB.provides,
      r.name = some (NewRequires "/bin/sh" "" "" "" "" "").name ∧
      ProvideMatches (NewRequires "/bin/sh" "" "" "" "" "").torpmBase
        (r.toProvides none).torpmBase = true :=
    ⟨{ pkgkey := 1, name := some "/bin/sh", version := none, release := none,
       epoch := none, flags := none }, by decide, by decide, by decide⟩
  have h2 : ∀ w, winningProvides exProvDB (NewRequires "/bin/sh" "" "" "" "" "") = some w →
      ∀ p ∈ exProvDB.packages, ∀ r ∈ exProvDB.provides, ¬ joinedTo w p r := by
    intro w hw
    have hw2 : w = NewProvides "/bin/sh" "" "" "" "" none := by
      have h : winningProvides exProvDB (NewRequires "/bin/sh" "" "" "" "" "") =
          some (NewProvides "/bin/sh" "" "" "" "" none) := by decide
      rw [h] at hw
      exact (Option.some.inj hw).symm
    subst hw2
    unfold joinedTo
    decide
  ⟨h1, C5_second_pass_empty exProvDB 0 (NewRequires "/bin/sh" "" "" "" "" "") h1 h2⟩

/-! ### Cross-backend consistency -/

theorem sortSort_map {α β : Type} (f : α → β) (less : α → α → Bool) (less' : β → β → Bool)
    (h : ∀ a b, less a b = less' (f a) (f b)) (l : List α) :
    (sortSort less l).map f = sortSort less' (l.map f) := by
  unfold sortSort
  apply List.map_insertionSort
  intro a _ b _
  show less b a = false ↔ less' (f b) (f a) = false
  rw [h]

theorem indexPackages_map (k : String) {β : Type} (f : Nat → xmlPackage → β) :
    ∀ (xs : List xmlPackage) (base : Nat) (g : Nat → β),
      (∀ i x, xs[i]? = some x → g (base + i) = f (base + i) x) →
      (indexPackages k base xs).map g =
        ((List.enumFrom base xs).filter (fun ax => decide (ax.2.Name = k))).map
          (fun ax => f ax.1 ax.2)
  | [], _, _, _ => by simp [indexPackages]
  | x :: xs, base, g, hg => by
    have ih := indexPackages_map k f xs (base + 1) g (by
      intro i y hy
      have := hg (i + 1) y (by simpa using hy)
      rw [show base + 1 + i = base + (i + 1) by omega]
      exact this)
    have h0 := hg 0 x (by simp)
    simp only [Nat.add_zero] at h0
    simp only [indexPackages, List.map_append, ih, List.enumFrom_cons, List.filter_cons]
    by_cases hx : x.Name = k
    · simp [hx, h0]
    · simp [hx]

theorem filter_map_enumFrom_snd {α β : Type} (p : α → Bool) (f : α → β) :
    ∀ (l : List α) (n : Nat),
      ((List.enumFrom n l).filter (fun ax => p ax.2)).map (fun ax => f ax.2) =
        (l.filter p).map f
  | [], _ => by simp
  | a :: l, n => by
    simp only [List.enumFrom_cons, List.filter_cons]
    by_cases h : p a = true
    · simp [h, filter_map_enumFrom_snd p f l]
    · simp [h, filter_map_enumFrom_snd p f l]

theorem loaded_coordinates (IGN : List String) (primary : String) (tree : xmlTree)
    (name : String) :
    (indexPackages name 0 tree.Packages).map (fun a =>
      ((RepositoryXMLBackend.LoadDB IGN (NewRepositoryXMLBackend primary)
        (Except.ok tree)).1.deref a).coordinates) =
      (tree.Packages.filter (fun x => decide (x.Name = name))).map xmlPackage.coordinates := by
  rw [indexPackages_map name (fun _ x => x.coordinates) tree.Packages 0]
  · exact filter_map_enumFrom_snd (fun x => decide (x.Name = name)) xmlPackage.coordinates _ _
  · intro i x hx
    simp only [Nat.zero_add]
    rw [loaded_deref IGN primary tree i x hx]
    rfl

theorem scanPackages_coordinates (db : DB) (fresh : PkgPtr) (rows : List PackagesRow) :
    (RepositorySQLiteBackend.scanPackages db fresh rows).map Package.coordinates =
      rows.map PackagesRow.coordinates := by
  rw [RepositorySQLiteBackend.scanPackages_eq, List.map_map]
  have h : (Package.coordinates ∘ fun ar : Nat × PackagesRow =>
      RepositorySQLiteBackend.newPackageFromScan db ar.1 ar.2) =
      PackagesRow.coordinates ∘ Prod.snd := by
    funext ar
    simp only [Function.comp, RepositorySQLiteBackend.newPackageFromScan_eq]
    rfl
  rw [h, ← List.map_map, List.enumFrom_map_snd]

theorem sameCatalog_filter (name : String) :
    ∀ (rows : List PackagesRow) (xs : List xmlPackage),
      List.Forall₂ (fun (r : PackagesRow) (x : xmlPackage) =>
        r.name = some x.Name ∧ r.coordinates = x.coordinates) rows xs →
      (rows.filter (selectedByName name "")).map PackagesRow.coordinates =
        (xs.filter (fun x => decide (x.Name = name))).map xmlPackage.coordinates
  | _, _, List.Forall₂.nil => by simp
  | r :: rows, x :: xs, List.Forall₂.cons h hs => by
    have ih := sameCatalog_filter name rows xs hs
    have hsel : selectedByName name "" r = decide (x.Name = name) := by
      simp only [selectedByName, sqlEq, h.1, decide_True, Bool.true_or, Bool.and_true]
      by_cases hx : x.Name = name <;> simp [hx]
    simp only [List.filter_cons, hsel]
    by_cases hx : x.Name = name
    · simp [hx, ih, h.2]
    · simp [hx, ih]

/-- C6: cross-backend consistency. For equivalent catalog content (one `packages` row
per `package` element, in document order, with the same coordinates) and every
name, `FindLatestMatchingName(name, "", "")` either fails on both backends, with the
same `no such package` error, or returns from both a package with identical (name,
version, release, epoch, arch, location). -/
theorem C6_cross_backend (IGN : List String) (primary : String) (tree : xmlTree) (db : DB)
    (fresh : PkgPtr) (name : String) (h : SameCatalog db tree) :
    ((RepositoryXMLBackend.LoadDB IGN (NewRepositoryXMLBackend primary)
        (Except.ok tree)).1.FindLatestMatchingName name "" ""
        = (none, some (fmtErrorf "no such package %q" [name])) ∧
      RepositorySQLiteBackend.FindLatestMatchingName db fresh name "" ""
        = (none, some (fmtErrorf "no such package %q" [name]))) ∨
    ∃ p pkg,
      (RepositoryXMLBackend.LoadDB IGN (NewRepositoryXMLBackend primary)
        (Except.ok tree)).1.FindLatestMatchingName name "" "" = (some p, none) ∧
      RepositorySQLiteBackend.FindLatestMatchingName db fresh name "" "" = (some pkg, none) ∧
      ((RepositoryXMLBackend.LoadDB IGN (NewRepositoryXMLBackend primary)
        (Except.ok tree)).1.deref p).coordinates = pkg.coordinates := by
  by_cases hex : ∃ x ∈ tree.Packages, x.Name = name
  · right
    obtain ⟨x0, hx0, hn0⟩ := hex
    have hne : indexPackages name 0 tree.Packages ≠ [] :=
      indexPackages_ne_nil name tree.Packages 0 x0 hx0 hn0
    have hP := loaded_Packages IGN primary tree name hne
    have hA := loaded_coordinates IGN primary tree name
    have hB := scanPackages_coordinates db fresh (db.packages.filter (selectedByName name ""))
    rw [sameCatalog_filter name _ _ h, ← hA] at hB
    generalize (RepositoryXMLBackend.LoadDB IGN (NewRepositoryXMLBackend primary)
      (Except.ok tree)).1 = st at hP hA hB ⊢
    -- every scanned package matches the name-only requirement
    have hall : (RepositorySQLiteBackend.scanPackages db fresh
        (db.packages.filter (selectedByName name ""))).filter (fun pkg =>
          ProvideMatches (NewRequires name "" "" "" "EQ" "").torpmBase pkg.torpmBase) =
        RepositorySQLiteBackend.scanPackages db fresh
          (db.packages.filter (selectedByName name "")) := by
      apply List.filter_eq_self.2
      intro pkg hpkg
      obtain ⟨a, r, har, rfl⟩ := (RepositorySQLiteBackend.mem_scanPackages _ _ _ _).1 hpkg
      have hr := (List.mem_filter.1 (List.snd_mem_of_mem_enumFrom har)).2
      apply ProvideMatches_unversioned _ _ _ rfl
      rw [RepositorySQLiteBackend.newPackageFromScan_rpm]
      simp only [selectedByName, sqlEq, Bool.and_eq_true, beq_iff_eq] at hr
      simp [NewRequires, PackagesRow.rpm, goString, hr.1]
    have hlen : (indexPackages name 0 tree.Packages).length =
        (RepositorySQLiteBackend.scanPackages db fresh
          (db.packages.filter (selectedByName name ""))).length := by
      have := congrArg List.length hB
      simpa using this.symm
    have hsx := sortSort_map (fun a => (st.deref a).coordinates) st.lessPkg coordLess
      (fun _ _ => rfl) (indexPackages name 0 tree.Packages)
    have hss := sortSort_map Package.coordinates lessPackage coordLess
      (fun _ _ => rfl) (RepositorySQLiteBackend.scanPackages db fresh
        (db.packages.filter (selectedByName name "")))
    rw [hB, ← hsx] at hss
    have hlast := congrArg List.getLast? hss
    rw [List.getLast?_map, List.getLast?_map] at hlast
    have hpos : (indexPackages name 0 tree.Packages).length > 0 := List.length_pos.2 hne
    unfold RepositoryXMLBackend.FindLatestMatchingName
      RepositorySQLiteBackend.FindLatestMatchingName
    rw [hP, RepositorySQLiteBackend.loadPackagesByName_eq]
    simp only [hall, hpos, and_self, if_true]
    have hnle : ¬ (RepositorySQLiteBackend.scanPackages db fresh
        (db.packages.filter (selectedByName name ""))).length ≤ 0 := by omega
    simp only [hnle, if_false]
    cases hx : (sortSort st.lessPkg (indexPackages name 0 tree.Packages)).getLast? with
    | none =>
      rw [List.getLast?_eq_none_iff, sortSort_eq_nil] at hx
      exact absurd hx hne
    | some p =>
      cases hs : (sortSort lessPackage (RepositorySQLiteBackend.scanPackages db fresh
          (db.packages.filter (selectedByName name "")))).getLast? with
      | none =>
        rw [hx, hs] at hlast
        exact absurd hlast (by simp)
      | some pkg =>
        rw [hx, hs] at hlast
        exact ⟨p, pkg, rfl, rfl, (Option.some.inj hlast).symm⟩
  · left
    have hx : ∀ x ∈ tree.Packages, x.Name ≠ name := fun x hx hn => hex ⟨x, hx, hn⟩
    refine ⟨xml_FindLatestMatchingName_unknown IGN primary tree name "" "" hx,
      sql_FindLatestMatchingName_unknown db fresh name "" "" ?_⟩
    intro r hr hrn
    obtain ⟨i, hi⟩ := List.mem_iff_getElem?.1 hr
    have hlen := List.Forall₂.length_eq h
    have hi' := (List.getElem?_eq_some.1 hi)
    obtain ⟨hlt, hri⟩ := hi'
    have hrel := List.Forall₂.get h hlt (hlen ▸ hlt)
    simp only [List.get_eq_getElem] at hrel
    rw [hri, hrn] at hrel
    exact hx _ (List.getElem_mem _) (Option.some.inj hrel.1).symm

/-- Witness of C6 on the catalog `foo-1.0-1`, `foo-1.2-1`, `foo-1.1-3`: both backends
return `foo-1.2-1`. -/
theorem C6_cross_backend_witness :
    SameCatalog exDB exTree ∧
    (∃ p pkg,
      (RepositoryXMLBackend.LoadDB [] (NewRepositoryXMLBackend "primary.xml.gz")
        (Except.ok exTree)).1.FindLatestMatchingName "foo" "" "" = (some p, none) ∧
      RepositorySQLiteBackend.FindLatestMatchingName exDB 0 "foo" "" "" = (some pkg, none) ∧
      ((RepositoryXMLBackend.LoadDB [] (NewRepositoryXMLBackend "primary.xml.gz")
        (Except.ok exTree)).1.deref p).coordinates = pkg.coordinates ∧
      pkg.coordinates = ("foo", "1.2", "1", "0", "noarch", "foo-1.2-1.noarch.rpm")) :=
  have hs : SameCatalog exDB exTree :=
    List.Forall₂.cons ⟨rfl, rfl⟩ (List.Forall₂.cons ⟨rfl, rfl⟩
      (List.Forall₂.cons ⟨rfl, rfl⟩ List.Forall₂.nil))
  have hx : (RepositoryXMLBackend.LoadDB [] (NewRepositoryXMLBackend "primary.xml.gz")
      (Except.ok exTree)).1.FindLatestMatchingName "foo" "" "" = (some 1, none) := by decide
  ⟨hs, (C6_cross_backend [] "primary.xml.gz" exTree exDB 0 "foo" hs).elim
    (fun h => absurd (h.1.symm.trans hx) (by decide))
    (fun h => h.elim (fun p h2 => h2.elim (fun pkg h3 =>
      have hp : p = 1 := Option.some.inj (congrArg Prod.fst (h3.1.symm.trans hx))
      ⟨p, pkg, h3.1, h3.2.1, h3.2.2, by rw [← h3.2.2, hp]; decide⟩)))⟩

/-! ### Round trip -/

namespace RepositoryXMLBackend

theorem GetPackages_eq_flatMap (repo : RepositoryXMLBackend) (iter : List String) :
    repo.GetPackages iter = iter.flatMap (fun k => (repo.Packages k).getD []) := by
  unfold GetPackages
  rw [RepositorySQLiteBackend.foldl_append_eq_flatMap, List.nil_append]

end RepositoryXMLBackend

theorem loaded_Packages_getD (IGN : List String) (primary : String) (tree : xmlTree)
    (k : String) :
    ((RepositoryXMLBackend.LoadDB IGN (NewRepositoryXMLBackend primary)
      (Except.ok tree)).1.Packages k).getD [] = indexPackages k 0 tree.Packages := by
  cases h : indexPackages k 0 tree.Packages with
  | nil => rw [loaded_Packages_none IGN primary tree k h]; rfl
  | cons a l =>
    rw [loaded_Packages IGN primary tree k (by rw [h]; exact List.cons_ne_nil a l), h]
    rfl

theorem loaded_Packages_isSome (IGN : List String) (primary : String) (tree : xmlTree)
    (k : String) :
    ((RepositoryXMLBackend.LoadDB IGN (NewRepositoryXMLBackend primary)
      (Except.ok tree)).1.Packages k).isSome = true ↔ ∃ x ∈ tree.Packages, x.Name = k := by
  constructor
  · intro h
    by_contra hne
    have hnil : indexPackages k 0 tree.Packages = [] :=
      indexPackages_eq_nil k _ 0 (fun x hx hk => hne ⟨x, hx, hk⟩)
    rw [loaded_Packages_none IGN primary tree k hnil] at h
    exact Bool.noConfusion h
  · rintro ⟨x, hx, hk⟩
    rw [loaded_Packages IGN primary tree k (indexPackages_ne_nil k _ 0 x hx hk)]
    rfl

/-- C7: round trip. After one `LoadDB()` on a fresh XML backend, whatever the order in
which `range` visits the keys, `GetPackages()` returns every allocated package
exactly once (a permutation of the addresses `0 .. n-1`, one per catalog element),
the package at address `p` is the one built from the `p`-th element, and so the
returned packages carry, up to order, exactly the name, version, release, epoch,
group, arch and location of the catalog elements. -/
theorem C7_round_trip (IGN : List String) (primary : String) (tree : xmlTree)
    (iter : List String)
    (h : (RepositoryXMLBackend.LoadDB IGN (NewRepositoryXMLBackend primary)
      (Except.ok tree)).1.IsKeyOrder iter) :
    ((RepositoryXMLBackend.LoadDB IGN (NewRepositoryXMLBackend primary)
      (Except.ok tree)).1.GetPackages iter).Perm (List.range tree.Packages.length) ∧
    (∀ p x, tree.Packages[p]? = some x →
      (RepositoryXMLBackend.LoadDB IGN (NewRepositoryXMLBackend primary)
        (Except.ok tree)).1.deref p = packageOf p x) ∧
    (((RepositoryXMLBackend.LoadDB IGN (NewRepositoryXMLBackend primary)
      (Except.ok tree)).1.GetPackages iter).map (fun p =>
        ((RepositoryXMLBackend.LoadDB IGN (NewRepositoryXMLBackend primary)
          (Except.ok tree)).1.deref p).header)).Perm
      (tree.Packages.map xmlPackage.header) := by
  have hder := loaded_deref IGN primary tree
  have hget := loaded_Packages_getD IGN primary tree
  have hsome := loaded_Packages_isSome IGN primary tree
  generalize (RepositoryXMLBackend.LoadDB IGN (NewRepositoryXMLBackend primary)
    (Except.ok tree)).1 = st at h hder hget hsome ⊢
  have hflat : st.GetPackages iter = iter.flatMap (fun k => indexPackages k 0 tree.Packages) := by
    rw [RepositoryXMLBackend.GetPackages_eq_flatMap]
    congr 1
    funext k
    exact hget k
  have hperm : (st.GetPackages iter).Perm (List.range tree.Packages.length) := by
    rw [hflat]
    apply (List.perm_ext_iff_of_nodup ?_ (List.nodup_range _)).2
    · intro a
      rw [List.mem_flatMap, List.mem_range]
      constructor
      · rintro ⟨k, _, ha⟩
        obtain ⟨x, hx, _⟩ := (mem_indexPackages_zero k _ a).1 ha
        exact (List.getElem?_eq_some.1 hx).1
      · intro ha
        refine ⟨tree.Packages[a].Name, ?_, ?_⟩
        · rw [h.2, hsome]
          exact ⟨_, List.getElem_mem ha, rfl⟩
        · exact (mem_indexPackages_zero _ _ a).2 ⟨_, List.getElem?_eq_getElem ha, rfl⟩
    · rw [List.nodup_flatMap]
      refine ⟨fun k _ => nodup_indexPackages k _ 0, ?_⟩
      refine List.Pairwise.imp ?_ h.1
      intro k j hkj a hak haj
      obtain ⟨x, hx, hxk⟩ := (mem_indexPackages_zero k _ a).1 hak
      obtain ⟨y, hy, hyj⟩ := (mem_indexPackages_zero j _ a).1 haj
      rw [hx] at hy
      cases hy
      exact hkj (hxk.symm.trans hyj)
  refine ⟨hperm, hder, ?_⟩
  refine (hperm.map _).trans (List.Perm.of_eq ?_)
  apply List.ext_getElem?
  intro i
  simp only [List.getElem?_map]
  by_cases hi : i < tree.Packages.length
  · simp [List.getElem?_range hi, List.getElem?_eq_getElem hi,
      hder i _ (List.getElem?_eq_getElem hi)]
    rfl
  · have hi' : tree.Packages.length ≤ i := by omega
    simp [List.getElem?_eq_none hi', List.getElem?_eq_none (by simpa using hi' : (List.range tree.Packages.length).length ≤ i)]

/-- Witness of C7 on the catalog of `foo-1.0-1` and `bar-2.0-1`, with the keys
visited in the order `bar`, `foo`: `GetPackages()` returns the addresses 1, 0. -/
theorem C7_round_trip_witness :
    (RepositoryXMLBackend.LoadDB ["/bin/sh"] (NewRepositoryXMLBackend "primary.xml.gz")
      (Except.ok exProvTree)).1.IsKeyOrder ["bar", "foo"] ∧
    (RepositoryXMLBackend.LoadDB ["/bin/sh"] (NewRepositoryXMLBackend "primary.xml.gz")
      (Except.ok exProvTree)).1.GetPackages ["bar", "foo"] = [1, 0] ∧
    (((RepositoryXMLBackend.LoadDB ["/bin/sh"] (NewRepositoryXMLBackend "primary.xml.gz")
      (Except.ok exProvTree)).1.GetPackages ["bar", "foo"]).map (fun p =>
        ((RepositoryXMLBackend.LoadDB ["/bin/sh"] (NewRepositoryXMLBackend "primary.xml.gz")
          (Except.ok exProvTree)).1.deref p).header)).Perm
      (exProvTree.Packages.map xmlPackage.header) :=
  have hk : (RepositoryXMLBackend.LoadDB ["/bin/sh"] (NewRepositoryXMLBackend "primary.xml.gz")
      (Except.ok exProvTree)).1.IsKeyOrder ["bar", "foo"] := by
    refine ⟨by decide, fun k => ?_⟩
    rw [loaded_Packages_isSome]
    simp only [exProvTree, exElement, List.mem_cons, List.mem_singleton, List.not_mem_nil,
      or_false, exists_eq_or_imp, exists_eq_left]
    constructor
    · rintro (h | h) <;> simp [h]
    · rintro (h | h) <;> simp [← h]
  ⟨hk, by decide, (C7_round_trip ["/bin/sh"] "primary.xml.gz" exProvTree ["bar", "foo"] hk).2.2⟩

/-! ### Loading twice -/

theorem providesAt_shift (IGN : List String) (k : String) (base n : Nat) (x : xmlPackage) :
    providesAt IGN k (base + n) x = (providesAt IGN k base x).map (Provides.shift n) := by
  unfold providesAt
  induction x.Format.Provides with
  | nil => rfl
  | cons v vs ih =>
    simp only [List.map_cons, List.filter_cons]
    have hn : (providesOf (base + n) v).name = (providesOf base v).name := rfl
    have hs : providesOf (base + n) v = Provides.shift n (providesOf base v) := rfl
    rw [hn]
    split
    · rw [List.map_cons, ih, hs]
    · exact ih

theorem indexProvides_shift (IGN : List String) (k : String) :
    ∀ (xs : List xmlPackage) (base n : Nat),
      indexProvides IGN k (base + n) xs = (indexProvides IGN k base xs).map (Provides.shift n)
  | [], _, _ => rfl
  | x :: xs, base, n => by
    have h : base + n + 1 = (base + 1) + n := by omega
    simp only [indexProvides, h, indexProvides_shift IGN k xs, List.map_append, providesAt_shift]

theorem loadOnce_eq (IGN : List String) (primary : String) (tree : xmlTree) :
    loadOnce IGN primary tree =
      { NewRepositoryXMLBackend primary with
        Provides := GoMap.extend (fun _ => none) (fun k => indexProvides IGN k 0 tree.Packages),
        Packages := GoMap.extend (fun _ => none) (fun k => indexPackages k 0 tree.Packages),
        heap := allocPackages 0 tree.Packages } :=
  loaded_eq IGN primary tree

theorem loadTwice_eq (IGN : List String) (primary : String) (tree : xmlTree) :
    loadTwice IGN primary tree =
      { loadOnce IGN primary tree with
        Provides := (loadOnce IGN primary tree).Provides.extend
          (fun k => (indexProvides IGN k 0 tree.Packages).map (Provides.shift tree.Packages.length)),
        Packages := (loadOnce IGN primary tree).Packages.extend
          (fun k => (indexPackages k 0 tree.Packages).map (fun a => a + tree.Packages.length)),
        heap := (loadOnce IGN primary tree).heap ++
          allocPackages tree.Packages.length tree.Packages } := by
  have hlen : (loadOnce IGN primary tree).heap.length = tree.Packages.length := by
    rw [loadOnce_eq]; exact length_allocPackages _ _
  unfold loadTwice
  simp only [RepositoryXMLBackend.LoadDB, RepositoryXMLBackend.foldl_loadPackage, hlen]
  have h1 : (fun k => indexProvides IGN k tree.Packages.length tree.Packages) =
      (fun k => (indexProvides IGN k 0 tree.Packages).map (Provides.shift tree.Packages.length)) := by
    funext k
    have := indexProvides_shift IGN k tree.Packages 0 tree.Packages.length
    rw [Nat.zero_add] at this
    exact this
  have h2 : (fun k => indexPackages k tree.Packages.length tree.Packages) =
      (fun k => (indexPackages k 0 tree.Packages).map (fun a => a + tree.Packages.length)) := by
    funext k
    have := indexPackages_shift k tree.Packages 0 tree.Packages.length
    rw [Nat.zero_add] at this
    exact this
  rw [h1, h2]

theorem extend_twice {V : Type} (new : String → List V) (f : V → V) (k : String) :
    (GoMap.extend (GoMap.extend (fun _ => none) new) (fun j => (new j).map f) k).isSome
        = (GoMap.extend (fun _ => none) new k).isSome ∧
      (GoMap.extend (GoMap.extend (fun _ => none) new) (fun j => (new j).map f) k).getD []
        = (GoMap.extend (fun _ => none) new k).getD [] ++
          ((GoMap.extend (fun _ => none) new k).getD []).map f := by
  cases h : new k with
  | nil =>
    have h2 : (fun j => (new j).map f) k = [] := by simp [h]
    rw [GoMap.extend_of_nil _ _ k h2, GoMap.extend_of_nil _ _ k h]
    simp
  | cons a l =>
    have h1 : new k ≠ [] := by rw [h]; exact List.cons_ne_nil a l
    have h2 : (fun j => (new j).map f) k ≠ [] := by simp [h]
    rw [GoMap.extend_of_ne _ _ k h2, GoMap.extend_of_ne _ _ k h1]
    simp

/-- C8 (as amended): a second `LoadDB()` of the same catalog, with no `Close()` in
between, keeps the keys of both indexes and appends to every candidate list a second
copy of its entries (freshly allocated packages, and provides entries owned by
them): both indexes and the heap hold every entry twice, and `GetPackages()` is twice
as long as after the first load, for every order of visiting the keys. -/
theorem C8_second_load_duplicates (IGN : List String) (primary : String) (tree : xmlTree)
    (k : String) (iter : List String) :
    ((loadTwice IGN primary tree).Packages k).isSome
      = ((loadOnce IGN primary tree).Packages k).isSome ∧
    ((loadTwice IGN primary tree).Provides k).isSome
      = ((loadOnce IGN primary tree).Provides k).isSome ∧
    ((loadTwice IGN primary tree).Packages k).getD []
      = ((loadOnce IGN primary tree).Packages k).getD [] ++
        (((loadOnce IGN primary tree).Packages k).getD []).map
          (fun a => a + tree.Packages.length) ∧
    ((loadTwice IGN primary tree).Provides k).getD []
      = ((loadOnce IGN primary tree).Provides k).getD [] ++
        (((loadOnce IGN primary tree).Provides k).getD []).map
          (Provides.shift tree.Packages.length) ∧
    (loadTwice IGN primary tree).heap.length = 2 * (loadOnce IGN primary tree).heap.length ∧
    ((loadTwice IGN primary tree).GetPackages iter).length
      = 2 * ((loadOnce IGN primary tree).GetPackages iter).length := by
  have hP := fun j => extend_twice (fun k => indexPackages k 0 tree.Packages)
    (fun a => a + tree.Packages.length) j
  have hV := fun j => extend_twice (fun k => indexProvides IGN k 0 tree.Packages)
    (Provides.shift tree.Packages.length) j
  have e2 := loadTwice_eq IGN primary tree
  have e1 := loadOnce_eq IGN primary tree
  have hPk : ∀ j, (loadTwice IGN primary tree).Packages j =
      GoMap.extend (GoMap.extend (fun _ => none) (fun k => indexPackages k 0 tree.Packages))
        (fun j => (indexPackages j 0 tree.Packages).map (fun a => a + tree.Packages.length)) j := by
    intro j; rw [e2, e1]
  have hPk1 : ∀ j, (loadOnce IGN primary tree).Packages j =
      GoMap.extend (fun _ => none) (fun k => indexPackages k 0 tree.Packages) j := by
    intro j; rw [e1]
  have hVk : ∀ j, (loadTwice IGN primary tree).Provides j =
      GoMap.extend (GoMap.extend (fun _ => none) (fun k => indexProvides IGN k 0 tree.Packages))
        (fun j => (indexProvides IGN j 0 tree.Packages).map
          (Provides.shift tree.Packages.length)) j := by
    intro j; rw [e2, e1]
  have hVk1 : ∀ j, (loadOnce IGN primary tree).Provides j =
      GoMap.extend (fun _ => none) (fun k => indexProvides IGN k 0 tree.Packages) j := by
    intro j; rw [e1]
  refine ⟨?_, ?_, ?_, ?_, ?_, ?_⟩
  · rw [hPk, hPk1]; exact (hP k).1
  · rw [hVk, hVk1]; exact (hV k).1
  · rw [hPk, hPk1]; exact (hP k).2
  · rw [hVk, hVk1]; exact (hV k).2
  · rw [e2, e1]
    simp [length_allocPackages]
    omega
  · rw [RepositoryXMLBackend.GetPackages_eq_flatMap, RepositoryXMLBackend.GetPackages_eq_flatMap]
    induction iter with
    | nil => rfl
    | cons j js ih =>
      simp only [List.flatMap_cons, List.length_append, ih]
      rw [hPk, hPk1, (hP j).2, List.length_append, List.length_map]
      omega

/-- Counterexample to C8 as stated: after loading the catalog of `foo-1.0-1` and
`bar-2.0-1` twice, `GetPackages()` has length 4 instead of 2, and the candidate
lists of `foo` and of the capability `libbar` hold two entries instead of one. -/
theorem C8_counterexample :
    ((loadOnce ["/bin/sh"] "primary.xml.gz" exProvTree).GetPackages ["foo", "bar"]).length = 2 ∧
    ((loadTwice ["/bin/sh"] "primary.xml.gz" exProvTree).GetPackages ["foo", "bar"]).length = 4 ∧
    (loadOnce ["/bin/sh"] "primary.xml.gz" exProvTree).Packages "foo" = some [0] ∧
    (loadTwice ["/bin/sh"] "primary.xml.gz" exProvTree).Packages "foo" = some [0, 2] ∧
    (((loadOnce ["/bin/sh"] "primary.xml.gz" exProvTree).Provides "libbar").getD []).length = 1 ∧
    (((loadTwice ["/bin/sh"] "primary.xml.gz" exProvTree).Provides "libbar").getD []).length = 2 := by
  refine ⟨by decide, by decide, by decide, by decide, by decide, by decide⟩

/-! ### The ignore list -/

/-- C9: the ignore list on the XML backend. After `LoadDB()` on a fresh backend no name
of `IGNORED_PACKAGES` is a key of the provides index, so a requirement whose name is
on the list makes `FindLatestMatchingRequire` fail with the `no package providing`
error, whatever the catalog packages provide. -/
theorem C9_ignore_list (IGN : List String) (primary : String) (tree : xmlTree)
    (k : String) (requirement : Requires) :
    (k ∈ IGN →
      (RepositoryXMLBackend.LoadDB IGN (NewRepositoryXMLBackend primary)
        (Except.ok tree)).1.Provides k = none) ∧
    (requirement.name ∈ IGN →
      (RepositoryXMLBackend.LoadDB IGN (NewRepositoryXMLBackend primary)
        (Except.ok tree)).1.FindLatestMatchingRequire requirement
        = (none, some (fmtErrorf "no package providing name=%q version=%q release=%q"
            [requirement.name, requirement.version, requirement.release]))) := by
  have hnil : ∀ j, j ∈ IGN → indexProvides IGN j 0 tree.Packages = [] := by
    intro j hj
    apply indexProvides_of_ignored
    simp [str_in_slice, hj]
  exact ⟨fun hk => loaded_Provides_none IGN primary tree k (hnil k hk),
    fun hr => xml_FindLatestMatchingRequire_unknown IGN primary tree requirement
      (hnil requirement.name hr)⟩

/-- Witness of C9: `foo-1.0-1` lists `/bin/sh` among its provides; with `/bin/sh` on
the ignore list the capability is no key of the index and the lookup fails, while
with an empty ignore list the same lookup returns the package. -/
theorem C9_ignore_list_witness :
    "/bin/sh" ∈ ["rpmlib(CompressedFileNames)", "/bin/sh"] ∧
    (∃ x ∈ exProvTree.Packages, ∃ v ∈ x.Format.Provides, v.Name = "/bin/sh") ∧
    (RepositoryXMLBackend.LoadDB ["rpmlib(CompressedFileNames)", "/bin/sh"]
      (NewRepositoryXMLBackend "primary.xml.gz") (Except.ok exProvTree)).1.Provides "/bin/sh"
      = none ∧
    (RepositoryXMLBackend.LoadDB ["rpmlib(CompressedFileNames)", "/bin/sh"]
      (NewRepositoryXMLBackend "primary.xml.gz")
      (Except.ok exProvTree)).1.FindLatestMatchingRequire (NewRequires "/bin/sh" "" "" "" "" "")
      = (none, some (fmtErrorf "no package providing name=%q version=%q release=%q"
          ["/bin/sh", "", ""])) ∧
    (RepositoryXMLBackend.LoadDB [] (NewRepositoryXMLBackend "primary.xml.gz")
      (Except.ok exProvTree)).1.FindLatestMatchingRequire (NewRequires "/bin/sh" "" "" "" "" "")
      = (some 0, none) :=
  have hc := C9_ignore_list ["rpmlib(CompressedFileNames)", "/bin/sh"] "primary.xml.gz"
    exProvTree "/bin/sh" (NewRequires "/bin/sh" "" "" "" "" "")
  have hm : "/bin/sh" ∈ ["rpmlib(CompressedFileNames)", "/bin/sh"] := by decide
  ⟨hm, ⟨exElement "foo" "1.0" "1"
      [{ Name := "foo", Flags := "EQ", Epoch := "0", Version := "1.0", Release := "1" },
       { Name := "/bin/sh", Flags := "", Epoch := "", Version := "", Release := "" }],
      by decide,
      { Name := "/bin/sh", Flags := "", Epoch := "", Version := "", Release := "" },
      by decide, rfl⟩,
    hc.1 hm, hc.2 hm, by decide⟩

/-! ### Flag defaulting on relational load -/

/-- C10 at its failing input: the rows of `foo-1.0-1` with an empty (NULL) flags column.
`loadRequires` turns the empty flag of the requires row into `"EQ"`; `loadProvides`
and `findProvidesByName` keep the empty flag of the provides row, which is none of
EQ, LT, LE, GT, GE. -/
theorem C10_provides_flag_not_defaulted :
    (RepositorySQLiteBackend.newPackageFromScan exProvDB 0 (exRow 1 "foo" "1.0" "1")).requires.map
      (fun r => (r.name, r.flags)) = [("/bin/sh", "EQ")] ∧
    (RepositorySQLiteBackend.newPackageFromScan exProvDB 0 (exRow 1 "foo" "1.0" "1")).provides.map
      (fun p => (p.name, p.flags)) = [("foo", "EQ"), ("/bin/sh", "")] ∧
    (RepositorySQLiteBackend.findProvidesByName exProvDB "/bin/sh").map
      (fun p => (p.name, p.flags)) = [("/bin/sh", "")] ∧
    "" ∉ ["EQ", "LT", "LE", "GT", "GE"] := by
  refine ⟨by decide, by decide, by decide, by decide⟩

/-! ### Outcomes of the lookups -/

/-- The relational `FindLatestMatchingName` returns a package without an error or no
package with an error. -/
theorem sql_FindLatestMatchingName_outcome (db : DB) (fresh : PkgPtr)
    (name version release : String) :
    (∃ pkg, RepositorySQLiteBackend.FindLatestMatchingName db fresh name version release
      = (some pkg, none)) ∨
    (∃ err, RepositorySQLiteBackend.FindLatestMatchingName db fresh name version release
      = (none, some err)) := by
  unfold RepositorySQLiteBackend.FindLatestMatchingName
  simp only
  split
  · exact Or.inr ⟨_, rfl⟩
  · rename_i h
    left
    have hne : (RepositorySQLiteBackend.loadPackagesByName db fresh name version).filter
        (fun pkg => ProvideMatches (NewRequires name version release "" "EQ" "").torpmBase
          pkg.torpmBase) ≠ [] := by
      intro h0
      rw [h0] at h
      exact h (Nat.le_refl 0)
    obtain ⟨p, hp, _⟩ := sortSort_getLast (fun q : Package => q.torpmBase) _ hne
    exact ⟨p, by
      rw [show lessPackage = (fun a b : Package => RpmLessThan ((fun q : Package => q.torpmBase) a)
        ((fun q : Package => q.torpmBase) b)) from rfl, hp]⟩

/-- The relational `FindLatestMatchingRequire` returns a package without an error or
no package with an error. -/
theorem sql_FindLatestMatchingRequire_outcome (db : DB) (fresh : PkgPtr)
    (requirement : Requires) :
    (∃ pkg, RepositorySQLiteBackend.FindLatestMatchingRequire db fresh requirement
      = (some pkg, none)) ∨
    (∃ err, RepositorySQLiteBackend.FindLatestMatchingRequire db fresh requirement
      = (none, some err)) := by
  unfold RepositorySQLiteBackend.FindLatestMatchingRequire
  simp only
  split
  · exact Or.inr ⟨_, rfl⟩
  · split
    · exact Or.inr ⟨_, rfl⟩
    · rename_i m ms _ h
      left
      have hne : RepositorySQLiteBackend.loadPackagesProviding db fresh
          ((sortSort lessProv (m :: ms)).getLastD m) ≠ [] := by
        intro h0
        rw [h0] at h
        exact h (Nat.le_refl 0)
      obtain ⟨p, hp, _⟩ := sortSort_getLast (fun q : Package => q.torpmBase) _ hne
      exact ⟨p, by
        rw [show lessPackage = (fun a b : Package => RpmLessThan ((fun q : Package => q.torpmBase) a)
          ((fun q : Package => q.torpmBase) b)) from rfl, hp]⟩

/-- On the XML backend a versioned request for a known name that no candidate satisfies
returns the nil package and the nil error. -/
theorem xml_FindLatestMatchingName_no_survivor (repo : RepositoryXMLBackend)
    (name version release : String) (pkgs : List PkgPtr)
    (hk : repo.Packages name = some pkgs) (hv : version ≠ "")
    (hnone : ∀ p ∈ pkgs, ProvideMatches (NewRequires name version release "" "EQ" "").torpmBase
      (repo.deref p).torpmBase = false) :
    repo.FindLatestMatchingName name version release = (none, none) := by
  unfold RepositoryXMLBackend.FindLatestMatchingName
  rw [hk]
  have hf : pkgs.filter (fun p => ProvideMatches
      (NewRequires name version release "" "EQ" "").torpmBase (repo.deref p).torpmBase) = [] := by
    apply List.filter_eq_nil_iff.2
    intro p hp
    rw [hnone p hp]
    exact Bool.false_ne_true
  simp [hv, hf]

/-! ### Error messages of the lookups -/

theorem GoMap.mem_extend {V : Type} (m : GoMap (List V)) (new : String → List V) (k : String)
    (l : List V) (h : m.extend new k = some l) (e : V) (he : e ∈ l) :
    (∃ l0, m k = some l0 ∧ e ∈ l0) ∨ e ∈ new k := by
  cases hn : new k with
  | nil =>
    rw [GoMap.extend_of_nil _ _ _ hn] at h
    exact Or.inl ⟨l, h, he⟩
  | cons x xs =>
    have hne : new k ≠ [] := by rw [hn]; exact List.cons_ne_nil x xs
    rw [GoMap.extend_of_ne _ _ _ hne] at h
    have hl := Option.some.inj h
    rw [← hl, List.mem_append] at he
    rcases he with he | he
    · cases hm : m k with
      | none => rw [hm] at he; exact absurd he (List.not_mem_nil _)
      | some l0 => rw [hm] at he; exact Or.inl ⟨l0, rfl, he⟩
    · rw [hn] at he; exact Or.inr he

theorem GoMap.extend_mono {V : Type} (m : GoMap (List V)) (new : String → List V) (k : String)
    (l0 : List V) (h : m k = some l0) :
    ∃ l, m.extend new k = some l ∧ ∀ e ∈ l0, e ∈ l := by
  cases hn : new k with
  | nil => exact ⟨l0, by rw [GoMap.extend_of_nil _ _ _ hn, h], fun _ he => he⟩
  | cons x xs =>
    have hne : new k ≠ [] := by rw [hn]; exact List.cons_ne_nil x xs
    refine ⟨l0 ++ new k, by rw [GoMap.extend_of_ne _ _ _ hne, h]; rfl, fun e he => ?_⟩
    exact List.mem_append_left _ he

theorem GoMap.extend_new {V : Type} (m : GoMap (List V)) (new : String → List V) (k : String)
    (e : V) (he : e ∈ new k) : ∃ l, m.extend new k = some l ∧ e ∈ l :=
  ⟨(m k).getD [] ++ new k, GoMap.extend_of_ne _ _ _ (List.ne_nil_of_mem he),
    List.mem_append_right _ he⟩

theorem IndexConsistent_fresh (primary : String) :
    IndexConsistent (NewRepositoryXMLBackend primary) := by
  intro k entries h
  exact absurd h (by simp [NewRepositoryXMLBackend])

theorem IndexConsistent_loadPackage (IGN : List String) (repo : RepositoryXMLBackend)
    (x : xmlPackage) (h : IndexConsistent repo) :
    IndexConsistent (RepositoryXMLBackend.loadPackage IGN repo x) := by
  rw [RepositoryXMLBackend.loadPackage_eq]
  intro k entries hk e he
  simp only at hk
  rcases GoMap.mem_extend _ _ k entries hk e he with ⟨l0, hl0, hel0⟩ | hnew
  · obtain ⟨hn, a, pkg, ptrs, hP, hH, hin, hptrs, ha⟩ := h k l0 hl0 e hel0
    obtain ⟨l, hl, hsub⟩ := GoMap.extend_mono repo.Packages
      (fun k => if x.Name = k then [repo.heap.length] else []) pkg.name ptrs hptrs
    refine ⟨hn, a, pkg, l, hP, ?_, hin, hl, hsub a ha⟩
    have hlt : a < repo.heap.length := (List.getElem?_eq_some.1 hH).1
    simp only [List.getElem?_append_left hlt]
    exact hH
  · simp only [providesAt, List.mem_filter, List.mem_map, Bool.and_eq_true,
      decide_eq_true_eq] at hnew
    obtain ⟨⟨v, hv, rfl⟩, hn, _⟩ := hnew
    have hself : repo.heap.length ∈
        (fun k => if x.Name = k then [repo.heap.length] else []) (packageOf repo.heap.length x).name := by
      show repo.heap.length ∈ (if x.Name = x.Name then [repo.heap.length] else [])
      simp
    obtain ⟨l, hl, hmem⟩ := GoMap.extend_new repo.Packages
      (fun k => if x.Name = k then [repo.heap.length] else [])
      (packageOf repo.heap.length x).name repo.heap.length hself
    refine ⟨hn, repo.heap.length, packageOf repo.heap.length x, l, rfl, ?_, ?_, hl, hmem⟩
    · simp
    · exact List.mem_map.2 ⟨v, hv, rfl⟩

theorem IndexConsistent_foldl (IGN : List String) :
    ∀ (xs : List xmlPackage) (repo : RepositoryXMLBackend), IndexConsistent repo →
      IndexConsistent (xs.foldl (RepositoryXMLBackend.loadPackage IGN) repo)
  | [], _, h => h
  | x :: xs, repo, h =>
    IndexConsistent_foldl IGN xs _ (IndexConsistent_loadPackage IGN repo x h)

theorem IndexConsistent_of_reachable (IGN : List String) (repo : RepositoryXMLBackend)
    (h : Reachable IGN repo) : IndexConsistent repo := by
  induction h with
  | fresh primary => exact IndexConsistent_fresh primary
  | load repo decoded _ ih =>
    cases decoded with
    | error err => exact ih
    | ok tree => exact IndexConsistent_foldl IGN tree.Packages repo ih

/-- The entry whose owner `FindLatestMatchingRequire` of the XML backend returns: an
entry of the candidate list of the requirement's name, matching the requirement when
the requirement is versioned. -/
theorem xml_FindLatestMatchingRequire_entry (repo : RepositoryXMLBackend)
    (requirement : Requires) (p : PkgPtr)
    (h : (repo.FindLatestMatchingRequire requirement).1 = some p) :
    ∃ entries e, repo.Provides requirement.name = some entries ∧ e ∈ entries ∧
      e.Package = some p ∧
      (requirement.version ≠ "" →
        ProvideMatches requirement.torpmBase e.torpmBase = true) := by
  unfold RepositoryXMLBackend.FindLatestMatchingRequire at h
  cases hk : repo.Provides requirement.name with
  | none => rw [hk] at h; exact absurd h (by simp)
  | some entries =>
    rw [hk] at h
    simp only at h
    split at h
    · rename_i hc
      simp only at h
      cases hl : (sortSort lessProv entries).getLast? with
      | none => rw [hl] at h; exact absurd h (by simp)
      | some e =>
        rw [hl] at h
        refine ⟨entries, e, rfl, ?_, h, fun hv => absurd hc.1 hv⟩
        exact (mem_sortSort _ _ _).1 (List.mem_of_mem_getLast? (Option.mem_def.2 hl))
    · split at h
      · simp only at h
        cases hl : (sortSort lessProv (entries.filter (fun p =>
            ProvideMatches requirement.torpmBase p.torpmBase))).getLast? with
        | none => rw [hl] at h; exact absurd h (by simp)
        | some e =>
          rw [hl] at h
          have he := List.mem_filter.1 ((mem_sortSort _ _ _).1 (List.mem_of_mem_getLast? (Option.mem_def.2 hl)))
          exact ⟨entries, e, rfl, he.1, h, fun _ => he.2⟩
      · exact absurd h (by simp)

/-- C13: index consistency on the XML backend. In every state reached from a fresh
backend by `LoadDB()` calls, every entry stored in the provides index under key `k`
has name `k` and a non-nil owning package that is allocated, lists the entry among
its provides and is stored in the package index under its own name. Hence a package
returned by `FindLatestMatchingRequire(requirement)` is one of `GetPackages()`, for
every order of visiting the keys, and exposes a provide named as the requirement,
which satisfies `ProvideMatches` when the requirement's version is not empty. -/
theorem C13_index_consistency (IGN : List String) (repo : RepositoryXMLBackend)
    (h : Reachable IGN repo) :
    IndexConsistent repo ∧
    ∀ (requirement : Requires) (p : PkgPtr) (iter : List String),
      (repo.FindLatestMatchingRequire requirement).1 = some p → repo.IsKeyOrder iter →
      p ∈ repo.GetPackages iter ∧
      ∃ e ∈ (repo.deref p).provides, e.name = requirement.name ∧ e.Package = some p ∧
        (requirement.version ≠ "" →
          ProvideMatches requirement.torpmBase e.torpmBase = true) := by
  have hinv := IndexConsistent_of_reachable IGN repo h
  refine ⟨hinv, ?_⟩
  intro requirement p iter hres hiter
  obtain ⟨entries, e, hk, he, hp, hm⟩ := xml_FindLatestMatchingRequire_entry repo requirement p hres
  obtain ⟨hn, a, pkg, ptrs, hP, hH, hin, hptrs, ha⟩ := hinv _ entries hk e he
  rw [hp] at hP
  have hap : p = a := Option.some.inj hP
  subst hap
  have hderef : repo.deref p = pkg := by
    simp [RepositoryXMLBackend.deref, List.getD, hH]
  constructor
  · rw [RepositoryXMLBackend.GetPackages_eq_flatMap, List.mem_flatMap]
    refine ⟨pkg.name, ?_, ?_⟩
    · rw [hiter.2, hptrs]; rfl
    · rw [hptrs]; exact ha
  · rw [hderef]
    exact ⟨e, hin, hn, hp, hm⟩

theorem loadTwice_isKeyOrder :
    (loadTwice ["/bin/sh"] "primary.xml.gz" exProvTree).IsKeyOrder ["bar", "foo"] := by
  refine ⟨by decide, fun k => ?_⟩
  have h2 : ((loadTwice ["/bin/sh"] "primary.xml.gz" exProvTree).Packages k).isSome
      = ((loadOnce ["/bin/sh"] "primary.xml.gz" exProvTree).Packages k).isSome := by
    rw [loadTwice_eq, loadOnce_eq]
    exact (extend_twice (fun k => indexPackages k 0 exProvTree.Packages)
      (fun a => a + exProvTree.Packages.length) k).1
  rw [h2]
  show _ ↔ ((RepositoryXMLBackend.LoadDB ["/bin/sh"] (NewRepositoryXMLBackend "primary.xml.gz")
    (Except.ok exProvTree)).1.Packages k).isSome = true
  rw [loaded_Packages_isSome]
  simp only [exProvTree, exElement, List.mem_cons, List.mem_singleton, List.not_mem_nil,
    or_false, exists_eq_or_imp, exists_eq_left]
  constructor
  · rintro (h | h) <;> simp [h]
  · rintro (h | h) <;> simp [← h]

/-- Witness of C13 on the state reached by loading the catalog of `foo-1.0-1` and
`bar-2.0-1` twice: the requirement `libbar >= 1.0` resolves to the package at
address 3, the second copy of `bar-2.0-1`. -/
theorem C13_index_consistency_witness :
    Reachable ["/bin/sh"] (loadTwice ["/bin/sh"] "primary.xml.gz" exProvTree) ∧
    IndexConsistent (loadTwice ["/bin/sh"] "primary.xml.gz" exProvTree) ∧
    (loadTwice ["/bin/sh"] "primary.xml.gz" exProvTree).FindLatestMatchingRequire
      (NewRequires "libbar" "1.0" "" "" "GE" "") = (some 3, none) ∧
    (loadTwice ["/bin/sh"] "primary.xml.gz" exProvTree).GetPackages ["bar", "foo"]
      = [1, 3, 0, 2] ∧
    3 ∈ (loadTwice ["/bin/sh"] "primary.xml.gz" exProvTree).GetPackages ["bar", "foo"] ∧
    ∃ e ∈ ((loadTwice ["/bin/sh"] "primary.xml.gz" exProvTree).deref 3).provides,
      e.name = "libbar" ∧ e.Package = some 3 ∧
      ("1.0" ≠ "" →
        ProvideMatches (NewRequires "libbar" "1.0" "" "" "GE" "").torpmBase e.torpmBase = true) :=
  have hr : Reachable ["/bin/sh"] (loadTwice ["/bin/sh"] "primary.xml.gz" exProvTree) :=
    Reachable.load _ (Except.ok exProvTree)
      (Reachable.load _ (Except.ok exProvTree) (Reachable.fresh "primary.xml.gz"))
  have hc := C13_index_consistency ["/bin/sh"]
    (loadTwice ["/bin/sh"] "primary.xml.gz" exProvTree) hr
  have hq : ((loadTwice ["/bin/sh"] "primary.xml.gz" exProvTree).FindLatestMatchingRequire
      (NewRequires "libbar" "1.0" "" "" "GE" "")).1 = some 3 := by decide
  have hres := hc.2 (NewRequires "libbar" "1.0" "" "" "GE" "") 3 ["bar", "foo"] hq
    loadTwice_isKeyOrder
  ⟨hr, hc.1, by decide, by decide, hres.1, hres.2⟩

/-! ### Result of the relational capability lookup -/

/-- What a successful relational `FindLatestMatchingRequire` returns: a greatest
package among those joined to a provides row carrying the name and version (and
release, when not empty) of the winning entry, itself a greatest matching row. -/
theorem sql_FindLatestMatchingRequire_result (db : DB) (fresh : PkgPtr)
    (requirement : Requires) (pkg : Package)
    (h : (RepositorySQLiteBackend.FindLatestMatchingRequire db fresh requirement).1
      = some pkg) :
    ∃ w, winningProvides db requirement = some w ∧
      (∃ r ∈ db.provides, r.name = some requirement.name ∧ w = r.toProvides none ∧
        ProvideMatches requirement.torpmBase w.torpmBase = true) ∧
      (∀ r ∈ db.provides, r.name = some requirement.name →
        ProvideMatches requirement.torpmBase (r.toProvides none).torpmBase = true →
        RpmLessThan w.torpmBase (r.toProvides none).torpmBase = false) ∧
      ∃ p a, p ∈ db.packages ∧ (∃ r ∈ db.provides, joinedTo w p r) ∧
        pkg = RepositorySQLiteBackend.newPackageFromScan db a p ∧
        ∀ p' ∈ db.packages, (∃ r' ∈ db.provides, joinedTo w p' r') →
          RpmLessThan p.rpm p'.rpm = false := by
  unfold RepositorySQLiteBackend.FindLatestMatchingRequire at h
  unfold winningProvides
  simp only at h
  cases hl : (RepositorySQLiteBackend.findProvidesByName db requirement.name).filter
      (fun pr => ProvideMatches requirement.torpmBase pr.torpmBase) with
  | nil => rw [hl] at h; exact absurd h (by simp)
  | cons m ms =>
    rw [hl] at h
    simp only at h
    have hne : (m :: ms) ≠ [] := List.cons_ne_nil m ms
    obtain ⟨w, hw1, hw2, hw3⟩ := sortSort_getLast (fun q : Provides => q.torpmBase) (m :: ms) hne
    have hw1' : (sortSort lessProv (m :: ms)).getLast? = some w := hw1
    have hwD : (sortSort lessProv (m :: ms)).getLastD m = w := by
      rw [List.getLastD_eq_getLast?, hw1']; rfl
    rw [hwD] at h
    have hmemw : ∀ q, q ∈ (m :: ms) ↔ ∃ r ∈ db.provides, r.name = some requirement.name ∧
        q = r.toProvides none ∧ ProvideMatches requirement.torpmBase q.torpmBase = true := by
      intro q
      rw [← hl, List.mem_filter, RepositorySQLiteBackend.findProvidesByName_eq, List.mem_map]
      constructor
      · rintro ⟨⟨r, hr, rfl⟩, hm⟩
        rw [List.mem_filter] at hr
        exact ⟨r, hr.1, by simpa [sqlEq] using hr.2, rfl, hm⟩
      · rintro ⟨r, hr, hn, rfl, hm⟩
        exact ⟨⟨r, List.mem_filter.2 ⟨hr, by simp [sqlEq, hn]⟩, rfl⟩, hm⟩
    refine ⟨w, hw1', (hmemw w).1 hw2, ?_, ?_⟩
    · intro r hr hn hm
      exact hw3 _ ((hmemw _).2 ⟨r, hr, hn, rfl, hm⟩)
    · split at h
      · exact absurd h (by simp)
      · rename_i hlen
        simp only at h
        have hpne : RepositorySQLiteBackend.loadPackagesProviding db fresh w ≠ [] := by
          intro h0
          rw [h0] at hlen
          exact hlen (Nat.le_refl 0)
        obtain ⟨q, hq1, hq2, hq3⟩ := sortSort_getLast (fun q : Package => q.torpmBase)
          (RepositorySQLiteBackend.loadPackagesProviding db fresh w) hpne
        have hq1' : (sortSort lessPackage
            (RepositorySQLiteBackend.loadPackagesProviding db fresh w)).getLast? = some q := hq1
        rw [hq1'] at h
        have hqp : q = pkg := Option.some.inj h
        subst hqp
        unfold RepositorySQLiteBackend.loadPackagesProviding at hq2 hq3
        obtain ⟨a, p, hap, hqe⟩ := (RepositorySQLiteBackend.mem_scanPackages _ _ _ _).1 hq2
        have hp := (RepositorySQLiteBackend.mem_joinProviding db w p).1
          (List.snd_mem_of_mem_enumFrom hap)
        refine ⟨p, a, hp.1, hp.2, hqe, ?_⟩
        intro p' hp' hj'
        have hp'j : p' ∈ RepositorySQLiteBackend.joinProviding db w :=
          (RepositorySQLiteBackend.mem_joinProviding db w p').2 ⟨hp', hj'⟩
        obtain ⟨i, hi⟩ := List.mem_iff_getElem?.1 hp'j
        have hmem' : RepositorySQLiteBackend.newPackageFromScan db (fresh + i) p' ∈
            RepositorySQLiteBackend.scanPackages db fresh
              (RepositorySQLiteBackend.joinProviding db w) :=
          (RepositorySQLiteBackend.mem_scanPackages _ _ _ _).2
            ⟨fresh + i, p', List.mk_add_mem_enumFrom_iff_getElem?.2 hi, rfl⟩
        have := hq3 _ hmem'
        simp only [hqe, RepositorySQLiteBackend.newPackageFromScan_rpm] at this
        exact this

/-- C14: result of the relational capability lookup. Whenever
`FindLatestMatchingRequire` succeeds on the relational backend, the winning entry
`w` is a provides row named as the requirement that satisfies `ProvideMatches`, no
such row is strictly greater in versioned-identity order, the returned package is
built from a `packages` row joined to a provides row whose name and version equal
those of `w` (and whose release equals that of `w` when it is not empty), and no
package joined to such a row is strictly greater in (epoch, version, release)
order. The returned package need not own `w`: in the catalog where `foo-1.0-1`
provides `cap` with epoch 1 and `bar-2.0-1` provides it with epoch 0, `w` is the row
of `foo` and the lookup returns `bar-2.0-1`. -/
theorem C14_relational_capability_result :
    (∀ (db : DB) (fresh : PkgPtr) (requirement : Requires) (pkg : Package),
      (RepositorySQLiteBackend.FindLatestMatchingRequire db fresh requirement).1 = some pkg →
      ∃ w, winningProvides db requirement = some w ∧
        (∃ r ∈ db.provides, r.name = some requirement.name ∧ w = r.toProvides none ∧
          ProvideMatches requirement.torpmBase w.torpmBase = true) ∧
        (∀ r ∈ db.provides, r.name = some requirement.name →
          ProvideMatches requirement.torpmBase (r.toProvides none).torpmBase = true →
          RpmLessThan w.torpmBase (r.toProvides none).torpmBase = false) ∧
        ∃ p a, p ∈ db.packages ∧ (∃ r ∈ db.provides, joinedTo w p r) ∧
          pkg = RepositorySQLiteBackend.newPackageFromScan db a p ∧
          ∀ p' ∈ db.packages, (∃ r' ∈ db.provides, joinedTo w p' r') →
            RpmLessThan p.rpm p'.rpm = false) ∧
    (RepositorySQLiteBackend.FindLatestMatchingRequire exEpochDB 0
        (NewRequires "cap" "" "" "" "" "")
      = (some (RepositorySQLiteBackend.newPackageFromScan exEpochDB 1
          (exRow 2 "bar" "2.0" "1")), none) ∧
      winningProvides exEpochDB (NewRequires "cap" "" "" "" "" "")
        = some (NewProvides "cap" "1.0" "1" "1" "EQ" none) ∧
      ∀ r ∈ exEpochDB.provides,
        r.toProvides none = NewProvides "cap" "1.0" "1" "1" "EQ" none → r.pkgkey = 1) :=
  ⟨sql_FindLatestMatchingRequire_result, by decide, by decide, by decide⟩

/-- Witness of C14 on the catalog where `foo-1.0-1` provides `cap` with epoch 1 and
`bar-2.0-1` provides it with epoch 0: the unversioned requirement on `cap` succeeds
and returns `bar-2.0-1`. -/
theorem C14_relational_capability_result_witness :
    (RepositorySQLiteBackend.FindLatestMatchingRequire exEpochDB 0
        (NewRequires "cap" "" "" "" "" "")).1
      = some (RepositorySQLiteBackend.newPackageFromScan exEpochDB 1
          (exRow 2 "bar" "2.0" "1")) ∧
    ∃ w, winningProvides exEpochDB (NewRequires "cap" "" "" "" "" "") = some w ∧
      (∃ r ∈ exEpochDB.provides, r.name = some (NewRequires "cap" "" "" "" "" "").name ∧
        w = r.toProvides none ∧
        ProvideMatches (NewRequires "cap" "" "" "" "" "").torpmBase w.torpmBase = true) ∧
      (∀ r ∈ exEpochDB.provides, r.name = some (NewRequires "cap" "" "" "" "" "").name →
        ProvideMatches (NewRequires "cap" "" "" "" "" "").torpmBase
          (r.toProvides none).torpmBase = true →
        RpmLessThan w.torpmBase (r.toProvides none).torpmBase = false) ∧
      ∃ p a, p ∈ exEpochDB.packages ∧ (∃ r ∈ exEpochDB.provides, joinedTo w p r) ∧
        RepositorySQLiteBackend.newPackageFromScan exEpochDB 1 (exRow 2 "bar" "2.0" "1")
          = RepositorySQLiteBackend.newPackageFromScan exEpochDB a p ∧
        ∀ p' ∈ exEpochDB.packages, (∃ r' ∈ exEpochDB.provides, joinedTo w p' r') →
          RpmLessThan p.rpm p'.rpm = false :=
  have h : (RepositorySQLiteBackend.FindLatestMatchingRequire exEpochDB 0
      (NewRequires "cap" "" "" "" "" "")).1
      = some (RepositorySQLiteBackend.newPackageFromScan exEpochDB 1
          (exRow 2 "bar" "2.0" "1")) := by decide
  ⟨h, C14_relational_capability_result.1 exEpochDB 0 (NewRequires "cap" "" "" "" "" "") _ h⟩

/-! ### Backing arrays -/

namespace Arrays

theorem array_set_self {α : Type} (m : Arrays α) (a : Nat) (x : List (Option α))
    (h : a < m.length) : Arrays.array (m.set a x) a = x := by
  simp [Arrays.array, List.getD_eq_getElem?_getD, List.getElem?_set_self h]

theorem array_set_ne {α : Type} (m : Arrays α) (a b : Nat) (x : List (Option α))
    (h : a ≠ b) : Arrays.array (m.set a x) b = Arrays.array m b := by
  simp [Arrays.array, List.getD_eq_getElem?_getD, List.getElem?_set_ne h]

theorem array_append_left {α : Type} (m t : Arrays α) (a : Nat) (h : a < m.length) :
    Arrays.array (m ++ t) a = Arrays.array m a := by
  simp [Arrays.array, List.getD_eq_getElem?_getD, List.getElem?_append_left h]

theorem array_append_self {α : Type} (m : Arrays α) (x : List (Option α)) :
    Arrays.array (m ++ [x]) m.length = x := by
  simp [Arrays.array, List.getD_eq_getElem?_getD]

theorem array_of_prefix {α : Type} {m0 m : Arrays α} (h : m0 <+: m) (a : Nat)
    (ha : a < m0.length) : Arrays.array m a = Arrays.array m0 a := by
  obtain ⟨t, rfl⟩ := h
  exact array_append_left m0 t a ha

theorem cells_of_prefix {α : Type} {m0 m : Arrays α} (h : m0 <+: m) (s : Slice)
    (hs : s.arr < m0.length) : Arrays.cells m s = Arrays.cells m0 s := by
  simp only [Arrays.cells, array_of_prefix h s.arr hs]

theorem index_of_prefix {α : Type} {m0 m : Arrays α} (h : m0 <+: m) (s : Slice)
    (hs : s.arr < m0.length) (i : Nat) : Arrays.index m s i = Arrays.index m0 s i := by
  simp only [Arrays.index, array_of_prefix h s.arr hs]

theorem prefix_set {α : Type} {m0 m : Arrays α} (h : m0 <+: m) (a : Nat)
    (x : List (Option α)) (ha : m0.length ≤ a) : m0 <+: m.set a x := by
  obtain ⟨t, rfl⟩ := h
  rw [List.set_append_right a x ha]
  exact List.prefix_append _ _

theorem prefix_append {α : Type} {m0 m : Arrays α} (h : m0 <+: m) (t : Arrays α) :
    m0 <+: m ++ t :=
  h.trans (List.prefix_append _ _)

/-- Invariant of a slice being built by a query over the memory `m0` it started
from: the memory still begins with `m0`, the slice lives in an array allocated
since, and it lies within that array. -/
theorem append_spec {α : Type} (m0 m : Arrays α) (s : Slice) (vs : List (Option α))
    (hp : m0 <+: m) (h0 : m0.length ≤ s.arr) (hs : s.arr < m.length)
    (hl : (Arrays.cells m s).length = s.len) :
    m0 <+: (m.append s vs).1 ∧ m0.length ≤ (m.append s vs).2.arr ∧
      (m.append s vs).2.arr < (m.append s vs).1.length ∧
      Arrays.cells (m.append s vs).1 (m.append s vs).2 = Arrays.cells m s ++ vs ∧
      (Arrays.cells (m.append s vs).1 (m.append s vs).2).length = (m.append s vs).2.len := by
  have hlen : s.len ≤ (Arrays.array m s.arr).length := by
    have := hl
    simp only [Arrays.cells, List.length_take] at this
    omega
  unfold Arrays.append
  by_cases hc : s.len + vs.length ≤ (Arrays.array m s.arr).length
  · simp only [hc, if_true]
    have hcells : Arrays.cells (m.set s.arr (List.take s.len (Arrays.array m s.arr) ++ vs ++
        List.drop (s.len + vs.length) (Arrays.array m s.arr)))
        { arr := s.arr, len := s.len + vs.length } = Arrays.cells m s ++ vs := by
      simp only [Arrays.cells, array_set_self m s.arr _ hs]
      apply List.take_left'
      simp [List.length_take]
      omega
    refine ⟨prefix_set hp _ _ h0, h0, by simpa using hs, hcells, ?_⟩
    rw [hcells, List.length_append, hl]
  · simp only [hc, if_false]
    have hcells : Arrays.cells (m ++ [Arrays.cells m s ++ vs])
        { arr := m.length, len := s.len + vs.length } = Arrays.cells m s ++ vs := by
      simp only [Arrays.cells, array_append_self]
      apply List.take_of_length_le
      simp only [List.length_append]
      have := hl
      simp only [Arrays.cells] at this
      omega
    refine ⟨prefix_append hp _, ?_, by simp, hcells, ?_⟩
    · exact (List.IsPrefix.length_le hp)
    · rw [hcells, List.length_append, hl]

theorem make_spec {α : Type} (m : Arrays α) (cap : Nat) :
    m <+: (m.make 0 cap).1 ∧ m.length ≤ (m.make 0 cap).2.arr ∧
      (m.make 0 cap).2.arr < (m.make 0 cap).1.length ∧
      Arrays.cells (m.make 0 cap).1 (m.make 0 cap).2 = [] ∧
      (Arrays.cells (m.make 0 cap).1 (m.make 0 cap).2).length = (m.make 0 cap).2.len := by
  simp [Arrays.make, Arrays.cells]

theorem sort_spec {α : Type} (less : Option α → Option α → Bool) (m0 m : Arrays α) (s : Slice)
    (hp : m0 <+: m) (h0 : m0.length ≤ s.arr) (hs : s.arr < m.length)
    (hl : (Arrays.cells m s).length = s.len) :
    m0 <+: Arrays.sort less m s ∧
      Arrays.cells (Arrays.sort less m s) s = sortSort less (Arrays.cells m s) := by
  refine ⟨prefix_set hp _ _ h0, ?_⟩
  simp only [Arrays.sort, Arrays.cells, array_set_self m s.arr _ hs]
  apply List.take_left'
  rw [(sortSort_perm less _).length_eq]
  exact hl

theorem index_last {α : Type} (m : Arrays α) (s : Slice)
    (hl : (Arrays.cells m s).length = s.len) (h0 : 0 < s.len) :
    Arrays.index m s (s.len - 1) = (Arrays.cells m s).getLast?.join := by
  rw [List.getLast?_eq_getElem?, hl]
  simp only [Arrays.index, Arrays.cells, List.getD_eq_getElem?_getD]
  rw [List.getElem?_take_of_lt (by omega)]
  cases (Arrays.array m s.arr)[s.len - 1]? with
  | none => rfl
  | some c => cases c <;> rfl

theorem building_make {α : Type} (m : Arrays α) (cap : Nat) :
    Arrays.Building m (m.make 0 cap) ∧ Arrays.cells (m.make 0 cap).1 (m.make 0 cap).2 = [] :=
  ⟨⟨(make_spec m cap).1, (make_spec m cap).2.1, (make_spec m cap).2.2.1,
    (make_spec m cap).2.2.2.2⟩, (make_spec m cap).2.2.2.1⟩

theorem building_append {α : Type} (m0 : Arrays α) (acc : Arrays α × Slice)
    (vs : List (Option α)) (h : Arrays.Building m0 acc) :
    Arrays.Building m0 (acc.1.append acc.2 vs) ∧
      Arrays.cells (acc.1.append acc.2 vs).1 (acc.1.append acc.2 vs).2
        = Arrays.cells acc.1 acc.2 ++ vs := by
  obtain ⟨h1, h2, h3, h4, h5⟩ := append_spec m0 acc.1 acc.2 vs h.1 h.2.1 h.2.2.1 h.2.2.2
  exact ⟨⟨h1, h2, h3, h5⟩, h4⟩

/-- A loop that reads the elements of the slice `pkgs` one by one and appends those
that `keep` accepts builds, behind what the slice under construction held, the
accepted elements in order. The elements are read from the memory `m0` the query
started from when `pkgs` lies in it. -/
theorem foldl_keep {α : Type} (keep : Option α → Bool) (m0 : Arrays α) (pkgs : Slice)
    (step : Arrays α × Slice → Nat → Arrays α × Slice)
    (hstep : ∀ acc i, step acc i =
      if keep (acc.1.index pkgs i) then acc.1.append acc.2 [acc.1.index pkgs i] else acc) :
    ∀ (n : Nat) (acc : Arrays α × Slice), Arrays.Building m0 acc →
      Arrays.Building m0 ((List.range n).foldl step acc) ∧
      (pkgs.arr < m0.length →
        Arrays.cells ((List.range n).foldl step acc).1 ((List.range n).foldl step acc).2
          = Arrays.cells acc.1 acc.2 ++ ((List.range n).map (m0.index pkgs)).filter keep)
  | 0, acc, h => by simp [h]
  | n + 1, acc, h => by
    obtain ⟨ih1, ih2⟩ := foldl_keep keep m0 pkgs step hstep n acc h
    rw [List.range_succ, List.foldl_append, List.foldl_cons, List.foldl_nil, hstep]
    by_cases hk : keep (((List.range n).foldl step acc).1.index pkgs n) = true
    · rw [if_pos hk]
      obtain ⟨hb, hc⟩ := building_append m0 _ [((List.range n).foldl step acc).1.index pkgs n] ih1
      refine ⟨hb, fun hp => ?_⟩
      rw [hc, ih2 hp]
      have hidx := index_of_prefix ih1.1 pkgs hp n
      rw [hidx] at hk ⊢
      simp [List.filter_append, hk]
    · rw [if_neg hk]
      refine ⟨ih1, fun hp => ?_⟩
      rw [ih2 hp]
      have hidx := index_of_prefix ih1.1 pkgs hp n
      rw [hidx] at hk
      simp [List.filter_append, hk]

theorem range_map_index {α : Type} (m : Arrays α) (s : Slice)
    (hl : (Arrays.cells m s).length = s.len) :
    (List.range s.len).map (m.index s) = Arrays.cells m s := by
  apply List.ext_getElem?
  intro i
  simp only [Arrays.cells, List.length_take] at hl
  by_cases hi : i < s.len
  · simp only [List.getElem?_map, List.getElem?_range hi, Option.map_some', Arrays.cells,
      List.getElem?_take_of_lt hi, Arrays.index, List.getD_eq_getElem?_getD]
    have hlt : i < (Arrays.array m s.arr).length := by omega
    rw [List.getElem?_eq_getElem hlt]
    rfl
  · have h1 : ((List.range s.len).map (m.index s)).length ≤ i := by simp; omega
    have h2 : (Arrays.cells m s).length ≤ i := by simp [Arrays.cells]; omega
    rw [List.getElem?_eq_none h1, List.getElem?_eq_none h2]

end Arrays

namespace XMLStore

/-! ### The queries of the XML backend leave the indexes alone -/

theorem Frames.refl (st : XMLStore) : st.Frames st :=
  ⟨rfl, rfl, rfl, rfl, rfl, rfl, List.prefix_refl _, List.prefix_refl _⟩

theorem frames_of_pkgArrays (st : XMLStore) (mem : Arrays PkgPtr)
    (h : st.pkgArrays <+: mem) : st.Frames { st with pkgArrays := mem } :=
  ⟨rfl, rfl, rfl, rfl, rfl, rfl, h, List.prefix_refl _⟩

theorem frames_of_provArrays (st : XMLStore) (mem : Arrays Yum.Provides)
    (h : st.provArrays <+: mem) : st.Frames { st with provArrays := mem } :=
  ⟨rfl, rfl, rfl, rfl, rfl, rfl, List.prefix_refl _, h⟩

theorem keepMatching_eq {α : Type} (rpmOf : Option α → rpmBase) (req : rpmBase) (pkgs : Slice)
    (acc : Arrays α × Slice) (i : Nat) :
    keepMatching rpmOf req pkgs acc i =
      if (fun c => ProvideMatches req (rpmOf c)) (acc.1.index pkgs i) = true then
        acc.1.append acc.2 [acc.1.index pkgs i]
      else acc := rfl

theorem FindLatestMatchingName_frames (st : XMLStore) (name version release : String) :
    st.Frames (st.FindLatestMatchingName name version release).1 := by
  unfold FindLatestMatchingName
  cases hk : st.Packages name with
  | none => exact Frames.refl st
  | some pkgs =>
    simp only
    split
    · apply frames_of_pkgArrays
      simp only [Arrays.sort, Arrays.copy, Arrays.make]
      exact Arrays.prefix_set (Arrays.prefix_set (List.prefix_append _ _) _ _ (Nat.le_refl _))
        _ _ (Nat.le_refl _)
    · have hb := (Arrays.foldl_keep
        (fun c => ProvideMatches (NewRequires name version release "" "EQ" "").torpmBase
          (st.rpmOfPkg c)) st.pkgArrays pkgs
        (keepMatching st.rpmOfPkg (NewRequires name version release "" "EQ" "").torpmBase pkgs)
        (keepMatching_eq _ _ _) pkgs.len _ (Arrays.building_make st.pkgArrays pkgs.len).1).1
      split
      · apply frames_of_pkgArrays
        exact Arrays.prefix_set hb.1 _ _ hb.2.1
      · exact frames_of_pkgArrays st _ hb.1

theorem appendAll_eq {α : Type} (pkgs : Slice) (acc : Arrays α × Slice) (i : Nat) :
    acc.1.append acc.2 [acc.1.index pkgs i] =
      if (fun _ : Option α => true) (acc.1.index pkgs i) = true then
        acc.1.append acc.2 [acc.1.index pkgs i]
      else acc := by
  simp

theorem FindLatestMatchingRequire_frames (st : XMLStore) (requirement : Requires) :
    st.Frames (st.FindLatestMatchingRequire requirement).1 := by
  unfold FindLatestMatchingRequire
  cases hk : st.Provides requirement.name with
  | none => exact Frames.refl st
  | some pkgs =>
    simp only
    split
    · have hb := (Arrays.foldl_keep (fun _ => true) st.provArrays pkgs
        (fun acc i => acc.1.append acc.2 [acc.1.index pkgs i])
        (appendAll_eq pkgs) pkgs.len _ (Arrays.building_make st.provArrays pkgs.len).1).1
      apply frames_of_provArrays
      exact Arrays.prefix_set hb.1 _ _ hb.2.1
    · have hb := (Arrays.foldl_keep
        (fun c => ProvideMatches requirement.torpmBase (rpmOfProv c)) st.provArrays pkgs
        (keepMatching rpmOfProv requirement.torpmBase pkgs)
        (keepMatching_eq _ _ _) pkgs.len _ (Arrays.building_make st.provArrays pkgs.len).1).1
      split
      · apply frames_of_provArrays
        exact Arrays.prefix_set hb.1 _ _ hb.2.1
      · exact frames_of_provArrays st _ hb.1

/-- The loop of `GetPackages` keeps the slice under construction in arrays allocated
since the call. -/
theorem foldl_getPackages_building (st : XMLStore) :
    ∀ (iter : List String) (acc : Arrays PkgPtr × Slice), Arrays.Building st.pkgArrays acc →
      Arrays.Building st.pkgArrays (iter.foldl (fun acc k =>
        match st.Packages k with
        | some pkg => acc.1.append acc.2 (acc.1.cells pkg)
        | none => acc) acc)
  | [], acc, h => h
  | k :: iter, acc, h => by
    rw [List.foldl_cons]
    cases hk : st.Packages k with
    | none => exact foldl_getPackages_building st iter acc h
    | some pkg =>
      exact foldl_getPackages_building st iter _
        (Arrays.building_append st.pkgArrays acc (acc.1.cells pkg) h).1

/-- The loop of `GetPackages` appends the elements of the slices visited, as they
were in the memory the call started from. -/
theorem foldl_getPackages_cells (st : XMLStore)
    (hin : ∀ k s, st.Packages k = some s → s.arr < st.pkgArrays.length) :
    ∀ (iter : List String) (acc : Arrays PkgPtr × Slice), Arrays.Building st.pkgArrays acc →
      Arrays.cells (iter.foldl (fun acc k =>
        match st.Packages k with
        | some pkg => acc.1.append acc.2 (acc.1.cells pkg)
        | none => acc) acc).1 (iter.foldl (fun acc k =>
        match st.Packages k with
        | some pkg => acc.1.append acc.2 (acc.1.cells pkg)
        | none => acc) acc).2
        = Arrays.cells acc.1 acc.2 ++ iter.flatMap (fun k =>
            match st.Packages k with
            | some pkg => st.pkgArrays.cells pkg
            | none => [])
  | [], acc, h => by simp
  | k :: iter, acc, h => by
    rw [List.foldl_cons]
    cases hk : st.Packages k with
    | none =>
      simp only
      rw [foldl_getPackages_cells st hin iter acc h]
      simp [List.flatMap_cons, hk]
    | some pkg =>
      simp only
      obtain ⟨hb, hc⟩ := Arrays.building_append st.pkgArrays acc (acc.1.cells pkg) h
      rw [foldl_getPackages_cells st hin iter _ hb, hc,
        Arrays.cells_of_prefix h.1 pkg (hin k pkg hk)]
      simp [List.flatMap_cons, hk]

theorem GetPackages_frames (st : XMLStore) (iter : List String) :
    st.Frames (st.GetPackages iter).1 := by
  unfold GetPackages
  exact frames_of_pkgArrays st _
    (foldl_getPackages_building st iter _ (Arrays.building_make st.pkgArrays iter.length).1).1

/-! ### The queries in memory compute what the queries on lists compute -/

theorem map_some_reduceOption {α : Type} : ∀ (l : List (Option α)), (∀ c ∈ l, c ≠ none) →
    l.reduceOption.map some = l
  | [], _ => rfl
  | none :: _, h => absurd rfl (h none (List.mem_cons_self _ _))
  | some a :: l, h => by
    rw [List.reduceOption_cons_of_some, List.map_cons,
      map_some_reduceOption l (fun c hc => h c (List.mem_cons_of_mem _ hc))]

theorem getLast?_join_map_some {α : Type} (l : List α) :
    (l.map some).getLast?.join = l.getLast? := by
  rw [List.getLast?_map]
  cases l.getLast? <;> rfl

/-- The slice made by `make([]*Package, len(pkgs))` and filled by `copy` holds the
elements of `pkgs`, in a new backing array. -/
theorem copy_make_spec {α : Type} (m0 : Arrays α) (pkgs : Slice)
    (hs : pkgs.arr < m0.length) (hl : (m0.cells pkgs).length = pkgs.len) :
    Arrays.Building m0 (((m0.make pkgs.len pkgs.len).1.copy (m0.make pkgs.len pkgs.len).2 pkgs),
        (m0.make pkgs.len pkgs.len).2) ∧
      Arrays.cells ((m0.make pkgs.len pkgs.len).1.copy (m0.make pkgs.len pkgs.len).2 pkgs)
        (m0.make pkgs.len pkgs.len).2 = m0.cells pkgs := by
  have harr : Arrays.array (m0 ++ [List.replicate pkgs.len (none : Option α)]) pkgs.arr
      = Arrays.array m0 pkgs.arr := Arrays.array_append_left m0 _ _ hs
  have hcells : Arrays.cells ((m0.make pkgs.len pkgs.len).1.copy
      (m0.make pkgs.len pkgs.len).2 pkgs) (m0.make pkgs.len pkgs.len).2 = m0.cells pkgs := by
    simp only [Arrays.make, Arrays.copy, Arrays.cells, Nat.min_self, harr,
      Arrays.array_append_self]
    rw [Arrays.array_set_self _ _ _ (by simp)]
    simp
  refine ⟨⟨?_, ?_, ?_, ?_⟩, hcells⟩
  · exact Arrays.prefix_set (List.prefix_append _ _) _ _ (Nat.le_refl _)
  · exact Nat.le_refl _
  · simp [Arrays.make, Arrays.copy]
  · rw [hcells, hl]; rfl

/-- What the sorted slice of a query yields at its last position, in terms of the
list the slice stands for. -/
theorem sorted_last {α : Type} (less : α → α → Bool) (less' : Option α → Option α → Bool)
    (hless : ∀ a b, less a b = less' (some a) (some b))
    (m0 m : Arrays α) (sorted : Slice) (l : List α)
    (hb : Arrays.Building m0 (m, sorted)) (hc : m.cells sorted = l.map some)
    (h0 : 0 < sorted.len) :
    (Arrays.sort less' m sorted).index sorted (sorted.len - 1) = (sortSort less l).getLast? := by
  obtain ⟨_, hsorted⟩ := Arrays.sort_spec less' m0 m sorted hb.1 hb.2.1 hb.2.2.1 hb.2.2.2
  have hlen : ((Arrays.sort less' m sorted).cells sorted).length = sorted.len := by
    rw [hsorted, (sortSort_perm less' _).length_eq]
    exact hb.2.2.2
  rw [Arrays.index_last _ _ hlen h0, hsorted, hc, ← sortSort_map some less less' hless l,
    getLast?_join_map_some]

theorem FindLatestMatchingName_result (st : XMLStore) (hwf : st.WellFormed)
    (name version release : String) :
    (st.FindLatestMatchingName name version release).2
      = st.toBackend.FindLatestMatchingName name version release := by
  unfold FindLatestMatchingName RepositoryXMLBackend.FindLatestMatchingName
  cases hk : st.Packages name with
  | none => simp [toBackend, hk]
  | some pkgs =>
    obtain ⟨hs, hl, hnn⟩ := hwf.1 name pkgs hk
    have hcl := map_some_reduceOption (st.pkgArrays.cells pkgs) hnn
    have hlen : (st.pkgArrays.cells pkgs).reduceOption.length = pkgs.len := by
      rw [← hl, ← List.length_map _ some, hcl]
    have hB : st.toBackend.Packages name = some (st.pkgArrays.cells pkgs).reduceOption := by
      simp [toBackend, hk]
    rw [hB]
    simp only
    by_cases hc : version = "" ∧ pkgs.len > 0
    · rw [if_pos hc, if_pos ⟨hc.1, by rw [hlen]; exact hc.2⟩]
      obtain ⟨hb, hcells⟩ := copy_make_spec st.pkgArrays pkgs hs hl
      have h0 : 0 < (st.pkgArrays.make pkgs.len pkgs.len).2.len := hc.2
      have := sorted_last st.toBackend.lessPkg
        (fun p q => RpmLessThan (st.rpmOfPkg p) (st.rpmOfPkg q)) (fun _ _ => rfl)
        st.pkgArrays _ _ (st.pkgArrays.cells pkgs).reduceOption hb (by rw [hcells, hcl]) h0
      simp only [this]
    · have hc' : ¬ (version = "" ∧ (st.pkgArrays.cells pkgs).reduceOption.length > 0) := by
        rw [hlen]; exact hc
      rw [if_neg hc, if_neg hc']
      obtain ⟨hb, hcont⟩ := Arrays.foldl_keep
        (fun c => ProvideMatches (NewRequires name version release "" "EQ" "").torpmBase
          (st.rpmOfPkg c)) st.pkgArrays pkgs
        (keepMatching st.rpmOfPkg (NewRequires name version release "" "EQ" "").torpmBase pkgs)
        (keepMatching_eq _ _ _) pkgs.len _ (Arrays.building_make st.pkgArrays pkgs.len).1
      have hcont := hcont hs
      rw [(Arrays.building_make st.pkgArrays pkgs.len).2, List.nil_append,
        Arrays.range_map_index _ _ hl, ← hcl, List.filter_map] at hcont
      have hklen := hb.2.2.2
      rw [hcont, List.length_map] at hklen
      have hfil : (List.filter ((fun c => ProvideMatches
          (NewRequires name version release "" "EQ" "").torpmBase (st.rpmOfPkg c)) ∘ some)
          (st.pkgArrays.cells pkgs).reduceOption) =
          (st.pkgArrays.cells pkgs).reduceOption.filter (fun p => ProvideMatches
            (NewRequires name version release "" "EQ" "").torpmBase
            (st.toBackend.deref p).torpmBase) := rfl
      rw [hfil] at hcont hklen
      by_cases hpos : ((List.range pkgs.len).foldl (keepMatching st.rpmOfPkg
          (NewRequires name version release "" "EQ" "").torpmBase pkgs)
          (st.pkgArrays.make 0 pkgs.len)).2.len > 0
      · have hpos' : ((st.pkgArrays.cells pkgs).reduceOption.filter (fun p => ProvideMatches
            (NewRequires name version release "" "EQ" "").torpmBase
            (st.toBackend.deref p).torpmBase)).length > 0 := by rw [hklen]; exact hpos
        rw [if_pos hpos, if_pos hpos']
        have := sorted_last st.toBackend.lessPkg
          (fun p q => RpmLessThan (st.rpmOfPkg p) (st.rpmOfPkg q)) (fun _ _ => rfl)
          st.pkgArrays _ _ _ hb hcont hpos
        simp only [this]
      · have hpos' : ¬ ((st.pkgArrays.cells pkgs).reduceOption.filter (fun p => ProvideMatches
            (NewRequires name version release "" "EQ" "").torpmBase
            (st.toBackend.deref p).torpmBase)).length > 0 := by rw [hklen]; exact hpos
        rw [if_neg hpos, if_neg hpos']

theorem FindLatestMatchingRequire_result (st : XMLStore) (hwf : st.WellFormed)
    (requirement : Requires) :
    (st.FindLatestMatchingRequire requirement).2
      = st.toBackend.FindLatestMatchingRequire requirement := by
  unfold FindLatestMatchingRequire RepositoryXMLBackend.FindLatestMatchingRequire
  cases hk : st.Provides requirement.name with
  | none => simp [toBackend, hk]
  | some pkgs =>
    obtain ⟨hs, hl, hnn⟩ := hwf.2 requirement.name pkgs hk
    have hcl := map_some_reduceOption (st.provArrays.cells pkgs) hnn
    have hlen : (st.provArrays.cells pkgs).reduceOption.length = pkgs.len := by
      rw [← hl, ← List.length_map _ some, hcl]
    have hB : st.toBackend.Provides requirement.name
        = some (st.provArrays.cells pkgs).reduceOption := by
      simp [toBackend, hk]
    rw [hB]
    simp only
    by_cases hc : requirement.version = "" ∧ pkgs.len > 0
    · have hc' : requirement.version = "" ∧
          (st.provArrays.cells pkgs).reduceOption.length > 0 := ⟨hc.1, by rw [hlen]; exact hc.2⟩
      rw [if_pos hc, if_pos hc']
      obtain ⟨hb, hcont⟩ := Arrays.foldl_keep (fun _ => true) st.provArrays pkgs
        (fun acc i => acc.1.append acc.2 [acc.1.index pkgs i])
        (appendAll_eq pkgs) pkgs.len _ (Arrays.building_make st.provArrays pkgs.len).1
      have hcont := hcont hs
      rw [(Arrays.building_make st.provArrays pkgs.len).2, List.nil_append,
        Arrays.range_map_index _ _ hl, ← hcl] at hcont
      have hall : List.filter (fun _ : Option Yum.Provides => true)
          (List.map some (st.provArrays.cells pkgs).reduceOption)
          = List.map some (st.provArrays.cells pkgs).reduceOption :=
        List.filter_eq_self.2 (fun _ _ => rfl)
      rw [hall] at hcont
      have hklen := hb.2.2.2
      rw [hcont, List.length_map, hlen] at hklen
      have hpos : 0 < ((List.range pkgs.len).foldl
          (fun acc i => acc.1.append acc.2 [acc.1.index pkgs i])
          (st.provArrays.make 0 pkgs.len)).2.len := by
        rw [← hklen]; exact hc.2
      have := sorted_last lessProv
        (fun p q => RpmLessThan (rpmOfProv p) (rpmOfProv q)) (fun _ _ => rfl)
        st.provArrays _ _ _ hb hcont hpos
      simp only [this]
    · have hc' : ¬ (requirement.version = "" ∧
          (st.provArrays.cells pkgs).reduceOption.length > 0) := by
        rw [hlen]; exact hc
      rw [if_neg hc, if_neg hc']
      obtain ⟨hb, hcont⟩ := Arrays.foldl_keep
        (fun c => ProvideMatches requirement.torpmBase (rpmOfProv c)) st.provArrays pkgs
        (keepMatching rpmOfProv requirement.torpmBase pkgs)
        (keepMatching_eq _ _ _) pkgs.len _ (Arrays.building_make st.provArrays pkgs.len).1
      have hcont := hcont hs
      rw [(Arrays.building_make st.provArrays pkgs.len).2, List.nil_append,
        Arrays.range_map_index _ _ hl, ← hcl, List.filter_map] at hcont
      have hklen := hb.2.2.2
      rw [hcont, List.length_map] at hklen
      have hfil : (List.filter ((fun c => ProvideMatches requirement.torpmBase (rpmOfProv c))
          ∘ some) (st.provArrays.cells pkgs).reduceOption) =
          (st.provArrays.cells pkgs).reduceOption.filter (fun p => ProvideMatches
            requirement.torpmBase p.torpmBase) := rfl
      rw [hfil] at hcont hklen
      by_cases hpos : ((List.range pkgs.len).foldl (keepMatching rpmOfProv
          requirement.torpmBase pkgs) (st.provArrays.make 0 pkgs.len)).2.len > 0
      · have hpos' : ((st.provArrays.cells pkgs).reduceOption.filter (fun p => ProvideMatches
            requirement.torpmBase p.torpmBase)).length > 0 := by rw [hklen]; exact hpos
        rw [if_pos hpos, if_pos hpos']
        have := sorted_last lessProv
          (fun p q => RpmLessThan (rpmOfProv p) (rpmOfProv q)) (fun _ _ => rfl)
          st.provArrays _ _ _ hb hcont hpos
        simp only [this]
      · have hpos' : ¬ ((st.provArrays.cells pkgs).reduceOption.filter (fun p => ProvideMatches
            requirement.torpmBase p.torpmBase)).length > 0 := by rw [hklen]; exact hpos
        rw [if_neg hpos, if_neg hpos']

theorem GetPackages_result (st : XMLStore) (hwf : st.WellFormed) (iter : List String) :
    (st.GetPackages iter).1.pkgArrays.cells (st.GetPackages iter).2
      = (st.toBackend.GetPackages iter).map some := by
  unfold GetPackages
  simp only
  refine (foldl_getPackages_cells st (fun k s hk => (hwf.1 k s hk).1) iter _
    (Arrays.building_make st.pkgArrays iter.length).1).trans ?_
  rw [(Arrays.building_make st.pkgArrays iter.length).2, List.nil_append,
    RepositoryXMLBackend.GetPackages_eq_flatMap]
  generalize iter = l
  induction l with
  | nil => rfl
  | cons k l ih =>
    simp only [List.flatMap_cons, List.map_append, ih]
    congr 1
    cases hk : st.Packages k with
    | none => simp [toBackend, hk]
    | some s =>
      simp only [toBackend, hk, Option.map_some', Option.getD_some]
      exact (map_some_reduceOption _ (hwf.1 k s hk).2.2).symm

theorem Frames.wellFormed {st st' : XMLStore} (h : st.Frames st') (hwf : st.WellFormed) :
    st'.WellFormed ∧ st'.toBackend = st.toBackend := by
  obtain ⟨h1, h2, h3, h4, h5, h6, h7, h8⟩ := h
  have hP : ∀ k s, st.Packages k = some s → st'.pkgArrays.cells s = st.pkgArrays.cells s :=
    fun k s hk => Arrays.cells_of_prefix h7 s (hwf.1 k s hk).1
  have hV : ∀ k s, st.Provides k = some s → st'.provArrays.cells s = st.provArrays.cells s :=
    fun k s hk => Arrays.cells_of_prefix h8 s (hwf.2 k s hk).1
  refine ⟨⟨?_, ?_⟩, ?_⟩
  · intro k s hk
    rw [h2] at hk
    rw [hP k s hk]
    exact ⟨Nat.lt_of_lt_of_le (hwf.1 k s hk).1 h7.length_le, (hwf.1 k s hk).2⟩
  · intro k s hk
    rw [h3] at hk
    rw [hV k s hk]
    exact ⟨Nat.lt_of_lt_of_le (hwf.2 k s hk).1 h8.length_le, (hwf.2 k s hk).2⟩
  · have e1 : (fun k => (st'.Packages k).map (fun s => (st'.pkgArrays.cells s).reduceOption))
        = (fun k => (st.Packages k).map (fun s => (st.pkgArrays.cells s).reduceOption)) := by
      funext k
      rw [h2]
      cases hk : st.Packages k with
      | none => rfl
      | some s => simp only [Option.map_some', hP k s hk]
    have e2 : (fun k => (st'.Provides k).map (fun s => (st'.provArrays.cells s).reduceOption))
        = (fun k => (st.Provides k).map (fun s => (st.provArrays.cells s).reduceOption)) := by
      funext k
      rw [h3]
      cases hk : st.Provides k with
      | none => rfl
      | some s => simp only [Option.map_some', hV k s hk]
    simp only [toBackend, h1, h4, h5, h6, e1, e2]

theorem GetPackages_perm (repo : RepositoryXMLBackend) (iter iter' : List String)
    (h : repo.IsKeyOrder iter) (h' : repo.IsKeyOrder iter') :
    (repo.GetPackages iter').Perm (repo.GetPackages iter) := by
  rw [RepositoryXMLBackend.GetPackages_eq_flatMap, RepositoryXMLBackend.GetPackages_eq_flatMap]
  exact List.Perm.flatMap_right _
    ((List.perm_ext_iff_of_nodup h'.1 h.1).2 (fun k => (h'.2 k).trans (h.2 k).symm))

end XMLStore

theorem exStore_wellFormed : exStore.WellFormed := by
  refine ⟨fun k s hk => ?_, fun k s hk => ?_⟩
  · simp only [exStore] at hk
    split at hk
    · cases hk; decide
    · split at hk
      · cases hk; decide
      · cases hk
  · simp only [exStore] at hk
    split at hk
    · cases hk; decide
    · cases hk

theorem exStore_isKeyOrder (iter : List String) (hn : iter.Nodup)
    (hm : ∀ k, k ∈ iter ↔ k = "foo" ∨ k = "bar") : exStore.toBackend.IsKeyOrder iter := by
  refine ⟨hn, fun k => ?_⟩
  rw [hm]
  simp only [XMLStore.toBackend, exStore, Option.isSome_map']
  by_cases h1 : k = "foo"
  · simp [h1]
  · by_cases h2 : k = "bar"
    · simp [h2]
    · simp [h1, h2]

/-! ## C12: the queries of the XML backend are read-only -/

/-- C12: on the XML backend `FindLatestMatchingName`, `FindLatestMatchingRequire` and
`GetPackages` write only to backing arrays they allocate themselves: from every state
of the memory and for every argument, the two maps of slice headers, the heap and
every backing array that existed before the call are the same after it (sorting
happens in a fresh array). Hence, in a well-formed memory, both indexes read as lists
are unchanged, order of every candidate list included, each query returns what the
query on lists returns, and a repeated `FindLatestMatchingName` or
`FindLatestMatchingRequire` returns the same result. A repeated `GetPackages` returns
the same packages, in the same order when `range` visits the keys of the map in the
same order, and a permutation of it otherwise. -/
theorem C12_queries_read_only (st : XMLStore) (name version release : String)
    (requirement : Requires) (iter iter' : List String) :
    st.Frames (st.FindLatestMatchingName name version release).1 ∧
    st.Frames (st.FindLatestMatchingRequire requirement).1 ∧
    st.Frames (st.GetPackages iter).1 ∧
    (st.WellFormed →
      ((st.FindLatestMatchingName name version release).1.toBackend = st.toBackend ∧
        (st.FindLatestMatchingRequire requirement).1.toBackend = st.toBackend ∧
        (st.GetPackages iter).1.toBackend = st.toBackend) ∧
      ((st.FindLatestMatchingName name version release).2
          = st.toBackend.FindLatestMatchingName name version release ∧
        (st.FindLatestMatchingRequire requirement).2
          = st.toBackend.FindLatestMatchingRequire requirement ∧
        (st.GetPackages iter).1.pkgArrays.cells (st.GetPackages iter).2
          = (st.toBackend.GetPackages iter).map some) ∧
      (((st.FindLatestMatchingName name version release).1.FindLatestMatchingName
          name version release).2 = (st.FindLatestMatchingName name version release).2 ∧
        ((st.FindLatestMatchingRequire requirement).1.FindLatestMatchingRequire
          requirement).2 = (st.FindLatestMatchingRequire requirement).2 ∧
        ((st.GetPackages iter).1.GetPackages iter).1.pkgArrays.cells
            ((st.GetPackages iter).1.GetPackages iter).2
          = (st.GetPackages iter).1.pkgArrays.cells (st.GetPackages iter).2) ∧
      (st.toBackend.IsKeyOrder iter → st.toBackend.IsKeyOrder iter' →
        (((st.GetPackages iter).1.GetPackages iter').1.pkgArrays.cells
            ((st.GetPackages iter).1.GetPackages iter').2).Perm
          ((st.GetPackages iter).1.pkgArrays.cells (st.GetPackages iter).2))) := by
  have f1 := XMLStore.FindLatestMatchingName_frames st name version release
  have f2 := XMLStore.FindLatestMatchingRequire_frames st requirement
  have f3 := XMLStore.GetPackages_frames st iter
  refine ⟨f1, f2, f3, fun hwf => ?_⟩
  obtain ⟨w1, b1⟩ := f1.wellFormed hwf
  obtain ⟨w2, b2⟩ := f2.wellFormed hwf
  obtain ⟨w3, b3⟩ := f3.wellFormed hwf
  refine ⟨⟨b1, b2, b3⟩, ⟨XMLStore.FindLatestMatchingName_result st hwf _ _ _,
    XMLStore.FindLatestMatchingRequire_result st hwf _,
    XMLStore.GetPackages_result st hwf _⟩, ⟨?_, ?_, ?_⟩, fun hi hi' => ?_⟩
  · rw [XMLStore.FindLatestMatchingName_result _ w1, b1,
      XMLStore.FindLatestMatchingName_result st hwf]
  · rw [XMLStore.FindLatestMatchingRequire_result _ w2, b2,
      XMLStore.FindLatestMatchingRequire_result st hwf]
  · rw [XMLStore.GetPackages_result _ w3, b3, XMLStore.GetPackages_result st hwf]
  · rw [XMLStore.GetPackages_result _ w3, b3, XMLStore.GetPackages_result st hwf]
    exact (XMLStore.GetPackages_perm _ _ _ hi hi').map _

theorem C12_queries_read_only_witness :
    exStore.WellFormed ∧ exStore.toBackend.IsKeyOrder ["foo", "bar"] ∧
    exStore.toBackend.IsKeyOrder ["bar", "foo"] ∧
    (exStore.FindLatestMatchingName "foo" "" "").2 = (some 1, none) ∧
    (exStore.FindLatestMatchingName "foo" "" "").1.pkgArrays
      = exStore.pkgArrays ++ [[some 0, some 2, some 1]] ∧
    ((exStore.FindLatestMatchingName "foo" "" "").1.FindLatestMatchingName "foo" "" "").2
      = (exStore.FindLatestMatchingName "foo" "" "").2 ∧
    ((exStore.FindLatestMatchingRequire
        (NewRequires "libbar" "" "" "" "" "")).1.FindLatestMatchingRequire
        (NewRequires "libbar" "" "" "" "" "")).2
      = (exStore.FindLatestMatchingRequire (NewRequires "libbar" "" "" "" "" "")).2 ∧
    (exStore.FindLatestMatchingRequire (NewRequires "libbar" "" "" "" "" "")).2
      = (some 3, none) ∧
    (((exStore.GetPackages ["foo", "bar"]).1.GetPackages ["bar", "foo"]).1.pkgArrays.cells
        ((exStore.GetPackages ["foo", "bar"]).1.GetPackages ["bar", "foo"]).2).Perm
      ((exStore.GetPackages ["foo", "bar"]).1.pkgArrays.cells
        (exStore.GetPackages ["foo", "bar"]).2) := by
  have h := (C12_queries_read_only exStore "foo" "" "" (NewRequires "libbar" "" "" "" "" "")
    ["foo", "bar"] ["bar", "foo"]).2.2.2 exStore_wellFormed
  have k1 := exStore_isKeyOrder ["foo", "bar"] (by decide) (fun k => by simp)
  have k2 := exStore_isKeyOrder ["bar", "foo"] (by decide) (fun k => by simp [or_comm])
  exact ⟨exStore_wellFormed, k1, k2, by decide, by decide, h.2.2.1.1, h.2.2.1.2.1, by decide,
    h.2.2.2 k1 k2⟩

/-- C12, as stated: repeating `GetPackages` on the same state need not return the
same result. The map `Packages` of the example has the keys `foo` and `bar`; when
`range` visits them as `foo`, `bar` the call returns the packages 0, 1, 2, 3, and when
the next call on the resulting state visits them as `bar`, `foo` it returns 3, 0, 1,
2, although the first call changed neither index. -/
theorem C12_counterexample :
    exStore.WellFormed ∧ exStore.toBackend.IsKeyOrder ["foo", "bar"] ∧
    exStore.toBackend.IsKeyOrder ["bar", "foo"] ∧
    (exStore.GetPackages ["foo", "bar"]).1.Packages = exStore.Packages ∧
    (exStore.GetPackages ["foo", "bar"]).1.toBackend = exStore.toBackend ∧
    (exStore.GetPackages ["foo", "bar"]).1.pkgArrays.cells (exStore.GetPackages ["foo", "bar"]).2
      = [some 0, some 1, some 2, some 3] ∧
    ((exStore.GetPackages ["foo", "bar"]).1.GetPackages ["bar", "foo"]).1.pkgArrays.cells
        ((exStore.GetPackages ["foo", "bar"]).1.GetPackages ["bar", "foo"]).2
      = [some 3, some 0, some 1, some 2] ∧
    ((exStore.GetPackages ["foo", "bar"]).1.GetPackages ["bar", "foo"]).1.pkgArrays.cells
        ((exStore.GetPackages ["foo", "bar"]).1.GetPackages ["bar", "foo"]).2
      ≠ (exStore.GetPackages ["foo", "bar"]).1.pkgArrays.cells
        (exStore.GetPackages ["foo", "bar"]).2 := by
  refine ⟨exStore_wellFormed, exStore_isKeyOrder _ (by decide) (fun k => by simp),
    exStore_isKeyOrder _ (by decide) (fun k => by simp [or_comm]), rfl,
    ((XMLStore.GetPackages_frames exStore _).wellFormed exStore_wellFormed).2,
    by decide, by decide, by decide⟩

namespace sqlDB

theorem FindLatestMatchingName_of_ok (h : sqlDB) (fresh : PkgPtr)
    (name version release : String)
    (hq : h.fault (sqlQuery.loadPackagesByName name version) = none) :
    h.FindLatestMatchingName fresh name version release
      = RepositorySQLiteBackend.FindLatestMatchingName h.tables fresh name version release := by
  simp only [FindLatestMatchingName, loadPackagesByName, hq,
    RepositorySQLiteBackend.FindLatestMatchingName]

theorem FindLatestMatchingRequire_of_ok (h : sqlDB) (fresh : PkgPtr) (requirement : Requires)
    (hq : ∀ q, h.fault q = none) :
    h.FindLatestMatchingRequire fresh requirement
      = RepositorySQLiteBackend.FindLatestMatchingRequire h.tables fresh requirement := by
  simp only [FindLatestMatchingRequire, findProvidesByName, loadPackagesProviding, hq,
    RepositorySQLiteBackend.FindLatestMatchingRequire]

end sqlDB

/-! ## C11: what a failed lookup reports -/

end Yum
